import Mathlib

/-!
Verification of the grouping / validation / serialization engine of the
logistics experiment configuration editor.

The JavaScript sources are embedded shallowly: JS objects whose key sets are
fixed by the program become Lean structures with `Option` fields for the keys
that may be absent (`none` models both `null` and `undefined` where the code
treats them alike, and is noted where the code distinguishes them), dynamic
string-keyed maps become association lists in insertion order, and JS
truthiness is modelled explicitly.  Group common-parameter values are modelled
by their JS string image: the program writes non-strings (numbers) only into
the pdt / mean-delay bound parameters, and reads every parameter back only
through truthiness, `parseInt` and (in)equality, on which decimal rendering is
injective, so the string image is faithful.
-/

namespace PdtConfig

/-- Values stored inside a flat entry's `conditions` object.  `nan` models the
JS `NaN` produced by a failed `parseInt`. -/
inductive CondVal where
  | int (n : Int)
  | bool (b : Bool)
  | str (s : String)
  | arr (xs : List String)
  | nan
deriving DecidableEq, Repr

/-- A JS object used as a string-keyed map, in insertion order. -/
abbrev CondMap := List (String × CondVal)

/-- Property lookup on a JS object: `none` models `undefined`. -/
def jsLookup (m : List (String × α)) (k : String) : Option α :=
  (m.find? (fun p => p.1 == k)).map (fun p => p.2)

/-- Property assignment on a JS object: overwrite in place, else append. -/
def jsSet (m : List (String × α)) (k : String) (v : α) : List (String × α) :=
  if (m.find? (fun p => p.1 == k)).isSome then
    m.map (fun p => if p.1 == k then (k, v) else p)
  else
    m ++ [(k, v)]

/-- JS truthiness of a possibly-absent string: `undefined` and `""` are falsy. -/
def truthyStr : Option String → Bool
  | none => false
  | some s => !(s == "")

/-- JS `Array.prototype.join`: parts joined by a separator, `""` on the empty
list. -/
def joinParts (sep : String) : List String → String
  | [] => ""
  | x :: xs => xs.foldl (fun acc y => acc ++ sep ++ y) x

/-- The JS idiom `s || d` on a possibly-absent string value. -/
def jsOrStr (o : Option String) (d : String) : String :=
  if truthyStr o then o.get! else d

/-- Capping `single` payload of a flat entry. -/
structure CapSingle where
  min : Int
  max : Int
deriving DecidableEq, Repr

/-- Capping `ranges` payload of a flat entry (`min`/`max` sub-objects each
carrying `lower_bound` and `upper_bound`). -/
structure CapRanges where
  minLowerBound : Int
  minUpperBound : Int
  maxLowerBound : Int
  maxUpperBound : Int
deriving DecidableEq, Repr

/-- One flat serialized entry.  All fields are optional, as on the duck-typed
JS objects; `title_` embeds the `_title` sidecar field. -/
structure FlatEntry where
  format : Option String := none
  delivery_option : Option String := none
  lower_bound : Option Int := none
  upper_bound : Option Int := none
  strategy : Option String := none
  single : Option CapSingle := none
  ranges : Option CapRanges := none
  conditions : Option CondMap := none
  title_ : Option String := none
deriving DecidableEq, Repr

/-- The four section kinds. -/
inductive SectionType where
  | displayFormat
  | ranges
  | capping
  | rounding
deriving DecidableEq, Repr

/-- A `pdt` section: a one-key JS object holding a flat entry list. -/
structure Section where
  kind : SectionType
  entries : List FlatEntry
deriving DecidableEq, Repr

/-- An in-memory ranges rule (`ConfigManager` group rule).  The rule's bound
fields hold `null` when unbounded; `none` models that. -/
structure RangesRule where
  lowerBound : Int
  upperBound : Int
  pdtGreaterThan : Option Int
  pdtLessThanOrEqualTo : Option Int
  meanDelayGreaterThan : Option Int
  meanDelayLessThanOrEqualTo : Option Int
deriving DecidableEq, Repr

/-- An in-memory capping rule: the `type` tag selects which field set is
present, and `updateRule` resets the shape wholesale on a type change, so a
tagged union is faithful. -/
inductive CappingRule where
  | single (min max : Int)
  | ranges (minLowerBound minUpperBound maxLowerBound maxUpperBound : Int)
deriving DecidableEq, Repr

/-- An in-memory rule of any section kind. -/
inductive Rule where
  | df (format : String) (conditions : CondMap)
  | rg (r : RangesRule)
  | cp (c : CappingRule)
deriving DecidableEq, Repr

/-- The JS read `rule.format`: `undefined` on non-display-format rules. -/
def Rule.formatOf : Rule → Option String
  | .df f _ => some f
  | _ => none

/-- The JS test `rule.type === 'single'`. -/
def Rule.isSingle : Rule → Bool
  | .cp (.single _ _) => true
  | _ => false

/-- The JS test `rule.type === 'ranges'` on a capping rule. -/
def Rule.isCapRanges : Rule → Bool
  | .cp (.ranges _ _ _ _) => true
  | _ => false

/-- An in-memory group. -/
structure Group where
  id : String
  type : SectionType
  title : String
  commonParams : List (String × String)
  rules : List Rule
deriving DecidableEq, Repr

/-! ### ValidationManager -/

/-- Identity of a validation-issue message (the human text is presentation
data; each distinct template in the source gets one constructor). -/
inductive IssueMsg where
  | identicalParams (t1 t2 : String)
  | identicalParamsWithFormat (t1 t2 : String) (formats : List (Option String))
  | multipleFormatRules (title : String)
  | overlappingConditions (rule1Index rule2Index : Nat)
  | multipleSingleRules (indices : List Nat)
  | multipleRangesRules (indices : List Nat)
deriving DecidableEq, Repr

/-- Whether a message is the capping multiple-single-rules message. -/
def IssueMsg.isMultipleSingle : IssueMsg → Bool
  | .multipleSingleRules _ => true
  | _ => false

/-- Whether a message is the capping multiple-ranges-rules message. -/
def IssueMsg.isMultipleRanges : IssueMsg → Bool
  | .multipleRangesRules _ => true
  | _ => false

/-- A duplicate-groups issue. -/
structure DuplicateIssue where
  group1 : String
  group2 : String
  type : SectionType
  msg : IssueMsg
deriving DecidableEq, Repr

/-- An overlapping-rules issue. -/
structure OverlapIssue where
  groupId : String
  msg : IssueMsg
deriving DecidableEq, Repr

/-- A required-fields issue. -/
structure RequiredFieldIssue where
  groupId : String
  msg : IssueMsg
deriving DecidableEq, Repr

/-- `ValidationManager.areGroupsEqual`: common-parameter objects agree on key
count and on every key-value pair (strict `!==` on the values). -/
def areGroupsEqual (group1 group2 : Group) : Bool :=
  let params1 := group1.commonParams
  let params2 := group2.commonParams
  params1.length == params2.length &&
    params1.all (fun kv => jsLookup params2 kv.1 == some kv.2)

/-- All ordered pairs `(l[i], l[j])` with `i < j`, in the nested-loop order of
the source's duplicate scans. -/
def allPairs : List α → List (α × α)
  | [] => []
  | x :: xs => xs.map (fun y => (x, y)) ++ allPairs xs

/-- Section types in first-seen order (the key order of the `groupsByType`
object built by `checkDuplicateGroups`). -/
def seenTypes (groups : List Group) : List SectionType :=
  groups.foldl (fun acc g => if acc.contains g.type then acc else acc ++ [g.type]) []

/-- The inner pair loop of `ValidationManager.checkDuplicateGroups` over one
type's group cluster. -/
def duplicatePairIssues (typeGroups : List Group) (t : SectionType) : List DuplicateIssue :=
  (allPairs typeGroups).filterMap (fun p =>
    if areGroupsEqual p.1 p.2 then
      some ⟨p.1.id, p.2.id, t, .identicalParams p.1.title p.2.title⟩
    else none)

/-- `ValidationManager.checkDuplicateGroups`: clusters groups by section type
and flags every pair with identical common parameters. -/
def checkDuplicateGroups (groups : List Group) : List DuplicateIssue :=
  ((seenTypes groups).map (fun t =>
    let typeGroups := groups.filter (fun g => g.type == t)
    if typeGroups.length ≤ 1 then [] else duplicatePairIssues typeGroups t)).flatten

/-- The fixed key list of `haveMatchingParameters`. -/
def displayParamKeys : List String :=
  ["deliveryMode", "marketplace", "pdtLessThanOrEqualTo", "verticalType"]

/-- The JS test `params[key] !== undefined && params[key] !== ''`. -/
def paramExists (params : List (String × String)) (k : String) : Bool :=
  match jsLookup params k with
  | none => false
  | some v => !(v == "")

/-- `ValidationManager.haveMatchingParameters`: for each display-format
parameter key, presence must agree, and present values must be equal. -/
def haveMatchingParameters (params1 params2 : List (String × String)) : Bool :=
  displayParamKeys.all (fun k =>
    let e1 := paramExists params1 k
    let e2 := paramExists params2 k
    e1 == e2 && (!(e1 && e2) || jsLookup params1 k == jsLookup params2 k))

/-- `ValidationManager.checkDuplicateDisplayFormats`: returns the
duplicate-group issues and the required-field (too-many-formats) issues it
pushes.  Nothing is produced when fewer than two display-format groups exist. -/
def checkDuplicateDisplayFormats (groups : List Group) :
    List DuplicateIssue × List RequiredFieldIssue :=
  let displayFormatGroups := groups.filter (fun g => g.type == .displayFormat)
  if displayFormatGroups.length < 2 then ([], [])
  else
    let reqs := displayFormatGroups.filterMap (fun g =>
      if 1 < g.rules.length then some (⟨g.id, .multipleFormatRules g.title⟩ : RequiredFieldIssue)
      else none)
    let dups := (allPairs displayFormatGroups).filterMap (fun p =>
      if haveMatchingParameters p.1.commonParams p.2.commonParams then
        let group1Formats := p.1.rules.map Rule.formatOf
        let group2Formats := p.2.rules.map Rule.formatOf
        let duplicateFormats := group1Formats.filter (fun f => group2Formats.contains f)
        if 0 < duplicateFormats.length then
          some ⟨p.1.id, p.2.id, .displayFormat,
            .identicalParamsWithFormat p.1.title p.2.title duplicateFormats⟩
        else none
      else none)
    (dups, reqs)

/-- The duplicate-group issue list accumulated by `validateConfiguration`:
`checkDuplicateGroups` runs first, then `checkDuplicateDisplayFormats` appends
its stricter display-format findings to the same list. -/
def duplicateIssuesAll (groups : List Group) : List DuplicateIssue :=
  checkDuplicateGroups groups ++ (checkDuplicateDisplayFormats groups).1

/-- Strict `a < b` on bounds that are present; an absent side stands for the
infinity that makes the comparison false (`Infinity < x` and `x < -Infinity`
never hold). -/
def bothLt : Option Int → Option Int → Bool
  | some x, some y => decide (x < y)
  | _, _ => false

/-- `ValidationManager.doRangesRulesOverlap` (the corrected second version):
exact-boundary carve-outs first, then the interval test, per dimension; a rule
with no Mean-Delay bound at all makes the Mean-Delay dimension overlap. -/
def doRangesRulesOverlap (rule1 rule2 : RangesRule) : Bool :=
  -- Rule 1: PDT <= X and Rule 2: PDT > X do not overlap
  if rule1.pdtLessThanOrEqualTo.isSome && rule2.pdtGreaterThan.isSome &&
      rule1.pdtLessThanOrEqualTo == rule2.pdtGreaterThan then false
  -- Rule 2: PDT <= X and Rule 1: PDT > X do not overlap
  else if rule2.pdtLessThanOrEqualTo.isSome && rule1.pdtGreaterThan.isSome &&
      rule2.pdtLessThanOrEqualTo == rule1.pdtGreaterThan then false
  -- standard PDT range check: pdt1To < pdt2From || pdt1From > pdt2To
  else if bothLt rule1.pdtLessThanOrEqualTo rule2.pdtGreaterThan ||
      bothLt rule2.pdtLessThanOrEqualTo rule1.pdtGreaterThan then false
  -- at least one rule has no Mean-Delay constraints at all
  else if (rule1.meanDelayGreaterThan.isNone && rule1.meanDelayLessThanOrEqualTo.isNone) ||
      (rule2.meanDelayGreaterThan.isNone && rule2.meanDelayLessThanOrEqualTo.isNone) then true
  -- Mean-Delay exact-boundary carve-outs
  else if rule1.meanDelayLessThanOrEqualTo.isSome && rule2.meanDelayGreaterThan.isSome &&
      rule1.meanDelayLessThanOrEqualTo == rule2.meanDelayGreaterThan then false
  else if rule2.meanDelayLessThanOrEqualTo.isSome && rule1.meanDelayGreaterThan.isSome &&
      rule2.meanDelayLessThanOrEqualTo == rule1.meanDelayGreaterThan then false
  -- standard Mean-Delay range check
  else if bothLt rule1.meanDelayLessThanOrEqualTo rule2.meanDelayGreaterThan ||
      bothLt rule2.meanDelayLessThanOrEqualTo rule1.meanDelayGreaterThan then false
  else true

/-- `ValidationManager.checkOverlappingRangesRules`: flags every overlapping
pair of ranges rules in a group. -/
def checkOverlappingRangesRules (groupId : String) (rules : List RangesRule) :
    List OverlapIssue :=
  ((allPairs (rules.enum)).filterMap (fun p =>
    if doRangesRulesOverlap p.1.2 p.2.2 then
      some (⟨groupId, .overlappingConditions p.1.1 p.2.1⟩ : OverlapIssue)
    else none))

/-- `ValidationManager.checkOverlappingCappingRules`: more than one
single-type rule, or more than one ranges-type rule, each produce an issue
carrying the offending rule indices. -/
def checkOverlappingCappingRules (groupId : String) (rules : List Rule) :
    List OverlapIssue :=
  let singleCount := rules.countP (fun r => r.isSingle)
  let rangesCount := rules.countP (fun r => r.isCapRanges)
  (if 1 < singleCount then
    [⟨groupId, .multipleSingleRules
      ((rules.enum.filter (fun p => p.2.isSingle)).map (fun p => p.1))⟩]
   else []) ++
  (if 1 < rangesCount then
    [⟨groupId, .multipleRangesRules
      ((rules.enum.filter (fun p => p.2.isCapRanges)).map (fun p => p.1))⟩]
   else [])

/-- The ranges rules of a group as seen by the ranges overlap scan (non-ranges
rules have all rule fields `undefined`, i.e. fully unbounded). -/
def Rule.asRangesRule : Rule → RangesRule
  | .rg r => r
  | _ => ⟨0, 0, none, none, none, none⟩

/-- `ValidationManager.checkOverlappingRules` under the `rules.length > 1`
gate of `validateConfiguration`: dispatch on the group's section type. -/
def overlappingIssuesForGroup (g : Group) : List OverlapIssue :=
  if 1 < g.rules.length then
    match g.type with
    | .ranges => checkOverlappingRangesRules g.id (g.rules.map Rule.asRangesRule)
    | .capping => checkOverlappingCappingRules g.id g.rules
    | _ => []
  else []

/-! ### Decimal rendering and JS parseInt -/

/-- The decimal digit character for `n < 10`. -/
def digitChar (n : Nat) : Char := Char.ofNat (48 + n)

/-- Decimal digit accumulation for `natRepr`; the first argument is
structural fuel, always ample at `n + 1`. -/
def natDigitsAux : Nat → Nat → List Char
  | 0, _ => []
  | f + 1, n =>
    if n < 10 then [digitChar n]
    else natDigitsAux f (n / 10) ++ [digitChar (n % 10)]

/-- Decimal rendering of a natural number, as JS template interpolation
produces it. -/
def natRepr (n : Nat) : String := String.mk (natDigitsAux (n + 1) n)

/-- Decimal rendering of an integer, as JS template interpolation produces
it. -/
def intRepr (n : Int) : String :=
  if n < 0 then "-" ++ natRepr n.natAbs else natRepr n.natAbs

/-- Numeric value of a list of decimal digit characters. -/
def digitsToNat (ds : List Char) : Nat :=
  ds.foldl (fun acc c => acc * 10 + (c.toNat - 48)) 0

/-- Parse the leading run of decimal digits; `none` when there is none. -/
def parseLeadingDigits (cs : List Char) : Option Nat :=
  let ds := cs.takeWhile Char.isDigit
  if ds.isEmpty then none else some (digitsToNat ds)

/-- JS `parseInt` on the string data this program feeds it: skip leading
spaces, optional sign, then the leading decimal-digit run; `none` models
`NaN`. -/
def jsParseInt (s : String) : Option Int :=
  match s.data.dropWhile (fun c => c == ' ') with
  | '-' :: rest => (parseLeadingDigits rest).map (fun n => -(n : Int))
  | '+' :: rest => (parseLeadingDigits rest).map (fun n => (n : Int))
  | cs => (parseLeadingDigits cs).map (fun n => (n : Int))

/-- The condition value `parseInt` stores: the parsed integer, or `NaN`. -/
def parseIntCond (s : String) : CondVal :=
  match jsParseInt s with
  | some n => .int n
  | none => .nan

/-! ### ConfigManager: grouping key (`groupByCommonParams`) -/

/-- JS truthiness of a condition value; arrays are objects and always truthy. -/
def condTruthy : CondVal → Bool
  | .int n => !(n == 0)
  | .bool b => b
  | .str s => !(s == "")
  | .arr _ => true
  | .nan => false

/-- JS `String(v)` / template interpolation of a condition value. -/
def condValString : CondVal → String
  | .int n => intRepr n
  | .bool b => if b then "true" else "false"
  | .str s => s
  | .arr xs => joinParts "," xs
  | .nan => "NaN"

/-- The JS test `v === true || v === 'true'`. -/
def condIsTrueLike : CondVal → Bool
  | .bool b => b
  | .str s => s == "true"
  | _ => false

/-- The JS test `entry.conditions && Object.keys(entry.conditions).length > 0`. -/
def hasAnyConditions (e : FlatEntry) : Bool :=
  match e.conditions with
  | some m => !m.isEmpty
  | none => false

/-- The JS test `!hasAnyConditions && entry.delivery_option && !entry.conditions`:
note that an explicitly present (even empty) conditions object makes this
false. -/
def hasOnlyDeliveryOption (e : FlatEntry) : Bool :=
  !hasAnyConditions e && truthyStr e.delivery_option && e.conditions == none

/-- One key part of the full-conditions case of the grouping key, per
condition parameter name.  `vertical_types` always contributes, with the
`ANY` placeholder when absent or empty. -/
def case3Part (m : CondMap) (key : String) : Option String :=
  if key == "delivery_mode" then
    match jsLookup m "delivery_mode" with
    | some v => if condTruthy v then some ("delivery_mode:" ++ (condValString v).toUpper) else none
    | none => none
  else if key == "marketplace" then
    match jsLookup m "marketplace" with
    | some v => some ("marketplace:" ++ (if condIsTrueLike v then "true" else "false"))
    | none => none
  else if key == "vertical_types" then
    some ("vertical_types:" ++
      (match jsLookup m "vertical_types" with
       | some (.arr xs) => if xs.isEmpty then "ANY" else joinParts "," xs
       | _ => "ANY"))
  else if key == "pdt_less_than_or_equal_to" then
    (jsLookup m "pdt_less_than_or_equal_to").map
      (fun v => "pdt_less_than_or_equal_to:" ++ condValString v)
  else none

/-- The grouping key built per entry by `ConfigManager.groupByCommonParams`:
three cases (no conditions at all; delivery option without a conditions
object; full conditions), with a `default` fallback when no part applies. -/
def groupingKeyOfEntry (e : FlatEntry) (paramKeys : List String) : String :=
  if !hasAnyConditions e && !hasOnlyDeliveryOption e then
    "conditions:none"
  else if hasOnlyDeliveryOption e then
    "delivery_option:" ++ (e.delivery_option.getD "").toUpper ++ "|conditions:delivery_option_only"
  else
    let m := e.conditions.getD []
    let base := if truthyStr e.delivery_option then
        ["delivery_option:" ++ (e.delivery_option.getD "").toUpper]
      else []
    let parts := base ++ paramKeys.filterMap (case3Part m)
    let key := joinParts "|" parts
    if key == "" then "default" else key

/-- The section-specific parameter key set used to group `display_format`
entries. -/
def displayGroupKeys : List String :=
  ["delivery_mode", "marketplace", "pdt_less_than_or_equal_to", "vertical_types"]

/-- The section-specific parameter key set used to group `ranges` and
`capping` entries. -/
def rangesGroupKeys : List String :=
  ["delivery_option", "delivery_mode", "marketplace", "vertical_types"]

/-! ### ConfigManager: rebuilding a ranges rule from a flat entry -/

/-- The JS read `entry.conditions?.<k> || null` on an integer-valued bound
condition: an absent conditions object, an absent key, and the falsy value `0`
all give `null`.  Bound conditions are integer-valued in this format (§3 of
the data model), so only integer condition values produce a bound. -/
def jsOrNullCondInt (c : Option CondMap) (k : String) : Option Int :=
  match c with
  | none => none
  | some m =>
    match jsLookup m k with
    | some (.int n) => if n == 0 then none else some n
    | _ => none

/-- The flat-entry-to-rule mapping of the `ranges` branch of
`ConfigManager.rebuildGroupsMapping` (the rule pushed per sorted entry).
`lower_bound`/`upper_bound` are always present on entries of this format;
an absent one is modelled as `0`. -/
def rebuildRangesRule (e : FlatEntry) : RangesRule :=
  { lowerBound := e.lower_bound.getD 0
    upperBound := e.upper_bound.getD 0
    pdtGreaterThan := jsOrNullCondInt e.conditions "pdt_greater_than"
    pdtLessThanOrEqualTo := jsOrNullCondInt e.conditions "pdt_less_than_or_equal_to"
    meanDelayGreaterThan := jsOrNullCondInt e.conditions "mean_delay_greater_than"
    meanDelayLessThanOrEqualTo := jsOrNullCondInt e.conditions "mean_delay_less_than_or_equal_to" }

/-! ### ConfigManager: `updateConfigFromGroups` -/

/-- Common-parameter read on a group. -/
def cpGet (g : Group) (k : String) : Option String := jsLookup g.commonParams k

/-- Rule field reads used by the `ranges` branch: `undefined` on rules of
other shapes. -/
def Rule.rgLowerBound : Rule → Option Int
  | .rg r => some r.lowerBound
  | _ => none

/-- Rule field read `rule.upperBound`. -/
def Rule.rgUpperBound : Rule → Option Int
  | .rg r => some r.upperBound
  | _ => none

/-- Rule field read `rule.pdtGreaterThan`. -/
def Rule.rgPdtGT : Rule → Option Int
  | .rg r => r.pdtGreaterThan
  | _ => none

/-- Rule field read `rule.pdtLessThanOrEqualTo`. -/
def Rule.rgPdtLE : Rule → Option Int
  | .rg r => r.pdtLessThanOrEqualTo
  | _ => none

/-- Rule field read `rule.meanDelayGreaterThan`. -/
def Rule.rgMdGT : Rule → Option Int
  | .rg r => r.meanDelayGreaterThan
  | _ => none

/-- Rule field read `rule.meanDelayLessThanOrEqualTo`. -/
def Rule.rgMdLE : Rule → Option Int
  | .rg r => r.meanDelayLessThanOrEqualTo
  | _ => none

/-- A conditions pair for a present integer bound, nothing otherwise. -/
def optIntPair (k : String) : Option Int → CondMap
  | some n => [(k, .int n)]
  | none => []

/-- The `delivery_mode` conditions contribution from a group's common
parameters (`if (group.commonParams.deliveryMode)`). -/
def deliveryModeCond (g : Group) : CondMap :=
  match cpGet g "deliveryMode" with
  | some s => if s == "" then [] else [("delivery_mode", .str s)]
  | none => []

/-- The `marketplace` conditions contribution
(`marketplace !== undefined && marketplace !== ''`, stored as the boolean
`marketplace === 'true'`). -/
def marketplaceCond (g : Group) : CondMap :=
  match cpGet g "marketplace" with
  | some s => if s == "" then [] else [("marketplace", .bool (s == "true"))]
  | none => []

/-- The `vertical_types` conditions contribution
(`verticalType && verticalType !== ''`, stored as a one-element array). -/
def verticalTypesCond (g : Group) : CondMap :=
  match cpGet g "verticalType" with
  | some s => if s == "" then [] else [("vertical_types", .arr [s])]
  | none => []

/-- A parsed-integer conditions contribution from a truthy common parameter
(`if (param) conditions.<k> = parseInt(param)`). -/
def parsedIntCondOf (g : Group) (paramName condName : String) : CondMap :=
  match cpGet g paramName with
  | some s => if s == "" then [] else [(condName, parseIntCond s)]
  | none => []

/-- The display-format flat entry built per rule of a display-format group;
`conditions` is attached only when at least one contribution is set. -/
def dfEntryOfRule (g : Group) (rule : Rule) : FlatEntry :=
  let conds := deliveryModeCond g ++ marketplaceCond g ++
    parsedIntCondOf g "pdtLessThanOrEqualTo" "pdt_less_than_or_equal_to" ++ verticalTypesCond g
  { format := rule.formatOf
    title_ := some g.title
    conditions := if conds.isEmpty then none else some conds }

/-- The ranges flat entry built per rule of a ranges group; `conditions` is
always attached, even when empty. -/
def rangesEntryOfRule (g : Group) (rule : Rule) : FlatEntry :=
  { delivery_option := some (jsOrStr (cpGet g "deliveryOption") "STANDARD")
    lower_bound := rule.rgLowerBound
    upper_bound := rule.rgUpperBound
    title_ := some g.title
    conditions := some (optIntPair "pdt_greater_than" rule.rgPdtGT ++
      optIntPair "pdt_less_than_or_equal_to" rule.rgPdtLE ++
      optIntPair "mean_delay_greater_than" rule.rgMdGT ++
      optIntPair "mean_delay_less_than_or_equal_to" rule.rgMdLE ++
      deliveryModeCond g ++ marketplaceCond g ++ verticalTypesCond g) }

/-- The first single-type capping rule's payload, if any. -/
def firstSingle (rules : List Rule) : Option CapSingle :=
  match (rules.filter (fun r => r.isSingle)).head? with
  | some (.cp (.single mn mx)) => some ⟨mn, mx⟩
  | _ => none

/-- The first ranges-type capping rule's payload, if any. -/
def firstCapRanges (rules : List Rule) : Option CapRanges :=
  match (rules.filter (fun r => r.isCapRanges)).head? with
  | some (.cp (.ranges a b c d)) => some ⟨a, b, c, d⟩
  | _ => none

/-- The single capping flat entry built per capping group. -/
def cappingEntryOfGroup (g : Group) : FlatEntry :=
  let conds := deliveryModeCond g ++ marketplaceCond g ++
    parsedIntCondOf g "pdtGreaterThan" "pdt_greater_than" ++
    parsedIntCondOf g "pdtLessThanOrEqualTo" "pdt_less_than_or_equal_to" ++
    parsedIntCondOf g "meanDelayGreaterThan" "mean_delay_greater_than" ++
    parsedIntCondOf g "meanDelayLessThanOrEqualTo" "mean_delay_less_than_or_equal_to" ++
    verticalTypesCond g
  { delivery_option := some (jsOrStr (cpGet g "deliveryOption") "STANDARD")
    title_ := some g.title
    conditions := if conds.isEmpty then none else some conds
    single := firstSingle g.rules
    ranges := firstCapRanges g.rules }

/-- The rounding flat entry built per rounding group. -/
def roundingEntryOfGroup (g : Group) : FlatEntry :=
  { strategy := some (jsOrStr (cpGet g "strategy") "NEAREST_5")
    title_ := some g.title }

/-- The pure core of `ConfigManager.updateConfigFromGroups`: rebuild the
`pdt` section list from the group index, one section per kind with at least
one group, in the fixed order display-format, ranges, capping, rounding. -/
def sectionsFromGroups (groups : List Group) : List Section :=
  let dfg := groups.filter (fun g => g.type == .displayFormat)
  let rgg := groups.filter (fun g => g.type == .ranges)
  let cpg := groups.filter (fun g => g.type == .capping)
  let rdg := groups.filter (fun g => g.type == .rounding)
  (if dfg.isEmpty then [] else
    [⟨.displayFormat, dfg.flatMap (fun g => g.rules.map (dfEntryOfRule g))⟩]) ++
  (if rgg.isEmpty then [] else
    [⟨.ranges, rgg.flatMap (fun g => g.rules.map (rangesEntryOfRule g))⟩]) ++
  (if cpg.isEmpty then [] else [⟨.capping, cpg.map cappingEntryOfGroup⟩]) ++
  (if rdg.isEmpty then [] else [⟨.rounding, rdg.map roundingEntryOfGroup⟩])

/-! ### ConfigManager: state and mutating operations -/

/-- The mutable `ConfigManager` state: the group index, the flat `pdt`
section list of the config, the id counter, and the log of configurations
written to persistent storage (`saveConfig` appends one write). -/
structure CMState where
  groups : List Group
  pdt : List Section
  idCounter : Nat
  persisted : List (List Section)
deriving DecidableEq, Repr

/-- `ConfigManager.saveConfig`: one persistence write of the current config. -/
def saveConfig (s : CMState) : CMState :=
  { s with persisted := s.persisted ++ [s.pdt] }

/-- `ConfigManager.updateConfigFromGroups`: rebuild the flat sections from the
groups and persist. -/
def updateConfigFromGroups (s : CMState) : CMState :=
  saveConfig { s with pdt := sectionsFromGroups s.groups }

/-- Group lookup by id (`this.groups[groupId]`). -/
def findGroup (s : CMState) (gid : String) : Option Group :=
  s.groups.find? (fun g => g.id == gid)

/-- Replace the group with the given id, in place. -/
def setGroup (s : CMState) (gid : String) (g' : Group) : CMState :=
  { s with groups := s.groups.map (fun g => if g.id == gid then g' else g) }

/-- The section-type strings used in generated group ids. -/
def typeName : SectionType → String
  | .displayFormat => "display-format"
  | .ranges => "ranges"
  | .capping => "capping"
  | .rounding => "rounding"

/-- `ConfigManager.sectionTypeToDisplayName`. -/
def sectionTypeToDisplayName : SectionType → String
  | .displayFormat => "Display Format"
  | .ranges => "Range"
  | .capping => "Capping"
  | .rounding => "Rounding"

/-- `ConfigManager.createDefaultRules`. -/
def createDefaultRules : SectionType → List Rule
  | .displayFormat => [.df "DISPLAY_FORMAT_MINUTE_RANGE" []]
  | .ranges => [.rg ⟨-10, 5, none, none, none, none⟩]
  | .capping => [.cp (.single 5 180)]
  | .rounding => []

/-- `ConfigManager.adaptTemplateToSectionType`. -/
def adaptTemplateToSectionType (template : Group) (target : SectionType) (newId : String) :
    Group :=
  let base : Group :=
    ⟨newId, target, "New " ++ sectionTypeToDisplayName target, [], []⟩
  let adapted :=
    match target with
    | .displayFormat =>
      { base with
        commonParams :=
          [("deliveryMode", jsOrStr (jsLookup template.commonParams "deliveryMode") "DELIVERY"),
           ("marketplace", jsOrStr (jsLookup template.commonParams "marketplace") "false")]
        rules := createDefaultRules .displayFormat }
    | .ranges =>
      { base with
        commonParams :=
          [("deliveryOption", jsOrStr (jsLookup template.commonParams "deliveryOption") "STANDARD"),
           ("deliveryMode", jsOrStr (jsLookup template.commonParams "deliveryMode") "DELIVERY"),
           ("marketplace", jsOrStr (jsLookup template.commonParams "marketplace") "false"),
           ("verticalType", jsOrStr (jsLookup template.commonParams "verticalType") "")]
        rules := createDefaultRules .ranges }
    | .capping =>
      { base with
        commonParams :=
          [("deliveryOption", jsOrStr (jsLookup template.commonParams "deliveryOption") "STANDARD"),
           ("deliveryMode", jsOrStr (jsLookup template.commonParams "deliveryMode") "DELIVERY")]
        rules := createDefaultRules .capping }
    | .rounding =>
      { base with commonParams := [("strategy", "NEAREST_5")], rules := [] }
  if template.title == "" then adapted else { adapted with title := template.title }

/-- `ConfigManager.addGroup`: create a group (optionally from a template),
then rebuild and persist; returns the fresh id. -/
def addGroup (s : CMState) (t : SectionType) (template : Option Group) : CMState × String :=
  let id := typeName t ++ "-" ++ natRepr s.idCounter
  let s1 := { s with idCounter := s.idCounter + 1 }
  let g :=
    match template with
    | some tg =>
      if tg.type == t then { tg with id := id } else adaptTemplateToSectionType tg t id
    | none => ⟨id, t, "New " ++ sectionTypeToDisplayName t, [], createDefaultRules t⟩
  (updateConfigFromGroups { s1 with groups := s1.groups ++ [g] }, id)

/-- `ConfigManager.cloneGroup`: deep-copy an existing group under a fresh id
with a `Copy of` title; `none` when the source id does not exist. -/
def cloneGroup (s : CMState) (gid : String) : CMState × Option String :=
  match findGroup s gid with
  | none => (s, none)
  | some src =>
    let id := typeName src.type ++ "-" ++ natRepr s.idCounter
    let s1 := { s with idCounter := s.idCounter + 1 }
    let g := { src with id := id, title := "Copy of " ++ src.title }
    (updateConfigFromGroups { s1 with groups := s1.groups ++ [g] }, some id)

/-- `ConfigManager.deleteGroup` (the section-type argument is unused by the
source as well). -/
def deleteGroup (s : CMState) (_t : SectionType) (gid : String) : CMState × Bool :=
  if (findGroup s gid).isSome then
    (updateConfigFromGroups { s with groups := s.groups.filter (fun g => !(g.id == gid)) }, true)
  else (s, false)

/-- `ConfigManager.updateGroupCommonParam`. -/
def updateGroupCommonParam (s : CMState) (gid paramName value : String) : CMState × Bool :=
  match findGroup s gid with
  | none => (s, false)
  | some g =>
    (updateConfigFromGroups
      (setGroup s gid { g with commonParams := jsSet g.commonParams paramName value }), true)

/-- `ConfigManager.addRule`: push a default rule fitted to the group's
section type (for ranges, a copy of the last rule when one exists); rounding
groups fall through the switch with no rule added but still rebuild. -/
def addRule (s : CMState) (gid : String) (format : Option String) : CMState × Bool :=
  match findGroup s gid with
  | none => (s, false)
  | some g =>
    let g' :=
      match g.type with
      | .displayFormat =>
        { g with rules := g.rules ++ [.df (jsOrStr format "DISPLAY_FORMAT_MINUTE_RANGE") []] }
      | .ranges =>
        match g.rules.getLast? with
        | some last => { g with rules := g.rules ++ [last] }
        | none => { g with rules := g.rules ++ [.rg ⟨-10, 5, none, none, none, none⟩] }
      | .capping => { g with rules := g.rules ++ [.cp (.single 5 180)] }
      | .rounding => g
    (updateConfigFromGroups (setGroup s gid g'), true)

/-- A value passed to `updateRule`: the UI supplies strings, integers, or
`null` (clearing a bound). -/
inductive JVal where
  | str (s : String)
  | int (n : Int)
  | nullv
deriving DecidableEq, Repr

/-- Integer content of an update value; `null` clears the bound.  Non-integer
writes into integer fields do not occur in this program. -/
def JVal.asOptInt : JVal → Option Int
  | .int n => some n
  | _ => none

/-- Integer content with a fallback (for the required bound fields). -/
def JVal.asIntD (v : JVal) (d : Int) : Int := (v.asOptInt).getD d

/-- String content with a fallback (for the format field). -/
def JVal.asStrD (v : JVal) (d : String) : String :=
  match v with
  | .str s => s
  | _ => d

/-- The dynamic field assignment `group.rules[ruleIndex][field] = value`,
specialised to the rule fields this program writes. -/
def setRuleField (r : Rule) (field : String) (v : JVal) : Rule :=
  match r with
  | .df f c => if field == "format" then .df (v.asStrD f) c else .df f c
  | .rg rr =>
    if field == "lowerBound" then .rg { rr with lowerBound := v.asIntD rr.lowerBound }
    else if field == "upperBound" then .rg { rr with upperBound := v.asIntD rr.upperBound }
    else if field == "pdtGreaterThan" then .rg { rr with pdtGreaterThan := v.asOptInt }
    else if field == "pdtLessThanOrEqualTo" then .rg { rr with pdtLessThanOrEqualTo := v.asOptInt }
    else if field == "meanDelayGreaterThan" then .rg { rr with meanDelayGreaterThan := v.asOptInt }
    else if field == "meanDelayLessThanOrEqualTo" then
      .rg { rr with meanDelayLessThanOrEqualTo := v.asOptInt }
    else .rg rr
  | .cp (.single mn mx) =>
    if field == "min" then .cp (.single (v.asIntD mn) mx)
    else if field == "max" then .cp (.single mn (v.asIntD mx))
    else .cp (.single mn mx)
  | .cp (.ranges a b c d) =>
    if field == "minLowerBound" then .cp (.ranges (v.asIntD a) b c d)
    else if field == "minUpperBound" then .cp (.ranges a (v.asIntD b) c d)
    else if field == "maxLowerBound" then .cp (.ranges a b (v.asIntD c) d)
    else if field == "maxUpperBound" then .cp (.ranges a b c (v.asIntD d))
    else .cp (.ranges a b c d)

/-- `ConfigManager.updateRule`: fails on a missing group or rule index;
changing a capping rule's `type` resets the rule to the new variant's
defaults (and leaves it unchanged on an unrecognised type value). -/
def updateRule (s : CMState) (gid : String) (ruleIndex : Nat) (field : String) (v : JVal) :
    CMState × Bool :=
  match findGroup s gid with
  | none => (s, false)
  | some g =>
    match g.rules[ruleIndex]? with
    | none => (s, false)
    | some r =>
      let r' :=
        if g.type == .capping && field == "type" then
          if v == .str "single" then Rule.cp (.single 5 180)
          else if v == .str "ranges" then Rule.cp (.ranges 10 20 160 180)
          else r
        else setRuleField r field v
      (updateConfigFromGroups (setGroup s gid { g with rules := g.rules.set ruleIndex r' }), true)

/-- `ConfigManager.deleteRule`: splice the rule out; fails on a missing group
or rule index. -/
def deleteRule (s : CMState) (gid : String) (ruleIndex : Nat) : CMState × Bool :=
  match findGroup s gid with
  | none => (s, false)
  | some g =>
    match g.rules[ruleIndex]? with
    | none => (s, false)
    | some _ =>
      (updateConfigFromGroups (setGroup s gid { g with rules := g.rules.eraseIdx ruleIndex }), true)

/-- `ConfigManager.updateGroupTitle`: on a ranges group whose rules cover all
positive PDT values (a rule reaching down to zero and a highest upper bound of
at least 100), a non-`Copy of` title is overridden by a fixed descriptive one;
the title is stored, the config rebuilt and then explicitly saved a second
time. -/
def updateGroupTitle (s : CMState) (gid newTitle : String) : CMState × Bool :=
  match findGroup s gid with
  | none => (s, false)
  | some g =>
    let finalTitle :=
      if g.type == .ranges && !(newTitle.startsWith "Copy of") then
        let hasZeroLowerBound := g.rules.any (fun r =>
          match r with
          | .rg rr =>
            (rr.pdtGreaterThan.isNone || (rr.pdtGreaterThan.getD 1) ≤ 0) &&
              rr.pdtLessThanOrEqualTo.isSome
          | _ => false)
        let ubs := g.rules.filterMap (fun r =>
          match r with
          | .rg rr => rr.pdtLessThanOrEqualTo
          | _ => none)
        let coversAllPositive := hasZeroLowerBound &&
          (match ubs.max? with
           | some m => decide (100 ≤ m)
           | none => false)
        if coversAllPositive then "Ranges (All Positive PDT)" else newTitle
      else newTitle
    (saveConfig (updateConfigFromGroups (setGroup s gid { g with title := finalTitle })), true)

/-! ### ExportImportManager: merging imported sections by common parameters -/

/-- Indexed map, modelling `forEach((entry, index) => ...)`. -/
def mapIdxFrom (f : Nat → α → β) : Nat → List α → List β
  | _, [] => []
  | i, x :: xs => f i x :: mapIdxFrom f (i + 1) xs

/-- Add an element to the bucket for its key, creating the bucket at the end
on first sight — the JS `if (!groups[key]) groups[key] = []; groups[key].push(x)`
idiom on an object, whose keys are unique and iterate in insertion order. -/
def bucketAdd : List (String × List α) → String → α → List (String × List α)
  | [], k, x => [(k, [x])]
  | b :: bs, k, x =>
    if b.1 == k then (b.1, b.2 ++ [x]) :: bs else b :: bucketAdd bs k x

/-- Bucket a list by a string key, buckets in first-seen key order. -/
def bucketBy (key : α → String) (l : List α) : List (String × List α) :=
  l.foldl (fun bs x => bucketAdd bs (key x) x) []

/-- Rendered string of a possibly-absent scalar, as JS template interpolation
produces it. -/
def scalarOptString (o : Option String) : String := o.getD "undefined"

/-- `ExportImportManager.generateEntryKey`: the common-parameter key parts
present on the entry's conditions, then the `delivery_option` part. -/
def generateEntryKey (e : FlatEntry) (paramKeys : List String) : String :=
  let condParts :=
    match e.conditions with
    | none => []
    | some m => paramKeys.filterMap (fun k =>
        (jsLookup m k).map (fun v => k ++ ":" ++ condValString v))
  let dParts :=
    if truthyStr e.delivery_option then
      ["delivery_option:" ++ e.delivery_option.getD ""]
    else []
  joinParts "|" (condParts ++ dParts)

/-- The PDT-bound-pair key of `groupRangesByPdtBounds`. -/
def pdtBoundsKey (e : FlatEntry) : String :=
  let gt := e.conditions.bind (fun m => jsLookup m "pdt_greater_than")
  let le := e.conditions.bind (fun m => jsLookup m "pdt_less_than_or_equal_to")
  match gt, le with
  | some a, some b => condValString a ++ "-" ++ condValString b
  | some a, none => ">" ++ condValString a
  | none, some b => "≤" ++ condValString b
  | none, none => "default"

/-- The Mean-Delay-bound-pair key of `groupEntriesByMeanDelay`. -/
def mdBoundsKey (e : FlatEntry) : String :=
  let gt := e.conditions.bind (fun m => jsLookup m "mean_delay_greater_than")
  let le := e.conditions.bind (fun m => jsLookup m "mean_delay_less_than_or_equal_to")
  match gt, le with
  | some a, some b => condValString a ++ "-" ++ condValString b
  | some a, none => ">" ++ condValString a
  | none, some b => "≤" ++ condValString b
  | none, none => "default"

/-- `ExportImportManager.getPdtRangeDescription`. -/
def getPdtRangeDescription (c : Option CondMap) : String :=
  match c with
  | none => "Default"
  | some m =>
    match jsLookup m "pdt_greater_than", jsLookup m "pdt_less_than_or_equal_to" with
    | some a, some b => "PDT " ++ condValString a ++ "-" ++ condValString b
    | some a, none => "PDT >" ++ condValString a
    | none, some b => "PDT ≤" ++ condValString b
    | none, none => "Default"

/-- `ExportImportManager.getMeanDelayDescription`. -/
def getMeanDelayDescription (c : Option CondMap) : String :=
  match c with
  | none => ""
  | some m =>
    match jsLookup m "mean_delay_greater_than", jsLookup m "mean_delay_less_than_or_equal_to" with
    | some a, some b => "Mean Delay " ++ condValString a ++ "-" ++ condValString b
    | some a, none => "Mean Delay >" ++ condValString a
    | none, some b => "Mean Delay ≤" ++ condValString b
    | none, none => "Default Mean Delay"

/-- The conditions of a bucket's first entry (`entriesGroup[0].conditions`). -/
def headConds (l : List FlatEntry) : Option CondMap :=
  match l.head? with
  | some e => e.conditions
  | none => none

/-- JS `type.charAt(0).toUpperCase() + type.slice(1)`. -/
def capitalizeFirst (s : String) : String :=
  match s.data with
  | [] => s
  | c :: cs => String.mk (c.toUpper :: cs)

/-- The fresh format/conditions/`_title` object emitted per display-format
entry. -/
def dfRetitle (e : FlatEntry) : FlatEntry :=
  { format := e.format
    conditions := e.conditions
    title_ := some (jsOrStr e.title_ ("Format: " ++ scalarOptString e.format)) }

/-- The display-format branch of `mergeEntriesByCommonParams`: group by the
common-parameter key, then re-emit each entry as a fresh
format/conditions/`_title` object. -/
def mergeDisplayEntries (entries : List FlatEntry) (commonParamKeys : List String) :
    List FlatEntry :=
  (bucketBy (fun e => generateEntryKey e commonParamKeys) entries).flatMap (fun b =>
    b.2.map dfRetitle)

/-- The retitling applied per ranges entry within its Mean-Delay cluster. -/
def mdRetitle (groupTitle : String) (len i : Nat) (e : FlatEntry) : FlatEntry :=
  { e with title_ := some (jsOrStr e.title_
      (if 1 < len then groupTitle ++ " " ++ natRepr (i + 1) else groupTitle)) }

/-- The per-Mean-Delay-group emission of the ranges merge branch. -/
def emitMdGroup (groupTitle : String) (es : List FlatEntry) : List FlatEntry :=
  mapIdxFrom (mdRetitle groupTitle es.length) 0 es

/-- The per-common-parameter-subgroup emission of the ranges merge branch:
split by Mean-Delay bound pair and title each cluster. -/
def emitRangesSub (es : List FlatEntry) : List FlatEntry :=
  let pdtDesc := getPdtRangeDescription (headConds es)
  let baseTitle := capitalizeFirst "ranges" ++ " " ++ pdtDesc
  let mdGroups := bucketBy mdBoundsKey es
  mdGroups.flatMap (fun mb =>
    let groupTitle :=
      if 1 < mdGroups.length && !(mb.1 == "default") then
        baseTitle ++ ", " ++ getMeanDelayDescription (headConds mb.2)
      else baseTitle
    emitMdGroup groupTitle mb.2)

/-- The per-PDT-group emission of the ranges merge branch: sub-group by the
common-parameter key without the PDT bounds. -/
def emitRangesPdt (commonParamKeys : List String) (es : List FlatEntry) : List FlatEntry :=
  let ksf := commonParamKeys.filter (fun k =>
    !(k == "pdt_greater_than") && !(k == "pdt_less_than_or_equal_to"))
  (bucketBy (fun e => generateEntryKey e ksf) es).flatMap (fun sb => emitRangesSub sb.2)

/-- The ranges branch of `mergeEntriesByCommonParams`: group by PDT bound
pair, then by remaining common parameters, then by Mean-Delay bound pair. -/
def mergeRangesEntries (entries : List FlatEntry) (commonParamKeys : List String) :
    List FlatEntry :=
  (bucketBy pdtBoundsKey entries).flatMap (fun pb => emitRangesPdt commonParamKeys pb.2)

/-- The retitling applied per capping entry within its group. -/
def cappingRetitle (i : Nat) (e : FlatEntry) : FlatEntry :=
  { e with title_ := some (jsOrStr e.title_
      (capitalizeFirst "capping" ++ " " ++ jsOrStr e.delivery_option "" ++ " " ++
        (if 0 < i then natRepr (i + 1) else ""))) }

/-- The capping branch of `mergeEntriesByCommonParams`. -/
def mergeCappingEntries (entries : List FlatEntry) (commonParamKeys : List String) :
    List FlatEntry :=
  (bucketBy (fun e => generateEntryKey e commonParamKeys) entries).flatMap (fun b =>
    mapIdxFrom cappingRetitle 0 b.2)

/-- `ExportImportManager.mergeEntriesByCommonParams`: group the entries of a
section kind by their common-parameter key (ranges additionally pre-grouped by
PDT bound pair and post-grouped by Mean-Delay bound pair) and emit them with
synthesized titles where none is set. -/
def mergeEntriesByCommonParams (entries : List FlatEntry) (type : String)
    (commonParamKeys : List String) : List FlatEntry :=
  if type == "display_format" then mergeDisplayEntries entries commonParamKeys
  else if type == "ranges" then mergeRangesEntries entries commonParamKeys
  else if type == "capping" then mergeCappingEntries entries commonParamKeys
  else
    mapIdxFrom (fun i e =>
      if truthyStr e.title_ then e
      else { e with title_ := some (capitalizeFirst type ++ " " ++ natRepr (i + 1)) })
      0 entries

/-- All flat entries of one kind collected across sections, in order (the
`sectionsByType` accumulation). -/
def collectEntries (ss : List Section) (k : SectionType) : List FlatEntry :=
  (ss.filter (fun sec => sec.kind == k)).flatMap (fun sec => sec.entries)

/-- The common-parameter key list used to merge imported `display_format`
entries. -/
def mergeDisplayKeys : List String :=
  ["delivery_mode", "marketplace", "pdt_less_than_or_equal_to", "vertical_types"]

/-- The common-parameter key list used to merge imported `ranges` and
`capping` entries (PDT bounds included). -/
def mergeRangesKeys : List String :=
  ["delivery_option", "delivery_mode", "marketplace", "vertical_types",
   "pdt_greater_than", "pdt_less_than_or_equal_to"]

/-- `ExportImportManager.mergePdtSectionsByCommonParams`: collect all entries
by kind, merge each kind by common parameters (rounding is passed through),
and emit at most one section per kind in fixed order. -/
def mergePdtSectionsByCommonParams (pdtSections : List Section) : List Section :=
  let dfE := collectEntries pdtSections .displayFormat
  let rgE := collectEntries pdtSections .ranges
  let cpE := collectEntries pdtSections .capping
  let rdE := collectEntries pdtSections .rounding
  (if dfE.isEmpty then [] else
    [⟨.displayFormat, mergeEntriesByCommonParams dfE "display_format" mergeDisplayKeys⟩]) ++
  (if rgE.isEmpty then [] else
    [⟨.ranges, mergeEntriesByCommonParams rgE "ranges" mergeRangesKeys⟩]) ++
  (if cpE.isEmpty then [] else
    [⟨.capping, mergeEntriesByCommonParams cpE "capping" mergeRangesKeys⟩]) ++
  (if rdE.isEmpty then [] else [⟨.rounding, rdE⟩])

/-! ### YamlHandler: generation -/

/-- Character-list prefix test. -/
def isPrefixOfChars : List Char → List Char → Bool
  | [], _ => true
  | _ :: _, [] => false
  | c :: cs, d :: ds => (c == d) && isPrefixOfChars cs ds

/-- String prefix test on the underlying character data. -/
def startsWithStr (s p : String) : Bool := isPrefixOfChars p.data s.data


/-- The newline separator used by `lines.join` in the formatter. -/
def newlineStr : String := String.mk ['\n']

/-- The full config object. -/
structure Config where
  configFormatVersion : String
  variant : String
  platform : String
  countryCode : String
  pdt : List Section
deriving DecidableEq, Repr

/-- The `processConfigForYaml` coercion on one entry: a string-typed
`marketplace` condition becomes the boolean `marketplace === 'true'`. -/
def processEntryMarketplace (e : FlatEntry) : FlatEntry :=
  match e.conditions with
  | none => e
  | some m =>
    { e with conditions := some (m.map (fun p =>
        if p.1 == "marketplace" then
          match p.2 with
          | .str s => (p.1, .bool (s == "true"))
          | v => (p.1, v)
        else p)) }

/-- `YamlHandler.processConfigForYaml`: marketplace coercion over ranges and
display-format sections.  The capping branch only replaces non-numeric capping
bounds, which the typed embedding cannot hold, so it is the identity here. -/
def processConfigForYaml (cfg : Config) : Config :=
  { cfg with pdt := cfg.pdt.map (fun sec =>
      match sec.kind with
      | .ranges => { sec with entries := sec.entries.map processEntryMarketplace }
      | .displayFormat => { sec with entries := sec.entries.map processEntryMarketplace }
      | _ => sec) }

/-- Rendered string of a possibly-absent integer field. -/
def intOptString : Option Int → String
  | some n => intRepr n
  | none => "undefined"

/-- The `_title` comment line, emitted when the title is truthy. -/
def titleCommentLines (e : FlatEntry) : List String :=
  if truthyStr e.title_ then ["  # " ++ e.title_.getD ""] else []

/-- The emitted lines of a conditions object: keys starting with `_` are
skipped, arrays become indented bullet blocks. -/
def condLines (m : CondMap) : List String :=
  m.flatMap (fun p =>
    if startsWithStr p.1 "_" then []
    else
      match p.2 with
      | .arr xs => ("        " ++ p.1 ++ ":") :: xs.map (fun x => "          - " ++ x)
      | v => ["        " ++ p.1 ++ ": " ++ condValString v])

/-- The conditions block, present when the entry has a conditions object
(even an empty one). -/
def condBlockLines (e : FlatEntry) : List String :=
  match e.conditions with
  | some m => "      conditions:" :: condLines m
  | none => []

/-- The emitted lines of one display-format entry (each entry opens its own
`- display_format:` list item). -/
def dfEntryLines (e : FlatEntry) : List String :=
  titleCommentLines e ++
  ["  - display_format:", "    - format: " ++ scalarOptString e.format] ++
  condBlockLines e

/-- `YamlHandler.generateRangeDescription`. -/
def generateRangeDescription (e : FlatEntry) : String :=
  match e.conditions with
  | none => "Default"
  | some m =>
    let pdtPart :=
      match jsLookup m "pdt_greater_than", jsLookup m "pdt_less_than_or_equal_to" with
      | some a, some b => "PDT " ++ condValString a ++ "-" ++ condValString b
      | some a, none => "PDT >" ++ condValString a
      | none, some b => "PDT ≤" ++ condValString b
      | none, none => ""
    let mdPart :=
      match jsLookup m "mean_delay_greater_than", jsLookup m "mean_delay_less_than_or_equal_to" with
      | some a, some b => "Mean Delay " ++ condValString a ++ "-" ++ condValString b
      | some a, none => "Mean Delay >" ++ condValString a
      | none, some b => "Mean Delay ≤" ++ condValString b
      | none, none => ""
    let d :=
      if mdPart == "" then pdtPart
      else if pdtPart == "" then mdPart
      else pdtPart ++ ", " ++ mdPart
    if d == "" then "Default" else d

/-- The comment-cluster key of a ranges entry: its `_title`, else the derived
range description. -/
def rangeDescKey (e : FlatEntry) : String :=
  jsOrStr e.title_ (generateRangeDescription e)

/-- The emitted lines of one ranges list item. -/
def rangesItemLines (e : FlatEntry) : List String :=
  ["    - delivery_option: " ++ scalarOptString e.delivery_option,
   "      lower_bound: " ++ intOptString e.lower_bound,
   "      upper_bound: " ++ intOptString e.upper_bound] ++
  condBlockLines e

/-- The emitted lines of a ranges section: entries clustered under
comment-labelled `- ranges:` items by their description key. -/
def rangesSectionLines (entries : List FlatEntry) : List String :=
  (bucketBy rangeDescKey entries).flatMap (fun b =>
    ["", "  # " ++ b.1, "  - ranges:"] ++ b.2.flatMap rangesItemLines)

/-- The emitted lines of one capping entry. -/
def cappingEntryLines (e : FlatEntry) : List String :=
  titleCommentLines e ++
  ["  - capping:", "    - delivery_option: " ++ scalarOptString e.delivery_option] ++
  condBlockLines e ++
  (match e.single with
   | some sc =>
     ["      single:", "        min: " ++ intRepr sc.min, "        max: " ++ intRepr sc.max]
   | none => []) ++
  (match e.ranges with
   | some rc =>
     ["      ranges:", "        min:",
      "          lower_bound: " ++ intRepr rc.minLowerBound,
      "          upper_bound: " ++ intRepr rc.minUpperBound,
      "        max:",
      "          lower_bound: " ++ intRepr rc.maxLowerBound,
      "          upper_bound: " ++ intRepr rc.maxUpperBound]
   | none => [])

/-- The emitted lines of one rounding entry. -/
def roundingEntryLines (e : FlatEntry) : List String :=
  titleCommentLines e ++
  ["  - rounding:", "    - strategy: " ++ scalarOptString e.strategy]

/-- The emitted lines of one `pdt` section. -/
def sectionLines (sec : Section) : List String :=
  match sec.kind with
  | .displayFormat =>
    ["", "  # Display Format Configuration"] ++ sec.entries.flatMap dfEntryLines
  | .ranges => rangesSectionLines sec.entries
  | .capping => ["", "  # Capping Configuration"] ++ sec.entries.flatMap cappingEntryLines
  | .rounding => ["", "  # Rounding Configuration"] ++ sec.entries.flatMap roundingEntryLines

/-- The full emitted line list of `YamlHandler.formatConfigWithComments`. -/
def formatLines (cfg : Config) : List String :=
  ["config_format_version: " ++
     (if cfg.configFormatVersion == "" then "1" else cfg.configFormatVersion),
   "variant: " ++ cfg.variant,
   "platform: " ++ cfg.platform,
   "country_code: " ++ cfg.countryCode,
   "",
   "pdt:"] ++
  cfg.pdt.flatMap sectionLines

/-- `YamlHandler.formatConfigWithComments`: the emitted lines joined by
newlines. -/
def formatConfigWithComments (cfg : Config) : String :=
  joinParts newlineStr (formatLines cfg)

/-- `YamlHandler.generateYaml`: clone (identity here), promote the camelCase
metadata fields to snake_case (the identity on this typed config, whose
metadata the formatter reads directly), run `processConfigForYaml`, then
format with comments. -/
def generateYaml (cfg : Config) : String :=
  formatConfigWithComments (processConfigForYaml cfg)

/-! ### The YAML parse model

`YamlHandler.parseYaml` delegates to the external js-yaml library.  Modelled
from the spec: §4.4 limits the engine's own responsibility to post-parse
normalization and says parsing is "delegated to an external library
collaborator"; the model below implements standard YAML mapping/sequence/plain
-scalar semantics for exactly the document shapes the generator emits
(two-space indentation steps, `#` comment lines and blank lines ignored, a
mapping key with no nested content parsing as null, canonical integers and
`true`/`false` recognized as scalars). -/

/-- Split character data into lines at newlines. -/
def splitLinesChar : List Char → List (List Char)
  | [] => [[]]
  | c :: cs =>
    if c == '\n' then [] :: splitLinesChar cs
    else
      match splitLinesChar cs with
      | [] => [[c]]
      | l :: ls => (c :: l) :: ls

/-- Split a string into lines. -/
def splitLines (s : String) : List String :=
  (splitLinesChar s.data).map String.mk

/-- Blank lines and comment lines, which the YAML reader ignores. -/
def isCommentOrBlank (l : String) : Bool :=
  let t := l.data.dropWhile (fun c => c == ' ')
  t.isEmpty || t.head? == some '#'

/-- Drop everything up to and including the `pdt:` top-level key. -/
def dropThroughPdt : List String → List String
  | [] => []
  | l :: ls => if l == "pdt:" then ls else dropThroughPdt ls

/-- Chunk splitter: group lines into runs each starting at a line satisfying
the head predicate; lines before the first head are dropped. -/
def splitChunksAux (p : String → Bool) : List String → List String × List (List String)
  | [] => ([], [])
  | x :: xs =>
    let r := splitChunksAux p xs
    if p x then ([], (x :: r.1) :: r.2) else (x :: r.1, r.2)

/-- The chunks of a line list. -/
def splitChunks (p : String → Bool) (l : List String) : List (List String) :=
  (splitChunksAux p l).2

/-- Strip surrounding spaces. -/
def trimChars (cs : List Char) : List Char :=
  ((cs.dropWhile (fun c => c == ' ')).reverse.dropWhile (fun c => c == ' ')).reverse

/-- Split `key: value` content (after its indentation); the value is trimmed
and may be empty. -/
def splitKeyValue (cs : List Char) : Option (String × String) :=
  let key := cs.takeWhile (fun c => !(c == ':'))
  match cs.drop key.length with
  | ':' :: rest => some (String.mk key, String.mk (trimChars rest))
  | _ => none

/-- Canonical decimal integer literals (the only numeric form the generator
emits): an optional minus, then digits without a superfluous leading zero. -/
def isCanonicalInt (s : String) : Bool :=
  match s.data with
  | [] => false
  | '-' :: ds =>
    (match ds with
     | [] => false
     | d :: _ => ds.all Char.isDigit && !(d == '0'))
  | d :: ds =>
    (d :: ds).all Char.isDigit && (!(d == '0') || ds.isEmpty)

/-- Plain-scalar interpretation: `true`/`false` and canonical integers are
typed, everything else is a string. -/
def parseScalar (s : String) : CondVal :=
  if s == "true" then .bool true
  else if s == "false" then .bool false
  else if isCanonicalInt s then
    match s.data with
    | '-' :: ds => .int (-(digitsToNat ds : Int))
    | ds => .int (digitsToNat ds)
  else .str s

/-- String content of a parsed scalar (schema fields typed as strings). -/
def asStrScalar (v : String) : Option String :=
  match parseScalar v with
  | .str s => some s
  | _ => none

/-- Integer content of a parsed scalar (schema fields typed as integers). -/
def asIntScalar (v : String) : Option Int :=
  match parseScalar v with
  | .int n => some n
  | _ => none

/-- Parser context inside one list item. -/
inductive PCtx where
  | top
  | conds
  | condList (k : String)
  | singleC
  | capRanges
  | capRangesMin
  | capRangesMax
deriving DecidableEq, Repr

/-- Parser state inside one list item. -/
structure PState where
  e : FlatEntry
  ctx : PCtx
deriving Repr

/-- Append a parsed conditions pair (materialising the conditions object, so
that a `conditions:` key with no nested content stays null). -/
def appendCond (e : FlatEntry) (k : String) (v : CondVal) : FlatEntry :=
  { e with conditions := some (e.conditions.getD [] ++ [(k, v)]) }

/-- Append an item to the open conditions sequence. -/
def appendCondItem (e : FlatEntry) (k : String) (x : String) : FlatEntry :=
  { e with conditions := some ((e.conditions.getD []).map (fun p =>
      if p.1 == k then
        match p.2 with
        | .arr xs => (p.1, .arr (xs ++ [x]))
        | v => (p.1, v)
      else p)) }

/-- A scalar field of the item map. -/
def setTopField (e : FlatEntry) (k v : String) : FlatEntry :=
  if k == "format" then { e with format := asStrScalar v }
  else if k == "delivery_option" then { e with delivery_option := asStrScalar v }
  else if k == "strategy" then { e with strategy := asStrScalar v }
  else if k == "lower_bound" then { e with lower_bound := asIntScalar v }
  else if k == "upper_bound" then { e with upper_bound := asIntScalar v }
  else e

/-- Process one line of an item chunk. -/
def processLine (st : PState) (l : String) : PState :=
  let cs := l.data
  let indent := (cs.takeWhile (fun c => c == ' ')).length
  let content := cs.drop indent
  if indent == 4 then
    match content with
    | '-' :: ' ' :: rest =>
      match splitKeyValue rest with
      | some (k, v) => ⟨setTopField st.e k v, .top⟩
      | none => st
    | _ => st
  else if indent == 6 then
    match splitKeyValue content with
    | some (k, v) =>
      if k == "conditions" && v == "" then ⟨st.e, .conds⟩
      else if k == "single" && v == "" then ⟨st.e, .singleC⟩
      else if k == "ranges" && v == "" then ⟨st.e, .capRanges⟩
      else ⟨setTopField st.e k v, .top⟩
    | none => st
  else if indent == 8 then
    match st.ctx with
    | .conds | .condList _ =>
      match splitKeyValue content with
      | some (k, v) =>
        if v == "" then ⟨appendCond st.e k (.arr []), .condList k⟩
        else ⟨appendCond st.e k (parseScalar v), .conds⟩
      | none => st
    | .singleC =>
      match splitKeyValue content with
      | some (k, v) =>
        let sc := st.e.single.getD ⟨0, 0⟩
        if k == "min" then ⟨{ st.e with single := some { sc with min := (asIntScalar v).getD 0 } }, .singleC⟩
        else if k == "max" then ⟨{ st.e with single := some { sc with max := (asIntScalar v).getD 0 } }, .singleC⟩
        else st
      | none => st
    | .capRanges | .capRangesMin | .capRangesMax =>
      match splitKeyValue content with
      | some (k, v) =>
        if k == "min" && v == "" then ⟨st.e, .capRangesMin⟩
        else if k == "max" && v == "" then ⟨st.e, .capRangesMax⟩
        else st
      | none => st
    | .top => st
  else if indent == 10 then
    match st.ctx with
    | .condList k =>
      match content with
      | '-' :: ' ' :: rest => ⟨appendCondItem st.e k (String.mk (trimChars rest)), .condList k⟩
      | _ => st
    | .capRangesMin =>
      match splitKeyValue content with
      | some (k, v) =>
        let rc := st.e.ranges.getD ⟨0, 0, 0, 0⟩
        if k == "lower_bound" then
          ⟨{ st.e with ranges := some { rc with minLowerBound := (asIntScalar v).getD 0 } }, .capRangesMin⟩
        else if k == "upper_bound" then
          ⟨{ st.e with ranges := some { rc with minUpperBound := (asIntScalar v).getD 0 } }, .capRangesMin⟩
        else st
      | none => st
    | .capRangesMax =>
      match splitKeyValue content with
      | some (k, v) =>
        let rc := st.e.ranges.getD ⟨0, 0, 0, 0⟩
        if k == "lower_bound" then
          ⟨{ st.e with ranges := some { rc with maxLowerBound := (asIntScalar v).getD 0 } }, .capRangesMax⟩
        else if k == "upper_bound" then
          ⟨{ st.e with ranges := some { rc with maxUpperBound := (asIntScalar v).getD 0 } }, .capRangesMax⟩
        else st
      | none => st
    | _ => st
  else st

/-- Parse one list item chunk into a flat entry. -/
def parseItemChunk (ls : List String) : FlatEntry :=
  (ls.foldl processLine ⟨{}, .top⟩).e

/-- Parse one section chunk (a `- <kind>:` item with its nested list). -/
def parseSectionChunk (c : List String) : Option Section :=
  match c with
  | [] => none
  | h :: body =>
    let kind? :=
      if h == "  - display_format:" then some SectionType.displayFormat
      else if h == "  - ranges:" then some SectionType.ranges
      else if h == "  - capping:" then some SectionType.capping
      else if h == "  - rounding:" then some SectionType.rounding
      else none
    kind?.map (fun k =>
      ⟨k, (splitChunks (fun l => startsWithStr l "    - ") body).map parseItemChunk⟩)

/-- Modelled from the spec: the external js-yaml `load` used by
`YamlHandler.parseYaml`, restricted to the `pdt` document shapes the generator
emits; returns the parsed `pdt` section list. -/
def parsePdtModel (text : String) : List Section :=
  let body := dropThroughPdt (splitLines text)
  let clean := body.filter (fun l => !(isCommentOrBlank l))
  (splitChunks (fun l => startsWithStr l "  - ") clean).filterMap parseSectionChunk

/-- The comment-filtered item chunk of one emitted display-format entry. -/
def dfItemChunk (e : FlatEntry) : List String :=
  ("    - format: " ++ scalarOptString e.format) :: condBlockLines e

/-- The comment-filtered item chunk of one emitted capping entry. -/
def cappingItemChunk (e : FlatEntry) : List String :=
  ("    - delivery_option: " ++ scalarOptString e.delivery_option) ::
    (condBlockLines e ++
      ((match e.single with
        | some sc => ["      single:", "        min: " ++ intRepr sc.min,
            "        max: " ++ intRepr sc.max]
        | none => []) ++
       (match e.ranges with
        | some rc => ["      ranges:", "        min:",
            "          lower_bound: " ++ intRepr rc.minLowerBound,
            "          upper_bound: " ++ intRepr rc.minUpperBound,
            "        max:",
            "          lower_bound: " ++ intRepr rc.maxLowerBound,
            "          upper_bound: " ++ intRepr rc.maxUpperBound]
        | none => [])))

/-- The comment-filtered item chunk of one emitted rounding entry. -/
def roundingItemChunk (e : FlatEntry) : List String :=
  ["    - strategy: " ++ scalarOptString e.strategy]

/-! ### Specification-side definitions used to state the claims -/

/-- The requiredFields issue list accumulated by `validateConfiguration`
(written only by `checkDuplicateDisplayFormats`). -/
def requiredFieldIssuesAll (groups : List Group) : List RequiredFieldIssue :=
  (checkDuplicateDisplayFormats groups).2

/-- Membership of a point above a possibly-absent strict lower bound
(an absent bound is no constraint). -/
def aboveLo : Option Int → Int → Prop
  | none, _ => True
  | some a, x => a < x

/-- Membership of a point below a possibly-absent inclusive upper bound. -/
def belowHi : Option Int → Int → Prop
  | none, _ => True
  | some b, x => x ≤ b

/-- The two rules' half-open PDT intervals `(greaterThan, lessThanOrEqualTo]`
have a common point. -/
def pdtIntervalsIntersect (r1 r2 : RangesRule) : Prop :=
  ∃ x : Int, aboveLo r1.pdtGreaterThan x ∧ belowHi r1.pdtLessThanOrEqualTo x ∧
    aboveLo r2.pdtGreaterThan x ∧ belowHi r2.pdtLessThanOrEqualTo x

/-- The two rules' half-open Mean-Delay intervals have a common point. -/
def mdIntervalsIntersect (r1 r2 : RangesRule) : Prop :=
  ∃ x : Int, aboveLo r1.meanDelayGreaterThan x ∧ belowHi r1.meanDelayLessThanOrEqualTo x ∧
    aboveLo r2.meanDelayGreaterThan x ∧ belowHi r2.meanDelayLessThanOrEqualTo x

/-- A rule specifies no Mean-Delay bound at all. -/
def hasNoMeanDelayBounds (r : RangesRule) : Prop :=
  r.meanDelayGreaterThan = none ∧ r.meanDelayLessThanOrEqualTo = none

/-- The claimed overlap semantics: the PDT intervals intersect, and the
Mean-Delay dimension overlaps — where a rule with no Mean-Delay bound at all
makes that dimension overlap unconditionally. -/
def specRangesOverlap (r1 r2 : RangesRule) : Prop :=
  pdtIntervalsIntersect r1 r2 ∧
    (hasNoMeanDelayBounds r1 ∨ hasNoMeanDelayBounds r2 ∨ mdIntervalsIntersect r1 r2)

/-- A bound pair describes a nonempty half-open interval: whenever both sides
are present, the lower is strictly below the upper. -/
def NonemptyBounds (lo hi : Option Int) : Prop :=
  ∀ a b, lo = some a → hi = some b → a < b

/-- Weak comparison of present bounds, false when either side is absent. -/
def bothLe : Option Int → Option Int → Bool
  | some x, some y => decide (x ≤ y)
  | _, _ => false

/-- Compatibility of a lower bound with an upper bound: strictly below when
both are present, trivially satisfied otherwise. -/
def ltPair : Option Int → Option Int → Prop
  | some a, some b => a < b
  | _, _ => True

/-- A point inside all four interval constraints, defined whenever every
cross pair of bounds is compatible. -/
def pickWitness (l1 l2 h1 h2 : Option Int) : Int :=
  match h1, h2 with
  | some b1, some b2 => min b1 b2
  | some b1, none => b1
  | none, some b2 => b2
  | none, none =>
    match l1, l2 with
    | some a1, some a2 => max a1 a2 + 1
    | some a1, none => a1 + 1
    | none, some a2 => a2 + 1
    | none, none => 0

/-- The kinds of a section list, in order. -/
def sectionKindsOf (pdt : List Section) : List SectionType :=
  pdt.map (fun s => s.kind)

/-- The structural invariant claimed for the flat config after mutations: at
most one section per kind in the fixed order, and a kind's section is present
exactly when a group of that kind exists. -/
def SectionsInvariant (pdt : List Section) (groups : List Group) : Prop :=
  List.Sublist (sectionKindsOf pdt) [.displayFormat, .ranges, .capping, .rounding] ∧
    ∀ k, (∃ sec ∈ pdt, sec.kind = k) ↔ ∃ g ∈ groups, g.type = k

/-- An entry with the `_title` sidecar dropped: the claim-level notion of the
logical content of a flat entry. -/
def dropTitle (e : FlatEntry) : FlatEntry := { e with title_ := none }

/-- An entry with the `_title` sidecar dropped and an empty conditions object
identified with an absent one (the normalization the round trip forces). -/
def dropTitleNormConds (e : FlatEntry) : FlatEntry :=
  { e with
    title_ := none
    conditions := match e.conditions with
      | some [] => none
      | c => c }

/-- No newline character, so the value survives line-based emission. -/
def noNL (s : String) : Bool := s.data.all (fun c => !(c == '\n'))

/-- Stability under the parser's value trimming. -/
def trimStable (s : String) : Bool := trimChars s.data == s.data

/-- A string value the YAML plain-scalar reader returns unchanged. -/
def plainStr (s : String) : Bool :=
  trimStable s && noNL s && !(s == "true") && !(s == "false") && !(isCanonicalInt s)

/-- A condition value whose emitted form parses back to itself. -/
def condValWF : CondVal → Bool
  | .int _ => true
  | .bool _ => true
  | .str s => plainStr s && !(s == "")
  | .arr xs => xs.all (fun x => trimStable x && noNL x)
  | .nan => false

/-- A condition key the emitter and parser agree on. -/
def condKeyWF (k : String) : Bool :=
  (match k.data with
   | [] => false
   | c :: _ => !(c == ' ') && !(c == '#')) &&
  k.data.all (fun c => !(c == ':') && !(c == '\n')) &&
  !(startsWithStr k "_")

/-- A condition pair that round-trips through the YAML text. -/
def condPairWF (p : String × CondVal) : Bool := condKeyWF p.1 && condValWF p.2

/-- A display-format rule whose format value round-trips. -/
def dfRuleOk : Rule → Bool
  | .df f _ => plainStr f
  | _ => false

/-- An optional common parameter that is absent, empty, or a plain scalar. -/
def optParamPlain : Option String → Bool
  | some s => (s == "") || plainStr s
  | none => true

/-- An optional common parameter that is absent, empty, or trim-stable
newline-free (the array-item emission needs no scalar typing). -/
def optParamTrim : Option String → Bool
  | some s => (s == "") || (trimStable s && noNL s)
  | none => true

/-- An optional common parameter that is absent, empty, or parses as an
integer (so the stored condition value is not `NaN`). -/
def optParamInt : Option String → Bool
  | some s => (s == "") || (jsParseInt s).isSome
  | none => true

/-- The well-formedness of a group under which its emitted YAML parses back
to the flat entries it serializes to. -/
def GroupWF (g : Group) : Bool :=
  noNL g.title &&
  (!(g.type == SectionType.displayFormat) || g.rules.all dfRuleOk) &&
  optParamPlain (cpGet g "deliveryMode") &&
  optParamPlain (cpGet g "deliveryOption") &&
  optParamTrim (cpGet g "verticalType") &&
  optParamPlain (cpGet g "strategy") &&
  optParamInt (cpGet g "pdtGreaterThan") &&
  optParamInt (cpGet g "pdtLessThanOrEqualTo") &&
  optParamInt (cpGet g "meanDelayGreaterThan") &&
  optParamInt (cpGet g "meanDelayLessThanOrEqualTo")

/-- A condition value `processConfigForYaml`'s marketplace coercion leaves
unchanged. -/
def mpSafe : CondVal → Bool
  | .str _ => false
  | _ => true

/-- A conditions object that survives the YAML round trip: every pair is
well-formed, keys are distinct, and a `marketplace` value is never a raw
string. -/
def condsRT (c : Option CondMap) : Bool :=
  match c with
  | none => true
  | some m =>
    m.all (fun p => condPairWF p && (!(p.1 == "marketplace") || mpSafe p.2)) &&
    decide ((m.map Prod.fst).Nodup)

/-- An optional title that survives line-based emission. -/
def titleRT : Option String → Bool
  | none => true
  | some s => noNL s

/-- A display-format flat entry whose emitted YAML parses back to its logical
content. -/
def dfEntryRT (e : FlatEntry) : Bool :=
  (match e.format with | some f => plainStr f | none => false) &&
  e.delivery_option.isNone && e.lower_bound.isNone && e.upper_bound.isNone &&
  e.strategy.isNone && e.single.isNone && e.ranges.isNone &&
  condsRT e.conditions && titleRT e.title_

/-- A ranges flat entry whose emitted YAML parses back to its logical
content. -/
def rgEntryRT (e : FlatEntry) : Bool :=
  (match e.delivery_option with | some d => plainStr d | none => false) &&
  e.format.isNone && e.strategy.isNone && e.single.isNone && e.ranges.isNone &&
  condsRT e.conditions && titleRT e.title_

/-- A capping flat entry whose emitted YAML parses back to its logical
content. -/
def cpEntryRT (e : FlatEntry) : Bool :=
  (match e.delivery_option with | some d => plainStr d | none => false) &&
  e.format.isNone && e.strategy.isNone && e.lower_bound.isNone &&
  e.upper_bound.isNone && condsRT e.conditions && titleRT e.title_

/-- A rounding flat entry whose emitted YAML parses back to its logical
content. -/
def rdEntryRT (e : FlatEntry) : Bool :=
  (match e.strategy with | some s => plainStr s | none => false) &&
  e.format.isNone && e.delivery_option.isNone && e.lower_bound.isNone &&
  e.upper_bound.isNone && e.single.isNone && e.ranges.isNone &&
  e.conditions.isNone && titleRT e.title_

/-- A section whose entries all survive the YAML round trip. -/
def secRT (sec : Section) : Bool :=
  match sec.kind with
  | .displayFormat => sec.entries.all dfEntryRT
  | .ranges => sec.entries.all rgEntryRT
  | .capping => sec.entries.all cpEntryRT
  | .rounding => sec.entries.all rdEntryRT

/-- The headed section chunks the comment filter leaves from one emitted
section. -/
def emittedChunks (sec : Section) : List (List String) :=
  match sec.kind with
  | .displayFormat =>
    sec.entries.map (fun e => "  - display_format:" :: dfItemChunk e)
  | .ranges =>
    (bucketBy rangeDescKey sec.entries).map
      (fun b => "  - ranges:" :: b.2.flatMap rangesItemLines)
  | .capping => sec.entries.map (fun e => "  - capping:" :: cappingItemChunk e)
  | .rounding => sec.entries.map (fun e => "  - rounding:" :: roundingItemChunk e)

/-- The section objects the parse model reads back from one emitted
section. -/
def parsedSecs (sec : Section) : List Section :=
  match sec.kind with
  | .displayFormat =>
    sec.entries.map (fun e => ⟨.displayFormat, [dropTitleNormConds e]⟩)
  | .ranges =>
    (bucketBy rangeDescKey sec.entries).map
      (fun b => ⟨.ranges, b.2.map dropTitleNormConds⟩)
  | .capping => sec.entries.map (fun e => ⟨.capping, [dropTitleNormConds e]⟩)
  | .rounding => sec.entries.map (fun e => ⟨.rounding, [dropTitleNormConds e]⟩)

/-- A concrete display-format group exercising every condition
contribution. -/
def gDF : Group :=
  ⟨"g1", .displayFormat, "Title DF",
   [("deliveryMode", "DELIVERY"), ("marketplace", "true"),
    ("pdtLessThanOrEqualTo", "30"), ("verticalType", "restaurants")],
   [.df "XX-YY" []]⟩

/-- A concrete ranges group with two rules sharing a description bucket
shape. -/
def gRG : Group :=
  ⟨"g2", .ranges, "Title RG",
   [("deliveryOption", "FAST"), ("deliveryMode", "OD")],
   [.rg ⟨10, 20, some 0, some 18, none, none⟩,
    .rg ⟨20, 30, some 18, some 23, none, none⟩]⟩

/-- A concrete capping group with one single and one ranges rule. -/
def gCP : Group :=
  ⟨"g3", .capping, "Title CP",
   [("pdtGreaterThan", "5"), ("meanDelayLessThanOrEqualTo", "12")],
   [.cp (.single 10 45), .cp (.ranges 1 2 3 4)]⟩

/-- A concrete rounding group. -/
def gRD : Group :=
  ⟨"g4", .rounding, "", [("strategy", "UP")], []⟩

/-! ## Theorems -/

/-- Claim C6: for a capping group, the overlap scan run by
`validateConfiguration` produces no issue exactly when the group has at most
one single-type and at most one ranges-type rule; the multiple-single-rules
issue appears exactly when more than one single-type rule exists, and the
multiple-ranges-rules issue exactly when more than one ranges-type rule
exists.  In particular a group with exactly one rule of each type is never
flagged. -/
theorem claim_C6 (gid title : String) (cp : List (String × String)) (rules : List Rule) :
    (overlappingIssuesForGroup ⟨gid, .capping, title, cp, rules⟩ = [] ↔
      rules.countP (fun r => r.isSingle) ≤ 1 ∧ rules.countP (fun r => r.isCapRanges) ≤ 1) ∧
    ((∃ i ∈ overlappingIssuesForGroup ⟨gid, .capping, title, cp, rules⟩,
        i.msg.isMultipleSingle = true) ↔ 1 < rules.countP (fun r => r.isSingle)) ∧
    ((∃ i ∈ overlappingIssuesForGroup ⟨gid, .capping, title, cp, rules⟩,
        i.msg.isMultipleRanges = true) ↔ 1 < rules.countP (fun r => r.isCapRanges)) := by
  have hs := List.countP_le_length (p := fun r => r.isSingle) (l := rules)
  have hr := List.countP_le_length (p := fun r => r.isCapRanges) (l := rules)
  by_cases hlen : 1 < rules.length
  · simp only [overlappingIssuesForGroup, checkOverlappingCappingRules, hlen, if_true]
    by_cases h1 : 1 < rules.countP (fun r => r.isSingle) <;>
      by_cases h2 : 1 < rules.countP (fun r => r.isCapRanges) <;>
      simp [h1, h2, IssueMsg.isMultipleSingle, IssueMsg.isMultipleRanges] <;> omega
  · simp only [overlappingIssuesForGroup, hlen, if_false]
    simp
    omega

/-- Claim C7 counterexample: a configuration whose only display-format group
has two format rules produces no too-many-formats issue, because the
display-format scan returns before the rule-count check when fewer than two
display-format groups exist. -/
theorem claim_C7_counterexample :
    requiredFieldIssuesAll
      [⟨"display-format-0", .displayFormat, "T", [], [.df "A" [], .df "B" []]⟩] = [] ∧
    1 < (Group.rules
      ⟨"display-format-0", .displayFormat, "T", [], [.df "A" [], .df "B" []]⟩).length := by
  constructor
  · rfl
  · decide

/-- Claim C7 (amended): a display-format group with more than one rule is
flagged with a standalone too-many-formats issue naming its id, provided at
least two display-format groups are present — with a single display-format
group the scan returns early and nothing is flagged. -/
theorem claim_C7_amended (groups : List Group) (g : Group) (hg : g ∈ groups)
    (ht : g.type = .displayFormat) (hr : 1 < g.rules.length)
    (h2 : 2 ≤ (groups.filter (fun x => x.type == .displayFormat)).length) :
    ∃ i ∈ requiredFieldIssuesAll groups, i.groupId = g.id := by
  unfold requiredFieldIssuesAll checkDuplicateDisplayFormats
  have hlt : ¬ (groups.filter (fun x => x.type == .displayFormat)).length < 2 := by omega
  simp only [hlt, if_false]
  refine ⟨⟨g.id, .multipleFormatRules g.title⟩, ?_, rfl⟩
  simp only [List.mem_filterMap]
  refine ⟨g, ?_, ?_⟩
  · simp [List.mem_filter, hg, ht]
  · simp [hr]

/-- Witness for the amended C7 at a concrete two-group configuration. -/
theorem claim_C7_amended_witness :
    ∃ i ∈ requiredFieldIssuesAll
      [⟨"display-format-0", .displayFormat, "T", [], [.df "A" [], .df "B" []]⟩,
       ⟨"display-format-1", .displayFormat, "U", [], [.df "C" []]⟩],
      i.groupId = "display-format-0" :=
  claim_C7_amended _
    ⟨"display-format-0", .displayFormat, "T", [], [.df "A" [], .df "B" []]⟩
    (by simp) rfl (by decide) (by decide)

/-- The conditions built for a serialized ranges rule never contain the
`pdt_greater_than` key when the rule's bound is null. -/
theorem rangesEntry_no_pdtGT (g : Group) (rr : RangesRule) (h : rr.pdtGreaterThan = none) :
    jsLookup ((rangesEntryOfRule g (.rg rr)).conditions.getD []) "pdt_greater_than" = none := by
  simp only [rangesEntryOfRule, Rule.rgPdtGT, Rule.rgPdtLE, Rule.rgMdGT, Rule.rgMdLE, h,
    Option.getD_some, jsLookup]
  rw [Option.map_eq_none', List.find?_eq_none]
  intro p hp
  simp only [optIntPair, List.mem_append] at hp
  rcases hp with ((((((hp | hp) | hp) | hp) | hp) | hp) | hp)
  · simp at hp
  · revert hp
    cases rr.pdtLessThanOrEqualTo <;> intro hp <;> simp at hp
    subst hp
    simp
  · revert hp
    cases rr.meanDelayGreaterThan <;> intro hp <;> simp at hp
    subst hp
    simp
  · revert hp
    cases rr.meanDelayLessThanOrEqualTo <;> intro hp <;> simp at hp
    subst hp
    simp
  · revert hp
    unfold deliveryModeCond
    cases cpGet g "deliveryMode" with
    | none => intro hp; simp at hp
    | some s =>
      by_cases hs : s == "" <;> intro hp <;> simp [hs] at hp
      subst hp
      simp
  · revert hp
    unfold marketplaceCond
    cases cpGet g "marketplace" with
    | none => intro hp; simp at hp
    | some s =>
      by_cases hs : s == "" <;> intro hp <;> simp [hs] at hp
      subst hp
      simp
  · revert hp
    unfold verticalTypesCond
    cases cpGet g "verticalType" with
    | none => intro hp; simp at hp
    | some s =>
      by_cases hs : s == "" <;> intro hp <;> simp [hs] at hp
      subst hp
      simp

/-- Claim C9: rebuilding the group index maps any zero-valued numeric bound
condition of a flat ranges entry to null (`0` is falsy under the `|| null`
read), for all four bound keys; and a null bound is omitted from the entry
built on the next re-serialization, so the zero is lost. -/
theorem claim_C9 (e : FlatEntry) (m : CondMap) (hm : e.conditions = some m) :
    (jsLookup m "pdt_greater_than" = some (.int 0) →
      (rebuildRangesRule e).pdtGreaterThan = none) ∧
    (jsLookup m "pdt_less_than_or_equal_to" = some (.int 0) →
      (rebuildRangesRule e).pdtLessThanOrEqualTo = none) ∧
    (jsLookup m "mean_delay_greater_than" = some (.int 0) →
      (rebuildRangesRule e).meanDelayGreaterThan = none) ∧
    (jsLookup m "mean_delay_less_than_or_equal_to" = some (.int 0) →
      (rebuildRangesRule e).meanDelayLessThanOrEqualTo = none) ∧
    (∀ (g : Group) (rr : RangesRule), rr.pdtGreaterThan = none →
      jsLookup ((rangesEntryOfRule g (.rg rr)).conditions.getD []) "pdt_greater_than" = none) := by
  refine ⟨?_, ?_, ?_, ?_, fun g rr h => rangesEntry_no_pdtGT g rr h⟩ <;>
    intro h <;> simp [rebuildRangesRule, jsOrNullCondInt, hm, h]

/-- Witness for C9: a concrete entry with all four bounds set to zero is
rebuilt with all bounds null, and serializing a null-bounded rule omits the
key. -/
theorem claim_C9_witness :
    (jsLookup [("pdt_greater_than", CondVal.int 0), ("pdt_less_than_or_equal_to", CondVal.int 0),
        ("mean_delay_greater_than", CondVal.int 0),
        ("mean_delay_less_than_or_equal_to", CondVal.int 0)] "pdt_greater_than" =
      some (.int 0)) ∧
    (rebuildRangesRule
      { lower_bound := some 0, upper_bound := some 5,
        conditions := some [("pdt_greater_than", CondVal.int 0),
          ("pdt_less_than_or_equal_to", CondVal.int 0),
          ("mean_delay_greater_than", CondVal.int 0),
          ("mean_delay_less_than_or_equal_to", CondVal.int 0)] }).pdtGreaterThan = none := by
  refine ⟨by decide, ?_⟩
  exact (claim_C9
    { lower_bound := some 0, upper_bound := some 5,
      conditions := some [("pdt_greater_than", CondVal.int 0),
        ("pdt_less_than_or_equal_to", CondVal.int 0),
        ("mean_delay_greater_than", CondVal.int 0),
        ("mean_delay_less_than_or_equal_to", CondVal.int 0)] }
    _ rfl).1 (by decide)

/-- Data of a separator fold over strings extends the seed string. -/
theorem joinFold_data (sep : String) (ys : List String) :
    ∀ p : String, ∃ t, (ys.foldl (fun acc y => acc ++ sep ++ y) p).data = p.data ++ t := by
  induction ys with
  | nil => intro p; exact ⟨[], by simp⟩
  | cons y ys ih =>
    intro p
    obtain ⟨t, ht⟩ := ih (p ++ sep ++ y)
    refine ⟨sep.data ++ y.data ++ t, ?_⟩
    rw [List.foldl_cons, ht]
    simp

/-- The join of a nonempty part list extends the first part. -/
theorem joinParts_data_head (sep p : String) (rest : List String) :
    ∃ t, (joinParts sep (p :: rest)).data = p.data ++ t := by
  show ∃ t, (rest.foldl (fun acc y => acc ++ sep ++ y) p).data = p.data ++ t
  exact joinFold_data sep rest p

/-- Every key part built in the full-conditions case starts with the letter
of its parameter name, never with `c`. -/
theorem case3Part_head (m : CondMap) (k : String) (p : String) (h : case3Part m k = some p) :
    ∃ c t, p.data = c :: t ∧ ¬c = 'c' := by
  unfold case3Part at h
  by_cases h1 : k == "delivery_mode"
  · simp only [h1, if_true] at h
    rcases hl : jsLookup m "delivery_mode" with _ | v <;> rw [hl] at h
    · simp at h
    · by_cases hv : condTruthy v = true <;> simp [hv] at h
      obtain ⟨t, ht⟩ : ∃ t, p.data = 'd' :: t := by
        rw [← h, String.data_append]
        exact ⟨_, rfl⟩
      exact ⟨'d', t, ht, by decide⟩
  · by_cases h2 : k == "marketplace"
    · simp only [h1, h2, if_false, if_true] at h
      rcases hl : jsLookup m "marketplace" with _ | v <;> rw [hl] at h
      · simp at h
      · simp at h
        obtain ⟨t, ht⟩ : ∃ t, p.data = 'm' :: t := by
          rw [← h, String.data_append]
          exact ⟨_, rfl⟩
        exact ⟨'m', t, ht, by decide⟩
    · by_cases h3 : k == "vertical_types"
      · simp only [h1, h2, h3, if_false, if_true] at h
        simp at h
        obtain ⟨t, ht⟩ : ∃ t, p.data = 'v' :: t := by
          rw [← h, String.data_append]
          exact ⟨_, rfl⟩
        exact ⟨'v', t, ht, by decide⟩
      · by_cases h4 : k == "pdt_less_than_or_equal_to"
        · simp only [h1, h2, h3, h4, if_false, if_true] at h
          rcases hl : jsLookup m "pdt_less_than_or_equal_to" with _ | v <;> rw [hl] at h
          · simp at h
          · simp at h
            obtain ⟨t, ht⟩ : ∃ t, p.data = 'p' :: t := by
              rw [← h, String.data_append]
              exact ⟨_, rfl⟩
            exact ⟨'p', t, ht, by decide⟩
        · simp [h1, h2, h3, h4] at h

/-- Claim C3 counterexample: an entry carrying a delivery option together
with an explicitly empty conditions object receives the key
`conditions:none`, although the claim says such an entry never does. -/
theorem claim_C3_counterexample :
    groupingKeyOfEntry
      { delivery_option := some "STANDARD", conditions := some ([] : CondMap) }
      rangesGroupKeys = "conditions:none" ∧
    truthyStr (FlatEntry.delivery_option
      { delivery_option := some "STANDARD", conditions := some ([] : CondMap) }) = true := by
  exact ⟨rfl, rfl⟩

/-- Claim C3 (amended): the grouping key implements three disjoint cases —
an entry with no condition content gets `conditions:none` unless its
conditions object is absent while a delivery option is present, in which case
it gets the delivery-option-only key; an entry with any explicit condition
content never gets `conditions:none`.  An entry with a delivery option but an
explicitly empty conditions object falls into the first case. -/
theorem claim_C3_amended (e : FlatEntry) (ks : List String) :
    (hasAnyConditions e = false →
      ¬(e.conditions = none ∧ truthyStr e.delivery_option = true) →
      groupingKeyOfEntry e ks = "conditions:none") ∧
    (e.conditions = none → truthyStr e.delivery_option = true →
      groupingKeyOfEntry e ks =
        "delivery_option:" ++ (e.delivery_option.getD "").toUpper ++
          "|conditions:delivery_option_only") ∧
    (hasAnyConditions e = true → ¬groupingKeyOfEntry e ks = "conditions:none") := by
  refine ⟨?_, ?_, ?_⟩
  · intro h1 h2
    have honly : hasOnlyDeliveryOption e = false := by
      unfold hasOnlyDeliveryOption
      rcases hc : e.conditions with _ | m
      · have : truthyStr e.delivery_option = false := by
          by_contra hcon
          exact h2 ⟨hc, by revert hcon; cases truthyStr e.delivery_option <;> simp⟩
        simp [this]
      · simp
    unfold groupingKeyOfEntry
    simp [h1, honly]
  · intro h1 h2
    have hany : hasAnyConditions e = false := by unfold hasAnyConditions; rw [h1]
    have honly : hasOnlyDeliveryOption e = true := by
      unfold hasOnlyDeliveryOption
      simp [hany, h1, h2]
    unfold groupingKeyOfEntry
    simp [hany, honly]
  · intro h1
    unfold groupingKeyOfEntry
    have honly : hasOnlyDeliveryOption e = false := by
      unfold hasOnlyDeliveryOption
      simp [h1]
    rw [h1, honly]
    simp only [Bool.not_true, Bool.not_false, Bool.false_and, Bool.false_eq_true, if_false]
    intro hcon
    rcases hp : (if truthyStr e.delivery_option = true then
          ["delivery_option:" ++ (e.delivery_option.getD "").toUpper] else []) ++
        ks.filterMap (case3Part (e.conditions.getD [])) with _ | ⟨p, rest⟩
    · rw [hp] at hcon
      simp only [joinParts] at hcon
      exact absurd hcon (by decide)
    · rw [hp] at hcon
      have hphead : ∃ c t, p.data = c :: t ∧ ¬c = 'c' := by
        rcases hb : truthyStr e.delivery_option with _ | _
        · rw [hb] at hp
          simp only [Bool.false_eq_true, if_false, List.nil_append] at hp
          have hpmem : p ∈ ks.filterMap (case3Part (e.conditions.getD [])) := by
            rw [hp]; exact List.mem_cons_self _ _
          obtain ⟨k, _, hk⟩ := List.mem_filterMap.mp hpmem
          exact case3Part_head _ k p hk
        · rw [hb] at hp
          simp only [if_true, List.singleton_append] at hp
          injection hp with hpe _
          obtain ⟨t, ht⟩ : ∃ t, p.data = 'd' :: t := by
            rw [← hpe, String.data_append]
            exact ⟨_, rfl⟩
          exact ⟨'d', t, ht, by decide⟩
      obtain ⟨c, t, hdata, hcne⟩ := hphead
      have hkey : joinParts "|" (p :: rest) = "conditions:none" := by
        by_cases hempty : joinParts "|" (p :: rest) == ""
        · rw [if_pos hempty] at hcon
          exact absurd hcon (by decide)
        · rw [if_neg hempty] at hcon
          exact hcon
      obtain ⟨u, hu⟩ := joinParts_data_head "|" p rest
      have hdeq : ("conditions:none" : String).data = p.data ++ u := by rw [← hkey, hu]
      rw [hdata] at hdeq
      have hcn : ("conditions:none" : String).data = 'c' :: "onditions:none".data := rfl
      rw [hcn] at hdeq
      injection hdeq with hh _
      exact hcne hh.symm

/-- Claim C8: every mutating operation invoked with a non-existent group id
(or, for the rule operations, a non-existent rule index) raises no exception,
returns its failure indicator (`false`, or `none` for `cloneGroup`), and
leaves the entire state — group index, flat config, and persistence log —
unchanged. -/
theorem claim_C8 (s : CMState) (gid : String) :
    (findGroup s gid = none →
      (∀ i f v, updateRule s gid i f v = (s, false)) ∧
      (∀ i, deleteRule s gid i = (s, false)) ∧
      (∀ t, deleteGroup s t gid = (s, false)) ∧
      (∀ p v, updateGroupCommonParam s gid p v = (s, false)) ∧
      (∀ t, updateGroupTitle s gid t = (s, false)) ∧
      (∀ f, addRule s gid f = (s, false)) ∧
      cloneGroup s gid = (s, none)) ∧
    (∀ g i, findGroup s gid = some g → g.rules.length ≤ i →
      (∀ f v, updateRule s gid i f v = (s, false)) ∧ deleteRule s gid i = (s, false)) := by
  constructor
  · intro h
    refine ⟨?_, ?_, ?_, ?_, ?_, ?_, ?_⟩ <;>
      simp [updateRule, deleteRule, deleteGroup, updateGroupCommonParam, updateGroupTitle,
        addRule, cloneGroup, h]
  · intro g i hg hi
    have hni : g.rules[i]? = none := List.getElem?_eq_none hi
    constructor
    · intro f v
      simp [updateRule, hg, hni]
    · simp [deleteRule, hg, hni]

/-- Witness for C8 at a concrete state: a missing group id and an
out-of-range rule index both fail and leave the state untouched. -/
theorem claim_C8_witness :
    (updateGroupCommonParam
        ⟨[⟨"display-format-0", .displayFormat, "T", [], [.df "A" []]⟩], [], 1, []⟩
        "missing" "deliveryMode" "DELIVERY" =
      (⟨[⟨"display-format-0", .displayFormat, "T", [], [.df "A" []]⟩], [], 1, []⟩, false)) ∧
    (deleteRule ⟨[⟨"display-format-0", .displayFormat, "T", [], [.df "A" []]⟩], [], 1, []⟩
        "display-format-0" 5 =
      (⟨[⟨"display-format-0", .displayFormat, "T", [], [.df "A" []]⟩], [], 1, []⟩, false)) := by
  constructor
  · exact ((claim_C8 _ "missing").1 (by decide)).2.2.2.1 "deliveryMode" "DELIVERY"
  · exact ((claim_C8 _ "display-format-0").2
      ⟨"display-format-0", .displayFormat, "T", [], [.df "A" []]⟩ 5 (by decide) (by decide)).2

/-- A filtered group cluster is nonempty exactly when a group of the type
exists. -/
theorem filter_type_nonempty (groups : List Group) (t : SectionType) :
    (groups.filter (fun g => g.type == t)).isEmpty = false ↔ ∃ g ∈ groups, g.type = t := by
  rw [List.isEmpty_eq_false_iff_exists_mem]
  constructor
  · rintro ⟨g, hg⟩
    rw [List.mem_filter] at hg
    exact ⟨g, hg.1, by simpa using hg.2⟩
  · rintro ⟨g, hg, ht⟩
    exact ⟨g, List.mem_filter.mpr ⟨hg, by simpa using ht⟩⟩

/-- The rebuilt section list always satisfies the structural invariant. -/
theorem sectionsFromGroups_invariant (groups : List Group) :
    SectionsInvariant (sectionsFromGroups groups) groups := by
  constructor
  · unfold sectionsFromGroups sectionKindsOf
    cases h1 : (groups.filter (fun g => g.type == SectionType.displayFormat)).isEmpty <;>
      cases h2 : (groups.filter (fun g => g.type == SectionType.ranges)).isEmpty <;>
      cases h3 : (groups.filter (fun g => g.type == SectionType.capping)).isEmpty <;>
      cases h4 : (groups.filter (fun g => g.type == SectionType.rounding)).isEmpty <;>
      simp [h1, h2, h3, h4] <;> decide
  · intro k
    rw [← filter_type_nonempty]
    unfold sectionsFromGroups
    cases h1 : (groups.filter (fun g => g.type == SectionType.displayFormat)).isEmpty <;>
      cases h2 : (groups.filter (fun g => g.type == SectionType.ranges)).isEmpty <;>
      cases h3 : (groups.filter (fun g => g.type == SectionType.capping)).isEmpty <;>
      cases h4 : (groups.filter (fun g => g.type == SectionType.rounding)).isEmpty <;>
      cases k <;> simp [h1, h2, h3, h4]

/-- The state after a rebuild satisfies the invariant. -/
theorem updateConfigFromGroups_invariant (s : CMState) :
    SectionsInvariant (updateConfigFromGroups s).pdt (updateConfigFromGroups s).groups :=
  sectionsFromGroups_invariant s.groups

/-- Claim C10: after every successful mutation, the flat config holds at most
one section per kind, in the fixed order display-format, ranges, capping,
rounding, and a kind's section is present exactly when a group of that kind
exists — regardless of the state beforehand. -/
theorem claim_C10 (s : CMState) :
    (∀ t tpl, SectionsInvariant (addGroup s t tpl).1.pdt (addGroup s t tpl).1.groups) ∧
    (∀ gid, (cloneGroup s gid).2.isSome = true →
      SectionsInvariant (cloneGroup s gid).1.pdt (cloneGroup s gid).1.groups) ∧
    (∀ t gid, (deleteGroup s t gid).2 = true →
      SectionsInvariant (deleteGroup s t gid).1.pdt (deleteGroup s t gid).1.groups) ∧
    (∀ gid p v, (updateGroupCommonParam s gid p v).2 = true →
      SectionsInvariant (updateGroupCommonParam s gid p v).1.pdt
        (updateGroupCommonParam s gid p v).1.groups) ∧
    (∀ gid f, (addRule s gid f).2 = true →
      SectionsInvariant (addRule s gid f).1.pdt (addRule s gid f).1.groups) ∧
    (∀ gid i f v, (updateRule s gid i f v).2 = true →
      SectionsInvariant (updateRule s gid i f v).1.pdt (updateRule s gid i f v).1.groups) ∧
    (∀ gid i, (deleteRule s gid i).2 = true →
      SectionsInvariant (deleteRule s gid i).1.pdt (deleteRule s gid i).1.groups) ∧
    (∀ gid t, (updateGroupTitle s gid t).2 = true →
      SectionsInvariant (updateGroupTitle s gid t).1.pdt (updateGroupTitle s gid t).1.groups) := by
  refine ⟨?_, ?_, ?_, ?_, ?_, ?_, ?_, ?_⟩
  · intro t tpl
    exact updateConfigFromGroups_invariant _
  · intro gid hsucc
    unfold cloneGroup at hsucc ⊢
    cases h : findGroup s gid with
    | none => rw [h] at hsucc; simp at hsucc
    | some g => exact updateConfigFromGroups_invariant _
  · intro t gid hsucc
    unfold deleteGroup at hsucc ⊢
    cases h : (findGroup s gid).isSome with
    | true => exact updateConfigFromGroups_invariant _
    | false => rw [h] at hsucc; simp at hsucc
  · intro gid p v hsucc
    unfold updateGroupCommonParam at hsucc ⊢
    cases h : findGroup s gid with
    | none => rw [h] at hsucc; simp at hsucc
    | some g => exact updateConfigFromGroups_invariant _
  · intro gid f hsucc
    unfold addRule at hsucc ⊢
    cases h : findGroup s gid with
    | none => rw [h] at hsucc; simp at hsucc
    | some g => exact updateConfigFromGroups_invariant _
  · intro gid i f v hsucc
    unfold updateRule at hsucc ⊢
    cases h : findGroup s gid with
    | none => rw [h] at hsucc; simp at hsucc
    | some g =>
      rw [h] at hsucc
      cases hr : g.rules[i]? with
      | none => simp [hr] at hsucc
      | some r =>
        simp only [hr]
        exact updateConfigFromGroups_invariant _
  · intro gid i hsucc
    unfold deleteRule at hsucc ⊢
    cases h : findGroup s gid with
    | none => rw [h] at hsucc; simp at hsucc
    | some g =>
      rw [h] at hsucc
      cases hr : g.rules[i]? with
      | none => simp [hr] at hsucc
      | some r =>
        simp only [hr]
        exact updateConfigFromGroups_invariant _
  · intro gid t hsucc
    unfold updateGroupTitle at hsucc ⊢
    cases h : findGroup s gid with
    | none => rw [h] at hsucc; simp at hsucc
    | some g => exact updateConfigFromGroups_invariant _

/-- Witness for C10: a successful deletion at a concrete state satisfies the
invariant. -/
theorem claim_C10_witness :
    (deleteGroup ⟨[⟨"ranges-0", .ranges, "T", [], []⟩], [], 1, []⟩ .ranges "ranges-0").2 = true ∧
    SectionsInvariant
      (deleteGroup ⟨[⟨"ranges-0", .ranges, "T", [], []⟩], [], 1, []⟩ .ranges "ranges-0").1.pdt
      (deleteGroup ⟨[⟨"ranges-0", .ranges, "T", [], []⟩], [], 1, []⟩ .ranges "ranges-0").1.groups :=
  ⟨by decide, (claim_C10 _).2.2.1 .ranges "ranges-0" (by decide)⟩

/-- Witness for the amended C3 at a concrete entry with a delivery option and
no conditions object. -/
theorem claim_C3_amended_witness :
    groupingKeyOfEntry { delivery_option := some "standard" } rangesGroupKeys =
      "delivery_option:" ++ ((some "standard").getD "").toUpper ++
        "|conditions:delivery_option_only" :=
  (claim_C3_amended { delivery_option := some "standard" } rangesGroupKeys).2.1 rfl (by decide)

/-- Witness for C6 at a concrete capping group with one rule of each type. -/
theorem claim_C6_witness :
    overlappingIssuesForGroup
      ⟨"g", .capping, "T", [], [.cp (.single 5 180), .cp (.ranges 10 20 160 180)]⟩ = [] :=
  ((claim_C6 "g" "T" [] [.cp (.single 5 180), .cp (.ranges 10 20 160 180)]).1).mpr (by decide)

/-- A nonempty-interval bound pair is exactly a compatible pair. -/
theorem nonempty_iff_ltPair (lo hi : Option Int) : NonemptyBounds lo hi ↔ ltPair lo hi := by
  rcases lo with _ | a <;> rcases hi with _ | b <;>
    simp [NonemptyBounds, ltPair]

/-- Two half-open intervals share a point exactly when every lower bound is
compatible with every upper bound. -/
theorem intersect_char (l1 h1 l2 h2 : Option Int) :
    (∃ x : Int, aboveLo l1 x ∧ belowHi h1 x ∧ aboveLo l2 x ∧ belowHi h2 x) ↔
      (ltPair l1 h1 ∧ ltPair l1 h2 ∧ ltPair l2 h1 ∧ ltPair l2 h2) := by
  constructor
  · rintro ⟨x, hx1, hx2, hx3, hx4⟩
    rcases l1 with _ | a1 <;> rcases h1 with _ | b1 <;> rcases l2 with _ | a2 <;>
      rcases h2 with _ | b2 <;>
      simp only [ltPair, aboveLo, belowHi, and_true, true_and] at * <;> omega
  · rintro ⟨p11, p12, p21, p22⟩
    refine ⟨pickWitness l1 l2 h1 h2, ?_, ?_, ?_, ?_⟩ <;>
      rcases l1 with _ | a1 <;> rcases h1 with _ | b1 <;> rcases l2 with _ | a2 <;>
      rcases h2 with _ | b2 <;>
      simp only [ltPair, aboveLo, belowHi, pickWitness] at * <;> omega

/-- A dimension whose code test rejects the pair has no interval
intersection. -/
theorem dim_false_no_intersect (l1 h1 l2 h2 : Option Int)
    (hc : (h1.isSome && l2.isSome && h1 == l2) = true ∨
      (h2.isSome && l1.isSome && h2 == l1) = true ∨
      (bothLt h1 l2 || bothLt h2 l1) = true) :
    ¬ (∃ x : Int, aboveLo l1 x ∧ belowHi h1 x ∧ aboveLo l2 x ∧ belowHi h2 x) := by
  rw [intersect_char]
  rintro ⟨p11, p12, p21, p22⟩
  rcases hc with hc | hc | hc <;>
    rcases l1 with _ | a1 <;> rcases h1 with _ | b1 <;> rcases l2 with _ | a2 <;>
    rcases h2 with _ | b2 <;>
    simp [ltPair, bothLt] at * <;> omega

/-- A dimension whose nonempty bound pairs pass all three code tests has an
interval intersection. -/
theorem dim_true_intersect (l1 h1 l2 h2 : Option Int)
    (ne1 : NonemptyBounds l1 h1) (ne2 : NonemptyBounds l2 h2)
    (hc1 : (h1.isSome && l2.isSome && h1 == l2) = false)
    (hc2 : (h2.isSome && l1.isSome && h2 == l1) = false)
    (hc3 : (bothLt h1 l2 || bothLt h2 l1) = false) :
    ∃ x : Int, aboveLo l1 x ∧ belowHi h1 x ∧ aboveLo l2 x ∧ belowHi h2 x := by
  rw [intersect_char]
  rw [nonempty_iff_ltPair] at ne1 ne2
  refine ⟨ne1, ?_, ?_, ne2⟩ <;>
    rcases l1 with _ | a1 <;> rcases h1 with _ | b1 <;> rcases l2 with _ | a2 <;>
    rcases h2 with _ | b2 <;>
    simp [ltPair, bothLt] at * <;> omega

/-- Claim C2 counterexample: on a rule whose PDT bound pair describes an
empty interval `(5, 3]`, the code reports an overlap with `(0, 10]` although
the intervals do not intersect, so the claimed equivalence fails as stated. -/
theorem claim_C2_counterexample :
    doRangesRulesOverlap ⟨0, 0, some 5, some 3, none, none⟩
        ⟨0, 0, some 0, some 10, none, none⟩ = true ∧
    ¬ specRangesOverlap ⟨0, 0, some 5, some 3, none, none⟩
        ⟨0, 0, some 0, some 10, none, none⟩ := by
  refine ⟨by decide, ?_⟩
  rintro ⟨⟨x, hx1, hx2, -, -⟩, -⟩
  have h1 : (5 : Int) < x := hx1
  have h2 : x ≤ 3 := hx2
  omega

/-- Claim C2 (amended): restricted to rules whose present bound pairs
describe nonempty intervals, `doRangesRulesOverlap` returns true exactly when
the half-open PDT intervals intersect and the Mean-Delay dimension overlaps —
with a rule that has no Mean-Delay bound at all making that dimension overlap
unconditionally, and exact boundary adjacency counting as no overlap. -/
theorem claim_C2_amended (r1 r2 : RangesRule)
    (h1p : NonemptyBounds r1.pdtGreaterThan r1.pdtLessThanOrEqualTo)
    (h2p : NonemptyBounds r2.pdtGreaterThan r2.pdtLessThanOrEqualTo)
    (h1m : NonemptyBounds r1.meanDelayGreaterThan r1.meanDelayLessThanOrEqualTo)
    (h2m : NonemptyBounds r2.meanDelayGreaterThan r2.meanDelayLessThanOrEqualTo) :
    doRangesRulesOverlap r1 r2 = true ↔ specRangesOverlap r1 r2 := by
  obtain ⟨lb1, ub1, pg1, pl1, mg1, ml1⟩ := r1
  obtain ⟨lb2, ub2, pg2, pl2, mg2, ml2⟩ := r2
  dsimp only at h1p h2p h1m h2m
  unfold doRangesRulesOverlap specRangesOverlap pdtIntervalsIntersect mdIntervalsIntersect
    hasNoMeanDelayBounds
  dsimp only
  split_ifs with hc1 hc2 hc3 hc4 hc5 hc6 hc7
  · simp only [false_iff]
    rintro ⟨hpdt, -⟩
    exact dim_false_no_intersect pg1 pl1 pg2 pl2 (Or.inl hc1) hpdt
  · simp only [false_iff]
    rintro ⟨hpdt, -⟩
    exact dim_false_no_intersect pg1 pl1 pg2 pl2 (Or.inr (Or.inl hc2)) hpdt
  · simp only [false_iff]
    rintro ⟨hpdt, -⟩
    exact dim_false_no_intersect pg1 pl1 pg2 pl2 (Or.inr (Or.inr hc3)) hpdt
  · simp only [true_iff]
    simp only [Bool.not_eq_true] at hc1 hc2 hc3
    refine ⟨dim_true_intersect pg1 pl1 pg2 pl2 h1p h2p hc1 hc2 hc3, ?_⟩
    rcases Bool.or_eq_true_iff.mp hc4 with h | h
    · simp only [Bool.and_eq_true, Option.isNone_iff_eq_none] at h
      exact Or.inl ⟨h.1, h.2⟩
    · simp only [Bool.and_eq_true, Option.isNone_iff_eq_none] at h
      exact Or.inr (Or.inl ⟨h.1, h.2⟩)
  · simp only [false_iff]
    simp only [Bool.not_eq_true, Bool.or_eq_false_iff, Bool.and_eq_false_iff,
      Option.isNone_eq_false_iff, Option.isSome_iff_exists] at hc4
    rintro ⟨-, hmd⟩
    rcases hmd with ⟨ha, hb⟩ | ⟨ha, hb⟩ | hint
    · rcases hc4.1 with ⟨w, hw⟩ | ⟨w, hw⟩
      · rw [ha] at hw; cases hw
      · rw [hb] at hw; cases hw
    · rcases hc4.2 with ⟨w, hw⟩ | ⟨w, hw⟩
      · rw [ha] at hw; cases hw
      · rw [hb] at hw; cases hw
    · exact dim_false_no_intersect mg1 ml1 mg2 ml2 (Or.inl hc5) hint
  · simp only [false_iff]
    simp only [Bool.not_eq_true, Bool.or_eq_false_iff, Bool.and_eq_false_iff,
      Option.isNone_eq_false_iff, Option.isSome_iff_exists] at hc4
    rintro ⟨-, hmd⟩
    rcases hmd with ⟨ha, hb⟩ | ⟨ha, hb⟩ | hint
    · rcases hc4.1 with ⟨w, hw⟩ | ⟨w, hw⟩
      · rw [ha] at hw; cases hw
      · rw [hb] at hw; cases hw
    · rcases hc4.2 with ⟨w, hw⟩ | ⟨w, hw⟩
      · rw [ha] at hw; cases hw
      · rw [hb] at hw; cases hw
    · exact dim_false_no_intersect mg1 ml1 mg2 ml2 (Or.inr (Or.inl hc6)) hint
  · simp only [false_iff]
    simp only [Bool.not_eq_true, Bool.or_eq_false_iff, Bool.and_eq_false_iff,
      Option.isNone_eq_false_iff, Option.isSome_iff_exists] at hc4
    rintro ⟨-, hmd⟩
    rcases hmd with ⟨ha, hb⟩ | ⟨ha, hb⟩ | hint
    · rcases hc4.1 with ⟨w, hw⟩ | ⟨w, hw⟩
      · rw [ha] at hw; cases hw
      · rw [hb] at hw; cases hw
    · rcases hc4.2 with ⟨w, hw⟩ | ⟨w, hw⟩
      · rw [ha] at hw; cases hw
      · rw [hb] at hw; cases hw
    · exact dim_false_no_intersect mg1 ml1 mg2 ml2 (Or.inr (Or.inr hc7)) hint
  · simp only [true_iff]
    simp only [Bool.not_eq_true] at hc1 hc2 hc3 hc5 hc6 hc7
    refine ⟨dim_true_intersect pg1 pl1 pg2 pl2 h1p h2p hc1 hc2 hc3,
      Or.inr (Or.inr (dim_true_intersect mg1 ml1 mg2 ml2 h1m h2m hc5 hc6 hc7))⟩

/-- Witness for the amended C2 at the spec's boundary-adjacency example:
rules `(0, 18]` and `(18, 23]` with no Mean-Delay bounds. -/
theorem claim_C2_amended_witness :
    NonemptyBounds (some (0 : Int)) (some 18) ∧
    (doRangesRulesOverlap ⟨0, 0, some 0, some 18, none, none⟩
        ⟨0, 0, some 18, some 23, none, none⟩ = true ↔
      specRangesOverlap ⟨0, 0, some 0, some 18, none, none⟩
        ⟨0, 0, some 18, some 23, none, none⟩) := by
  constructor
  · intro a b ha hb
    cases ha; cases hb; omega
  · exact claim_C2_amended _ _
      (by intro a b ha hb; cases ha; cases hb; omega)
      (by intro a b ha hb; cases ha; cases hb; omega)
      (by intro a b ha hb; cases ha)
      (by intro a b ha hb; cases ha)

/-- A pair appears in the nested-loop pair scan exactly when it is an ordered
two-element sub-sequence of the list. -/
theorem mem_allPairs_iff {α : Type} {l : List α} {a b : α} :
    (a, b) ∈ allPairs l ↔ List.Sublist [a, b] l := by
  induction l with
  | nil => simp [allPairs]
  | cons x xs ih =>
    simp only [allPairs, List.mem_append, List.mem_map, ih]
    constructor
    · rintro (⟨y, hy, heq⟩ | hsub)
      · injection heq with hx hyb
        subst hx; subst hyb
        exact List.Sublist.cons₂ _ (List.singleton_sublist.mpr hy)
      · exact List.Sublist.cons _ hsub
    · intro hsub
      cases hsub with
      | cons _ h => exact Or.inr h
      | cons₂ _ h => exact Or.inl ⟨b, List.singleton_sublist.mp h, rfl⟩

/-- Both components of a scanned pair are members of the scanned list. -/
theorem allPairs_mem {α : Type} {l : List α} {a b : α} (h : (a, b) ∈ allPairs l) :
    a ∈ l ∧ b ∈ l := by
  have hs := mem_allPairs_iff.mp h
  exact ⟨hs.subset (by simp), hs.subset (by simp)⟩

/-- Characterisation of the first-seen type accumulation. -/
theorem seenTypes_foldl_spec (l : List Group) (acc : List SectionType) (t : SectionType) :
    t ∈ l.foldl (fun acc g => if acc.contains g.type then acc else acc ++ [g.type]) acc ↔
      t ∈ acc ∨ ∃ g ∈ l, g.type = t := by
  induction l generalizing acc with
  | nil => simp
  | cons x xs ih =>
    rw [List.foldl_cons, ih]
    have hstep : t ∈ (if acc.contains x.type then acc else acc ++ [x.type]) ↔
        t ∈ acc ∨ t = x.type := by
      by_cases hc : acc.contains x.type = true
      · rw [if_pos hc]
        constructor
        · exact Or.inl
        · rintro (h | rfl)
          · exact h
          · exact List.elem_iff.mp hc
      · rw [if_neg hc]
        simp
    rw [hstep]
    simp only [List.mem_cons]
    constructor
    · rintro ((h | rfl) | ⟨g, hg, rfl⟩)
      · exact Or.inl h
      · exact Or.inr ⟨x, Or.inl rfl, rfl⟩
      · exact Or.inr ⟨g, Or.inr hg, rfl⟩
    · rintro (h | ⟨g, (rfl | hg), rfl⟩)
      · exact Or.inl (Or.inl h)
      · exact Or.inl (Or.inr rfl)
      · exact Or.inr ⟨g, hg, rfl⟩

/-- Every member group's type appears in the first-seen type list. -/
theorem seenTypes_mem (gs : List Group) (g : Group) (hg : g ∈ gs) :
    g.type ∈ seenTypes gs :=
  (seenTypes_foldl_spec gs [] g.type).mpr (Or.inr ⟨g, hg, rfl⟩)

/-- Claim C4 counterexample: two display-format groups with identical common
parameters and entirely different format values are still flagged as
duplicates (by the generic duplicate-group scan), contrary to the claim. -/
theorem claim_C4_counterexample :
    (∃ i ∈ duplicateIssuesAll
        [⟨"display-format-0", .displayFormat, "TA", [("deliveryMode", "DELIVERY")], [.df "A" []]⟩,
         ⟨"display-format-1", .displayFormat, "TB", [("deliveryMode", "DELIVERY")], [.df "B" []]⟩],
      i.group1 = "display-format-0" ∧ i.group2 = "display-format-1") ∧
    ¬ ∃ f, f ∈ [Rule.df "A" []].map Rule.formatOf ∧ f ∈ [Rule.df "B" []].map Rule.formatOf := by
  constructor
  · refine ⟨⟨"display-format-0", "display-format-1", .displayFormat,
      .identicalParams "TA" "TB"⟩, ?_, rfl, rfl⟩
    decide
  · rintro ⟨f, hf1, hf2⟩
    simp [Rule.formatOf] at hf1 hf2
    rw [hf1] at hf2
    simp at hf2

/-- Claim C4 (amended): for two display-format groups in a configuration with
pairwise-distinct group ids, a duplicate-group issue carrying both ids is
reported exactly when the groups' common-parameter objects are identical
(flagged by the generic scan regardless of formats), or the display-format
parameter comparison matches and at least one format value occurs in both
groups' rules (flagged by the display-format scan). -/
theorem claim_C4_amended (gs : List Group) (g1 g2 : Group)
    (hsub : List.Sublist [g1, g2] gs) (h1 : g1.type = .displayFormat)
    (h2 : g2.type = .displayFormat) (hids : (gs.map Group.id).Nodup) :
    (∃ i ∈ duplicateIssuesAll gs, i.group1 = g1.id ∧ i.group2 = g2.id) ↔
      (areGroupsEqual g1 g2 = true ∨
        (haveMatchingParameters g1.commonParams g2.commonParams = true ∧
          ∃ f, f ∈ g1.rules.map Rule.formatOf ∧ f ∈ g2.rules.map Rule.formatOf)) := by
  have hg1 : g1 ∈ gs := hsub.subset (by simp)
  have hg2 : g2 ∈ gs := hsub.subset (by simp)
  have hinj : ∀ a ∈ gs, ∀ b ∈ gs, a.id = b.id → a = b :=
    fun a ha b hb hab => List.inj_on_of_nodup_map hids ha hb hab
  have hfilter12 : [g1, g2].filter (fun g => g.type == SectionType.displayFormat) = [g1, g2] := by
    simp [List.filter, h1, h2]
  have hsubf : List.Sublist [g1, g2] (gs.filter (fun g => g.type == SectionType.displayFormat)) := by
    rw [← hfilter12]
    exact hsub.filter _
  have hlen2 : 2 ≤ (gs.filter (fun g => g.type == SectionType.displayFormat)).length := by
    have := hsubf.length_le
    simpa using this
  constructor
  · rintro ⟨i, hi, hid1, hid2⟩
    rcases List.mem_append.mp hi with hi | hi
    · -- the generic duplicate scan
      unfold checkDuplicateGroups at hi
      rcases List.mem_flatten.mp hi with ⟨lst, hlst, hilst⟩
      rcases List.mem_map.mp hlst with ⟨t, _, rfl⟩
      by_cases hle : (gs.filter (fun g => g.type == t)).length ≤ 1
      · rw [if_pos hle] at hilst
        cases hilst
      · rw [if_neg hle] at hilst
        unfold duplicatePairIssues at hilst
        rcases List.mem_filterMap.mp hilst with ⟨p, hp, hfp⟩
        by_cases heqg : areGroupsEqual p.1 p.2 = true
        · rw [if_pos heqg] at hfp
          injection hfp with hfp
          obtain ⟨hpa, hpb⟩ := allPairs_mem hp
          have hpa' : p.1 ∈ gs := (List.mem_filter.mp hpa).1
          have hpb' : p.2 ∈ gs := (List.mem_filter.mp hpb).1
          have hia : i.group1 = p.1.id := by rw [← hfp]
          have hib : i.group2 = p.2.id := by rw [← hfp]
          have e1 : p.1 = g1 := hinj _ hpa' _ hg1 (by rw [← hia, hid1])
          have e2 : p.2 = g2 := hinj _ hpb' _ hg2 (by rw [← hib, hid2])
          rw [e1, e2] at heqg
          exact Or.inl heqg
        · rw [if_neg heqg] at hfp
          cases hfp
    · -- the display-format scan
      unfold checkDuplicateDisplayFormats at hi
      rw [if_neg (by omega :
        ¬ (gs.filter (fun g => g.type == SectionType.displayFormat)).length < 2)] at hi
      simp only at hi
      rcases List.mem_filterMap.mp hi with ⟨p, hp, hfp⟩
      by_cases hmatch : haveMatchingParameters p.1.commonParams p.2.commonParams = true
      · rw [if_pos hmatch] at hfp
        by_cases hdup : 0 < ((p.1.rules.map Rule.formatOf).filter
            (fun f => (p.2.rules.map Rule.formatOf).contains f)).length
        · rw [if_pos hdup] at hfp
          injection hfp with hfp
          obtain ⟨hpa, hpb⟩ := allPairs_mem hp
          have hpa' : p.1 ∈ gs := (List.mem_filter.mp hpa).1
          have hpb' : p.2 ∈ gs := (List.mem_filter.mp hpb).1
          have hia : i.group1 = p.1.id := by rw [← hfp]
          have hib : i.group2 = p.2.id := by rw [← hfp]
          have e1 : p.1 = g1 := hinj _ hpa' _ hg1 (by rw [← hia, hid1])
          have e2 : p.2 = g2 := hinj _ hpb' _ hg2 (by rw [← hib, hid2])
          rw [e1, e2] at hmatch hdup
          obtain ⟨f, hf⟩ := List.exists_mem_of_length_pos hdup
          rw [List.mem_filter] at hf
          refine Or.inr ⟨hmatch, f, hf.1, ?_⟩
          exact List.elem_iff.mp hf.2
        · rw [if_neg hdup] at hfp
          cases hfp
      · rw [if_neg hmatch] at hfp
        cases hfp
  · intro hcond
    rcases hcond with heqg | ⟨hmatch, f, hf1, hf2⟩
    · refine ⟨⟨g1.id, g2.id, .displayFormat, .identicalParams g1.title g2.title⟩,
        List.mem_append_left _ ?_, rfl, rfl⟩
      unfold checkDuplicateGroups
      apply List.mem_flatten.mpr
      refine ⟨_, List.mem_map.mpr ⟨SectionType.displayFormat, ?_, rfl⟩, ?_⟩
      · have := seenTypes_mem gs g1 hg1
        rw [h1] at this
        exact this
      · rw [if_neg (by omega : ¬ (gs.filter
          (fun g => g.type == SectionType.displayFormat)).length ≤ 1)]
        unfold duplicatePairIssues
        apply List.mem_filterMap.mpr
        refine ⟨(g1, g2), mem_allPairs_iff.mpr hsubf, ?_⟩
        rw [if_pos heqg]
    · refine ⟨⟨g1.id, g2.id, .displayFormat,
        .identicalParamsWithFormat g1.title g2.title
          ((g1.rules.map Rule.formatOf).filter
            (fun f => (g2.rules.map Rule.formatOf).contains f))⟩,
        List.mem_append_right _ ?_, rfl, rfl⟩
      unfold checkDuplicateDisplayFormats
      rw [if_neg (by omega :
        ¬ (gs.filter (fun g => g.type == SectionType.displayFormat)).length < 2)]
      simp only
      apply List.mem_filterMap.mpr
      refine ⟨(g1, g2), mem_allPairs_iff.mpr hsubf, ?_⟩
      rw [if_pos hmatch]
      rw [if_pos ?pos]
      case pos =>
        apply List.length_pos_iff_exists_mem.mpr
        exact ⟨f, List.mem_filter.mpr ⟨hf1, List.elem_iff.mpr hf2⟩⟩

/-- Witness for the amended C4 at a concrete two-group configuration with a
shared format. -/
theorem claim_C4_amended_witness :
    ∃ i ∈ duplicateIssuesAll
      [⟨"display-format-0", .displayFormat, "TA", [("deliveryMode", "DELIVERY")], [.df "A" []]⟩,
       ⟨"display-format-1", .displayFormat, "TB", [("deliveryMode", "DELIVERY"),
        ("custom", "x")], [.df "A" []]⟩],
      i.group1 = "display-format-0" ∧ i.group2 = "display-format-1" :=
  (claim_C4_amended _
    ⟨"display-format-0", .displayFormat, "TA", [("deliveryMode", "DELIVERY")], [.df "A" []]⟩
    ⟨"display-format-1", .displayFormat, "TB", [("deliveryMode", "DELIVERY"),
      ("custom", "x")], [.df "A" []]⟩
    (List.Sublist.refl _) rfl rfl (by decide)).mpr
    (Or.inr ⟨by decide, some "A", by decide, by decide⟩)

/-! ### Merge idempotence (claim C5) -/

variable {α β : Type}

/-- Flattening the buckets after adding one element appends that element. -/
theorem bucketAdd_flat_perm (bs : List (String × List α)) (k : String) (x : α) :
    List.Perm ((bucketAdd bs k x).flatMap (fun b => b.2))
      ((bs.flatMap (fun b => b.2)) ++ [x]) := by
  induction bs with
  | nil => simp [bucketAdd]
  | cons b bs ih =>
    by_cases hb : (b.1 == k) = true
    · simp only [bucketAdd, if_pos hb, List.flatMap_cons]
      rw [List.append_assoc, List.append_assoc]
      exact List.Perm.append_left b.2 (List.perm_append_comm.trans (by simp))
    · simp only [bucketAdd, if_neg hb, List.flatMap_cons]
      rw [List.append_assoc]
      exact List.Perm.append_left b.2 ih

/-- Folding a list into buckets appends its elements to the flattening. -/
theorem bucketBy_foldl_flat_perm (key : α → String) (l : List α) :
    ∀ acc : List (String × List α),
      List.Perm ((l.foldl (fun bs x => bucketAdd bs (key x) x) acc).flatMap (fun b => b.2))
        ((acc.flatMap (fun b => b.2)) ++ l) := by
  induction l with
  | nil => intro acc; simp
  | cons x xs ih =>
    intro acc
    rw [List.foldl_cons]
    refine (ih (bucketAdd acc (key x) x)).trans ?_
    refine (List.Perm.append_right xs (bucketAdd_flat_perm acc (key x) x)).trans ?_
    simp

/-- The flattened buckets are a permutation of the bucketed list. -/
theorem bucketBy_flat_perm (key : α → String) (l : List α) :
    List.Perm ((bucketBy key l).flatMap (fun b => b.2)) l := by
  have h := bucketBy_foldl_flat_perm key l []
  simpa [bucketBy] using h

/-- Every element of a bucket comes from the bucketed list. -/
theorem bucketBy_mem_of_mem (key : α → String) (l : List α) (b : String × List α)
    (hb : b ∈ bucketBy key l) (e : α) (he : e ∈ b.2) : e ∈ l :=
  (bucketBy_flat_perm key l).mem_iff.mp (List.mem_flatMap.mpr ⟨b, hb, he⟩)

/-- Adding to the buckets extends the key list exactly on a fresh key. -/
theorem bucketAdd_keys (bs : List (String × List α)) (k : String) (x : α) :
    (bucketAdd bs k x).map Prod.fst =
      if k ∈ bs.map Prod.fst then bs.map Prod.fst else bs.map Prod.fst ++ [k] := by
  induction bs with
  | nil => simp [bucketAdd]
  | cons b bs ih =>
    by_cases hb : (b.1 == k) = true
    · have : k = b.1 := (beq_iff_eq.mp hb).symm
      simp [bucketAdd, hb, this]
    · have hne : ¬ k = b.1 := fun h => hb (beq_iff_eq.mpr h.symm)
      by_cases hm : k ∈ bs.map Prod.fst
      · simp [bucketAdd, hb, ih, hm, hne]
      · simp [bucketAdd, hb, ih, hm, hne]

/-- Bucket keys stay pairwise distinct when an element is added. -/
theorem bucketAdd_nodup_keys (bs : List (String × List α)) (k : String) (x : α)
    (h : (bs.map Prod.fst).Nodup) : ((bucketAdd bs k x).map Prod.fst).Nodup := by
  rw [bucketAdd_keys]
  by_cases hm : k ∈ bs.map Prod.fst
  · simpa [hm] using h
  · rw [if_neg hm]
    exact ((List.perm_append_singleton k (bs.map Prod.fst)).nodup_iff).mpr
      (List.nodup_cons.mpr ⟨hm, h⟩)

/-- Buckets stay nonempty and keyed by their own key when an element is
added under its key. -/
theorem bucketAdd_keyed (key : α → String) (bs : List (String × List α)) (x : α)
    (h2 : ∀ b ∈ bs, b.2 ≠ [] ∧ ∀ e ∈ b.2, key e = b.1) :
    ∀ b ∈ bucketAdd bs (key x) x, b.2 ≠ [] ∧ ∀ e ∈ b.2, key e = b.1 := by
  induction bs with
  | nil =>
    intro b hb
    simp only [bucketAdd, List.mem_singleton] at hb
    subst hb
    exact ⟨by simp, by intro e he; simp at he; subst he; rfl⟩
  | cons b0 bs ih =>
    intro b hb
    by_cases hb0 : (b0.1 == key x) = true
    · simp only [bucketAdd, if_pos hb0, List.mem_cons] at hb
      rcases hb with rfl | hb
      · refine ⟨by simp, ?_⟩
        intro e he
        rcases List.mem_append.mp he with he | he
        · exact (h2 b0 (by simp)).2 e he
        · simp at he; subst he; exact (beq_iff_eq.mp hb0).symm
      · exact h2 b (List.mem_cons_of_mem b0 hb)
    · simp only [bucketAdd, if_neg hb0, List.mem_cons] at hb
      rcases hb with rfl | hb
      · exact h2 b (by simp)
      · exact ih (fun b hb => h2 b (List.mem_cons_of_mem b0 hb)) b hb

/-- The bucket fold preserves distinct keys, nonempty buckets and the keying
of every bucket by its own key. -/
theorem bucketBy_inv_aux (key : α → String) (l : List α) :
    ∀ acc : List (String × List α), (acc.map Prod.fst).Nodup →
      (∀ b ∈ acc, b.2 ≠ [] ∧ ∀ e ∈ b.2, key e = b.1) →
      ((l.foldl (fun bs x => bucketAdd bs (key x) x) acc).map Prod.fst).Nodup ∧
        ∀ b ∈ l.foldl (fun bs x => bucketAdd bs (key x) x) acc,
          b.2 ≠ [] ∧ ∀ e ∈ b.2, key e = b.1 := by
  induction l with
  | nil => intro acc h1 h2; exact ⟨h1, h2⟩
  | cons x xs ih =>
    intro acc h1 h2
    rw [List.foldl_cons]
    exact ih (bucketAdd acc (key x) x) (bucketAdd_nodup_keys acc (key x) x h1)
      (bucketAdd_keyed key acc x h2)

/-- Bucket keys are pairwise distinct. -/
theorem bucketBy_keys_nodup (key : α → String) (l : List α) :
    ((bucketBy key l).map Prod.fst).Nodup :=
  (bucketBy_inv_aux key l [] (by simp) (by simp)).1

/-- Every bucket is nonempty and holds exactly elements of its own key. -/
theorem bucketBy_keyed (key : α → String) (l : List α) :
    ∀ b ∈ bucketBy key l, b.2 ≠ [] ∧ ∀ e ∈ b.2, key e = b.1 :=
  (bucketBy_inv_aux key l [] (by simp) (by simp)).2

/-- Adding under a key absent from the buckets appends a fresh bucket. -/
theorem bucketAdd_of_not_mem (bs : List (String × List α)) (k : String) (x : α)
    (h : k ∉ bs.map Prod.fst) : bucketAdd bs k x = bs ++ [(k, [x])] := by
  induction bs with
  | nil => rfl
  | cons b bs ih =>
    rw [List.map_cons, List.mem_cons] at h
    push_neg at h
    have hk : ¬ (b.1 == k) = true := fun hh => h.1 (beq_iff_eq.mp hh).symm
    simp only [bucketAdd, if_neg hk, List.cons_append, List.cons.injEq, true_and]
    exact ih h.2

/-- Adding under a key absent from a prefix of the buckets leaves that prefix
alone. -/
theorem bucketAdd_append (pre rest : List (String × List α)) (k : String) (x : α)
    (h : k ∉ pre.map Prod.fst) :
    bucketAdd (pre ++ rest) k x = pre ++ bucketAdd rest k x := by
  induction pre with
  | nil => rfl
  | cons p pre ih =>
    rw [List.map_cons, List.mem_cons] at h
    push_neg at h
    have hk : ¬ (p.1 == k) = true := fun hh => h.1 (beq_iff_eq.mp hh).symm
    simp only [List.cons_append, bucketAdd, if_neg hk, List.cons.injEq, true_and]
    exact ih h.2

/-- Folding elements that all carry one key extends that key's bucket. -/
theorem foldl_bucketAdd_same_key (key : α → String) (kk : String) (es : List α)
    (hes : ∀ e ∈ es, key e = kk) :
    ∀ (pre : List (String × List α)) (cur : List α), kk ∉ pre.map Prod.fst →
      es.foldl (fun bs x => bucketAdd bs (key x) x) (pre ++ [(kk, cur)]) =
        pre ++ [(kk, cur ++ es)] := by
  induction es with
  | nil => intro pre cur _; simp
  | cons e es ih =>
    intro pre cur hpre
    rw [List.foldl_cons]
    have hke : key e = kk := hes e (by simp)
    have hstep : bucketAdd (pre ++ [(kk, cur)]) (key e) e = pre ++ [(kk, cur ++ [e])] := by
      rw [hke, bucketAdd_append pre [(kk, cur)] kk e hpre]
      simp [bucketAdd]
    rw [hstep, ih (fun e he => hes e (by simp [he])) pre (cur ++ [e]) hpre]
    simp

/-- Folding a flattening of keyed clusters with fresh distinct keys appends
one bucket per cluster. -/
theorem bucketBy_clustered_aux (key : α → String) :
    ∀ (bs : List (String × List β)) (f : String × List β → List α)
      (pre : List (String × List α)),
      (pre.map Prod.fst ++ bs.map Prod.fst).Nodup →
      (∀ b ∈ bs, f b ≠ []) →
      (∀ b ∈ bs, ∀ e ∈ f b, key e = b.1) →
      (bs.flatMap f).foldl (fun acc x => bucketAdd acc (key x) x) pre =
        pre ++ bs.map (fun b => (b.1, f b)) := by
  intro bs
  induction bs with
  | nil => intro f pre _ _ _; simp
  | cons b bs ih =>
    intro f pre hnd hne hkey
    rw [List.flatMap_cons, List.foldl_append]
    rw [List.map_cons, List.nodup_append] at hnd
    have hb1 : b.1 ∉ pre.map Prod.fst := fun hm => hnd.2.2 hm (by simp)
    obtain ⟨e0, es, hfb⟩ : ∃ e0 es, f b = e0 :: es := by
      rcases hf : f b with _ | ⟨e0, es⟩
      · exact absurd hf (hne b (by simp))
      · exact ⟨e0, es, rfl⟩
    have hinner : (f b).foldl (fun acc x => bucketAdd acc (key x) x) pre =
        pre ++ [(b.1, f b)] := by
      rw [hfb, List.foldl_cons]
      have hk0 : key e0 = b.1 := hkey b (by simp) e0 (by simp [hfb])
      rw [hk0, bucketAdd_of_not_mem pre b.1 e0 hb1]
      exact foldl_bucketAdd_same_key key b.1 es
        (fun e he => hkey b (by simp) e (by simp [hfb, he])) pre [e0] hb1
    rw [hinner]
    have hnd2 : ((pre ++ [(b.1, f b)]).map Prod.fst ++ bs.map Prod.fst).Nodup := by
      rw [List.map_append, List.append_assoc]
      simp only [List.map_cons, List.map_nil]
      rw [List.nodup_append]
      refine ⟨hnd.1, ?_, ?_⟩
      · rw [List.singleton_append]
        exact hnd.2.1
      · intro a ha hb2
        rw [List.singleton_append] at hb2
        exact hnd.2.2 ha hb2
    rw [ih f (pre ++ [(b.1, f b)]) hnd2 (fun b hb => hne b (by simp [hb]))
      (fun b hb => hkey b (by simp [hb]))]
    simp

/-- Bucketing a flattening of nonempty clusters keyed by pairwise distinct
keys recovers exactly those clusters. -/
theorem bucketBy_clustered (key : α → String) (bs : List (String × List β))
    (f : String × List β → List α)
    (hnd : (bs.map Prod.fst).Nodup)
    (hne : ∀ b ∈ bs, f b ≠ [])
    (hkey : ∀ b ∈ bs, ∀ e ∈ f b, key e = b.1) :
    bucketBy key (bs.flatMap f) = bs.map (fun b => (b.1, f b)) := by
  have h := bucketBy_clustered_aux key bs f [] (by simpa using hnd) hne hkey
  simpa [bucketBy] using h

/-- A concatenation with a nonempty right part is nonempty. -/
theorem str_append_ne_right (a b : String) (hb : b ≠ "") : a ++ b ≠ "" := by
  intro h
  apply hb
  have hd := congrArg String.data h
  rw [String.data_append] at hd
  have hd2 : a.data ++ b.data = ([] : List Char) := hd
  exact String.ext (List.append_eq_nil.mp hd2).2

/-- A concatenation with a nonempty left part is nonempty. -/
theorem str_append_ne_left (a b : String) (ha : a ≠ "") : a ++ b ≠ "" := by
  intro h
  apply ha
  have hd := congrArg String.data h
  rw [String.data_append] at hd
  have hd2 : a.data ++ b.data = ([] : List Char) := hd
  exact String.ext (List.append_eq_nil.mp hd2).1

/-- `s || d` with a nonempty default is nonempty. -/
theorem jsOrStr_ne_empty (o : Option String) (d : String) (hd : d ≠ "") :
    jsOrStr o d ≠ "" := by
  rcases o with _ | s
  · simpa [jsOrStr, truthyStr] using hd
  · by_cases hs : s = ""
    · simpa [jsOrStr, truthyStr, hs] using hd
    · simpa [jsOrStr, truthyStr, hs] using hs

/-- `s || d` on a truthy value returns the value. -/
theorem jsOrStr_of_truthy (s : String) (hs : s ≠ "") (d : String) :
    jsOrStr (some s) d = s := by
  simp [jsOrStr, truthyStr, hs]

/-- An indexed map preserves length. -/
theorem mapIdxFrom_length (f : Nat → α → β) :
    ∀ (n : Nat) (l : List α), (mapIdxFrom f n l).length = l.length := by
  intro n l
  induction l generalizing n with
  | nil => rfl
  | cons x xs ih => simp [mapIdxFrom, ih]

/-- An indexed map of a pointwise-identical function is the identity. -/
theorem mapIdxFrom_id (f : Nat → α → α) :
    ∀ (n : Nat) (l : List α), (∀ i e, e ∈ l → f i e = e) → mapIdxFrom f n l = l := by
  intro n l
  induction l generalizing n with
  | nil => intro _; rfl
  | cons x xs ih =>
    intro h
    simp only [mapIdxFrom]
    rw [h n x (by simp), ih (n + 1) (fun i e he => h i e (by simp [he]))]

/-- Each image under an indexed map is the image of some list element. -/
theorem mapIdxFrom_mem {f : Nat → α → β} :
    ∀ {n : Nat} {l : List α} {y : β}, y ∈ mapIdxFrom f n l → ∃ i x, x ∈ l ∧ y = f i x := by
  intro n l
  induction l generalizing n with
  | nil => intro y hy; simp [mapIdxFrom] at hy
  | cons x xs ih =>
    intro y hy
    simp only [mapIdxFrom, List.mem_cons] at hy
    rcases hy with rfl | hy
    · exact ⟨n, x, by simp, rfl⟩
    · obtain ⟨i, x2, hx2, hy⟩ := ih hy
      exact ⟨i, x2, by simp [hx2], hy⟩

/-- An indexed map of a nonempty list is nonempty. -/
theorem mapIdxFrom_ne_nil (f : Nat → α → β) (n : Nat) (l : List α) (h : l ≠ []) :
    mapIdxFrom f n l ≠ [] := by
  rcases l with _ | ⟨x, xs⟩
  · exact absurd rfl h
  · simp [mapIdxFrom]

/-- A flattening of nonempty pieces over a nonempty list is nonempty. -/
theorem flatMap_ne_nil {l : List α} {f : α → List β} (hl : l ≠ [])
    (hf : ∀ x ∈ l, f x ≠ []) : l.flatMap f ≠ [] := by
  rcases l with _ | ⟨x, xs⟩
  · exact absurd rfl hl
  · rw [List.flatMap_cons]
    intro h
    exact hf x (by simp) (List.append_eq_nil.mp h).1

/-- Pointwise-equal functions flatten equally. -/
theorem flatMap_congr_fn {l : List α} {f g : α → List β} (h : ∀ a ∈ l, f a = g a) :
    l.flatMap f = l.flatMap g := by
  induction l with
  | nil => rfl
  | cons x xs ih =>
    rw [List.flatMap_cons, List.flatMap_cons, h x (by simp),
      ih (fun a ha => h a (by simp [ha]))]

/-- Bucketing a nonempty list yields at least one bucket. -/
theorem bucketBy_ne_nil (key : α → String) (l : List α) (h : l ≠ []) :
    bucketBy key l ≠ [] := by
  intro hb
  apply h
  have hp := bucketBy_flat_perm key l
  rw [hb] at hp
  exact (List.Perm.nil_eq hp).symm


/-- Replacing an entry's title with its own value changes nothing. -/
theorem setTitle_eq_self (e : FlatEntry) (s : Option String) (h : e.title_ = s) :
    { e with title_ := s } = e := by rw [← h]

/-- The merge key ignores the title sidecar. -/
theorem generateEntryKey_title (e : FlatEntry) (s : Option String) (ks : List String) :
    generateEntryKey { e with title_ := s } ks = generateEntryKey e ks := rfl

/-- The PDT-bound-pair key ignores the title sidecar. -/
theorem pdtBoundsKey_title (e : FlatEntry) (s : Option String) :
    pdtBoundsKey { e with title_ := s } = pdtBoundsKey e := rfl

/-- The Mean-Delay-bound-pair key ignores the title sidecar. -/
theorem mdBoundsKey_title (e : FlatEntry) (s : Option String) :
    mdBoundsKey { e with title_ := s } = mdBoundsKey e := rfl

/-- The re-emitted display entry carries a nonempty title. -/
theorem dfRetitle_title_truthy (e : FlatEntry) :
    ∃ s, (dfRetitle e).title_ = some s ∧ s ≠ "" :=
  ⟨jsOrStr e.title_ ("Format: " ++ scalarOptString e.format), rfl,
    jsOrStr_ne_empty _ _ (str_append_ne_left "Format: " _ (by decide))⟩

/-- Re-emitting a re-emitted display entry changes nothing. -/
theorem dfRetitle_idem (e : FlatEntry) : dfRetitle (dfRetitle e) = dfRetitle e := by
  simp only [dfRetitle]
  rw [jsOrStr_of_truthy _ (jsOrStr_ne_empty e.title_ _
    (str_append_ne_left "Format: " _ (by decide)))]

/-- The merge key of a re-emitted display entry with a falsy delivery option
is the key of the original entry. -/
theorem generateEntryKey_dfRetitle (e : FlatEntry) (ks : List String)
    (h : truthyStr e.delivery_option = false) :
    generateEntryKey (dfRetitle e) ks = generateEntryKey e ks := by
  simp only [generateEntryKey]
  rw [show (dfRetitle e).conditions = e.conditions from rfl,
    show truthyStr (dfRetitle e).delivery_option = false from rfl, h]
  simp

/-- The ranges sub-group emission with its lets unfolded. -/
theorem emitRangesSub_eq (es : List FlatEntry) :
    emitRangesSub es =
      (bucketBy mdBoundsKey es).flatMap (fun mb =>
        emitMdGroup
          (if 1 < (bucketBy mdBoundsKey es).length && !(mb.1 == "default") then
            (capitalizeFirst "ranges" ++ " " ++ getPdtRangeDescription (headConds es)) ++
              ", " ++ getMeanDelayDescription (headConds mb.2)
          else capitalizeFirst "ranges" ++ " " ++ getPdtRangeDescription (headConds es))
          mb.2) := rfl

/-- The ranges PDT-group emission with its let unfolded. -/
theorem emitRangesPdt_eq (ks : List String) (es : List FlatEntry) :
    emitRangesPdt ks es =
      (bucketBy (fun e => generateEntryKey e (ks.filter (fun k =>
          !(k == "pdt_greater_than") && !(k == "pdt_less_than_or_equal_to")))) es).flatMap
        (fun sb => emitRangesSub sb.2) := rfl

/-- An emitted Mean-Delay group of a nonempty cluster is nonempty. -/
theorem emitMdGroup_ne_nil (t : String) (es : List FlatEntry) (h : es ≠ []) :
    emitMdGroup t es ≠ [] := mapIdxFrom_ne_nil _ 0 es h

/-- Every entry emitted for a Mean-Delay group is a title update of a cluster
entry, with a nonempty title when the group title is nonempty. -/
theorem emitMdGroup_shape {t : String} {es : List FlatEntry} {e2 : FlatEntry}
    (h : e2 ∈ emitMdGroup t es) :
    ∃ e ∈ es, ∃ s, e2 = { e with title_ := some s } ∧ (t ≠ "" → s ≠ "") := by
  obtain ⟨i, e, he, rfl⟩ := mapIdxFrom_mem h
  refine ⟨e, he, jsOrStr e.title_ _, rfl, fun ht => jsOrStr_ne_empty _ _ ?_⟩
  by_cases hl : 1 < es.length
  · rw [if_pos hl]
    exact str_append_ne_left _ _ (str_append_ne_right t " " (by decide))
  · rw [if_neg hl]
    exact ht

/-- Entries emitted for a Mean-Delay group under a nonempty title are all
titled with a nonempty title. -/
theorem emitMdGroup_titles {t : String} (ht : t ≠ "") (es : List FlatEntry) :
    ∀ e2 ∈ emitMdGroup t es, ∃ s, e2.title_ = some s ∧ s ≠ "" := by
  intro e2 h2
  obtain ⟨e, _, s, he2, hs⟩ := emitMdGroup_shape h2
  subst he2
  exact ⟨s, rfl, hs ht⟩

/-- Re-emitting a Mean-Delay group whose entries are already titled changes
nothing, whatever the new group title. -/
theorem emitMdGroup_titled {es : List FlatEntry}
    (h : ∀ e ∈ es, ∃ s, e.title_ = some s ∧ s ≠ "") (t : String) :
    emitMdGroup t es = es := by
  unfold emitMdGroup
  apply mapIdxFrom_id
  intro i e he
  obtain ⟨s, hs, hne⟩ := h e he
  unfold mdRetitle
  rw [hs, jsOrStr_of_truthy s hne]
  exact setTitle_eq_self e (some s) hs

/-- The first bucket after folding holds the initial key and grows its
cluster in place. -/
theorem foldl_bucketAdd_head (key : α → String) (l : List α) :
    ∀ (k : String) (cur : List α) (acc : List (String × List α)),
      ∃ r bs2, l.foldl (fun bs x => bucketAdd bs (key x) x) ((k, cur) :: acc) =
        (k, cur ++ r) :: bs2 := by
  induction l with
  | nil => intro k cur acc; exact ⟨[], acc, by simp⟩
  | cons x xs ih =>
    intro k cur acc
    rw [List.foldl_cons]
    by_cases hk : (k == key x) = true
    · have hstep : bucketAdd ((k, cur) :: acc) (key x) x = (k, cur ++ [x]) :: acc := by
        simp [bucketAdd, hk]
      rw [hstep]
      obtain ⟨r, bs2, hr⟩ := ih k (cur ++ [x]) acc
      exact ⟨[x] ++ r, bs2, by rw [hr]; simp⟩
    · have hstep : bucketAdd ((k, cur) :: acc) (key x) x =
          (k, cur) :: bucketAdd acc (key x) x := by
        simp [bucketAdd, hk]
      rw [hstep]
      exact ih k cur (bucketAdd acc (key x) x)

/-- The first bucket of a nonempty list holds its first element first. -/
theorem bucketBy_cons_head (key : α → String) (e : α) (l : List α) :
    ∃ r bs2, bucketBy key (e :: l) = (key e, e :: r) :: bs2 := by
  unfold bucketBy
  rw [List.foldl_cons]
  have h0 : bucketAdd ([] : List (String × List α)) (key e) e = [(key e, [e])] := rfl
  rw [h0]
  obtain ⟨r, bs2, hr⟩ := foldl_bucketAdd_head key l (key e) [e] []
  exact ⟨r, bs2, by rw [hr]; simp⟩

/-- The sub-group emission of a nonempty cluster is nonempty. -/
theorem emitRangesSub_ne_nil (es : List FlatEntry) (h : es ≠ []) :
    emitRangesSub es ≠ [] := by
  rw [emitRangesSub_eq]
  exact flatMap_ne_nil (bucketBy_ne_nil mdBoundsKey es h)
    (fun mb hmb => emitMdGroup_ne_nil _ _ (bucketBy_keyed mdBoundsKey es mb hmb).1)

/-- Every entry of the sub-group emission is a title update of a cluster
entry, with a nonempty title. -/
theorem emitRangesSub_shape {es : List FlatEntry} {e2 : FlatEntry}
    (h : e2 ∈ emitRangesSub es) :
    ∃ e ∈ es, ∃ s, e2 = { e with title_ := some s } ∧ s ≠ "" := by
  rw [emitRangesSub_eq] at h
  rcases List.mem_flatMap.mp h with ⟨mb, hmb, h2⟩
  obtain ⟨e, he, s, he2, hs⟩ := emitMdGroup_shape h2
  refine ⟨e, bucketBy_mem_of_mem mdBoundsKey es mb hmb e he, s, he2, hs ?_⟩
  by_cases hc : (1 < (bucketBy mdBoundsKey es).length && !(mb.1 == "default")) = true
  · rw [if_pos hc]
    exact str_append_ne_left _ _ (str_append_ne_right _ ", " (by decide))
  · rw [if_neg hc]
    exact str_append_ne_left _ _ (str_append_ne_right _ " " (by decide))

/-- The sub-group emission keeps the conditions of the first entry. -/
theorem emitRangesSub_headConds (es : List FlatEntry) :
    headConds (emitRangesSub es) = headConds es := by
  rcases es with _ | ⟨e0, tl⟩
  · rfl
  · rw [emitRangesSub_eq]
    obtain ⟨r, bs2, hbk⟩ := bucketBy_cons_head mdBoundsKey e0 tl
    rw [hbk]
    simp [headConds, emitMdGroup, mapIdxFrom, mdRetitle]

/-- The display merge with its body spelled out. -/
theorem mergeDisplayEntries_eq (es : List FlatEntry) (ks : List String) :
    mergeDisplayEntries es ks =
      (bucketBy (fun e => generateEntryKey e ks) es).flatMap (fun b =>
        b.2.map dfRetitle) := rfl

/-- The ranges merge with its body spelled out. -/
theorem mergeRangesEntries_eq (es : List FlatEntry) (ks : List String) :
    mergeRangesEntries es ks =
      (bucketBy pdtBoundsKey es).flatMap (fun pb => emitRangesPdt ks pb.2) := rfl

/-- The capping merge with its body spelled out. -/
theorem mergeCappingEntries_eq (es : List FlatEntry) (ks : List String) :
    mergeCappingEntries es ks =
      (bucketBy (fun e => generateEntryKey e ks) es).flatMap (fun b =>
        mapIdxFrom cappingRetitle 0 b.2) := rfl

/-- Re-emitting an emitted sub-group changes nothing: every emitted entry
already carries a nonempty title, so the second pass retitles nothing, and
the grouping keys ignore titles, so the second pass re-forms the same
clusters. -/
theorem emitRangesSub_idem (es : List FlatEntry) :
    emitRangesSub (emitRangesSub es) = emitRangesSub es := by
  have hM : bucketBy mdBoundsKey (emitRangesSub es) =
      (bucketBy mdBoundsKey es).map (fun mb =>
        (mb.1, emitMdGroup
          (if 1 < (bucketBy mdBoundsKey es).length && !(mb.1 == "default") then
            (capitalizeFirst "ranges" ++ " " ++ getPdtRangeDescription (headConds es)) ++
              ", " ++ getMeanDelayDescription (headConds mb.2)
          else capitalizeFirst "ranges" ++ " " ++ getPdtRangeDescription (headConds es))
          mb.2)) := by
    rw [emitRangesSub_eq es]
    apply bucketBy_clustered
    · exact bucketBy_keys_nodup mdBoundsKey es
    · intro mb hmb
      exact emitMdGroup_ne_nil _ _ (bucketBy_keyed mdBoundsKey es mb hmb).1
    · intro mb hmb e2 he2
      obtain ⟨e, he, s, he2eq, -⟩ := emitMdGroup_shape he2
      subst he2eq
      calc mdBoundsKey { e with title_ := some s } = mdBoundsKey e :=
            mdBoundsKey_title e (some s)
        _ = mb.1 := (bucketBy_keyed mdBoundsKey es mb hmb).2 e he
  conv_lhs => rw [emitRangesSub_eq (emitRangesSub es)]
  simp only [hM, emitRangesSub_headConds, List.length_map, List.flatMap_map]
  conv_rhs => rw [emitRangesSub_eq es]
  apply flatMap_congr_fn
  intro mb hmb
  apply emitMdGroup_titled
  intro e2 he2
  refine emitMdGroup_titles ?_ mb.2 e2 he2
  by_cases hc : (1 < (bucketBy mdBoundsKey es).length && !(mb.1 == "default")) = true
  · rw [if_pos hc]
    exact str_append_ne_left _ _ (str_append_ne_right _ ", " (by decide))
  · rw [if_neg hc]
    exact str_append_ne_left _ _ (str_append_ne_right _ " " (by decide))

/-- The PDT-group emission of a nonempty cluster is nonempty. -/
theorem emitRangesPdt_ne_nil (ks : List String) (es : List FlatEntry) (h : es ≠ []) :
    emitRangesPdt ks es ≠ [] := by
  rw [emitRangesPdt_eq]
  exact flatMap_ne_nil (bucketBy_ne_nil _ es h)
    (fun sb hsb => emitRangesSub_ne_nil _ (bucketBy_keyed _ es sb hsb).1)

/-- Every entry of the PDT-group emission is a title update of a cluster
entry, with a nonempty title. -/
theorem emitRangesPdt_shape {ks : List String} {es : List FlatEntry} {e2 : FlatEntry}
    (h : e2 ∈ emitRangesPdt ks es) :
    ∃ e ∈ es, ∃ s, e2 = { e with title_ := some s } ∧ s ≠ "" := by
  rw [emitRangesPdt_eq] at h
  rcases List.mem_flatMap.mp h with ⟨sb, hsb, h2⟩
  obtain ⟨e, he, s, he2, hs⟩ := emitRangesSub_shape h2
  exact ⟨e, bucketBy_mem_of_mem _ es sb hsb e he, s, he2, hs⟩

/-- Re-emitting an emitted PDT group changes nothing. -/
theorem emitRangesPdt_idem (ks : List String) (es : List FlatEntry) :
    emitRangesPdt ks (emitRangesPdt ks es) = emitRangesPdt ks es := by
  have hM : bucketBy (fun e => generateEntryKey e (ks.filter (fun k =>
        !(k == "pdt_greater_than") && !(k == "pdt_less_than_or_equal_to"))))
        (emitRangesPdt ks es) =
      (bucketBy (fun e => generateEntryKey e (ks.filter (fun k =>
        !(k == "pdt_greater_than") && !(k == "pdt_less_than_or_equal_to")))) es).map
        (fun sb => (sb.1, emitRangesSub sb.2)) := by
    rw [emitRangesPdt_eq ks es]
    apply bucketBy_clustered
    · exact bucketBy_keys_nodup _ es
    · intro sb hsb
      exact emitRangesSub_ne_nil _ (bucketBy_keyed _ es sb hsb).1
    · intro sb hsb e2 he2
      obtain ⟨e, he, s, he2eq, -⟩ := emitRangesSub_shape he2
      subst he2eq
      calc generateEntryKey { e with title_ := some s } (ks.filter (fun k =>
              !(k == "pdt_greater_than") && !(k == "pdt_less_than_or_equal_to"))) =
            generateEntryKey e (ks.filter (fun k =>
              !(k == "pdt_greater_than") && !(k == "pdt_less_than_or_equal_to"))) :=
            generateEntryKey_title e (some s) _
        _ = sb.1 := (bucketBy_keyed _ es sb hsb).2 e he
  conv_lhs => rw [emitRangesPdt_eq ks (emitRangesPdt ks es)]
  rw [hM, List.flatMap_map]
  conv_rhs => rw [emitRangesPdt_eq ks es]
  apply flatMap_congr_fn
  intro sb hsb
  exact emitRangesSub_idem sb.2

/-- Re-running the ranges merge on its own output changes nothing. -/
theorem mergeRangesEntries_idem (es : List FlatEntry) (ks : List String) :
    mergeRangesEntries (mergeRangesEntries es ks) ks = mergeRangesEntries es ks := by
  have hM : bucketBy pdtBoundsKey (mergeRangesEntries es ks) =
      (bucketBy pdtBoundsKey es).map (fun pb => (pb.1, emitRangesPdt ks pb.2)) := by
    rw [mergeRangesEntries_eq es ks]
    apply bucketBy_clustered
    · exact bucketBy_keys_nodup pdtBoundsKey es
    · intro pb hpb
      exact emitRangesPdt_ne_nil ks _ (bucketBy_keyed pdtBoundsKey es pb hpb).1
    · intro pb hpb e2 he2
      obtain ⟨e, he, s, he2eq, -⟩ := emitRangesPdt_shape he2
      subst he2eq
      calc pdtBoundsKey { e with title_ := some s } = pdtBoundsKey e :=
            pdtBoundsKey_title e (some s)
        _ = pb.1 := (bucketBy_keyed pdtBoundsKey es pb hpb).2 e he
  conv_lhs => rw [mergeRangesEntries_eq (mergeRangesEntries es ks) ks]
  rw [hM, List.flatMap_map]
  conv_rhs => rw [mergeRangesEntries_eq es ks]
  apply flatMap_congr_fn
  intro pb hpb
  exact emitRangesPdt_idem ks pb.2

/-- The display merge of a nonempty entry list is nonempty. -/
theorem mergeDisplayEntries_ne_nil (es : List FlatEntry) (ks : List String) (h : es ≠ []) :
    mergeDisplayEntries es ks ≠ [] := by
  rw [mergeDisplayEntries_eq]
  refine flatMap_ne_nil (bucketBy_ne_nil _ es h) ?_
  intro b hb hnil
  exact (bucketBy_keyed _ es b hb).1 (by simpa using hnil)

/-- The ranges merge of a nonempty entry list is nonempty. -/
theorem mergeRangesEntries_ne_nil (es : List FlatEntry) (ks : List String) (h : es ≠ []) :
    mergeRangesEntries es ks ≠ [] := by
  rw [mergeRangesEntries_eq]
  exact flatMap_ne_nil (bucketBy_ne_nil _ es h)
    (fun pb hpb => emitRangesPdt_ne_nil ks _ (bucketBy_keyed _ es pb hpb).1)

/-- The capping merge of a nonempty entry list is nonempty. -/
theorem mergeCappingEntries_ne_nil (es : List FlatEntry) (ks : List String) (h : es ≠ []) :
    mergeCappingEntries es ks ≠ [] := by
  rw [mergeCappingEntries_eq]
  exact flatMap_ne_nil (bucketBy_ne_nil _ es h)
    (fun b hb => mapIdxFrom_ne_nil _ 0 _ (bucketBy_keyed _ es b hb).1)

/-- Re-running the display merge on its own output changes nothing when no
input entry carries a truthy delivery option. -/
theorem mergeDisplayEntries_idem (es : List FlatEntry) (ks : List String)
    (h : ∀ e ∈ es, truthyStr e.delivery_option = false) :
    mergeDisplayEntries (mergeDisplayEntries es ks) ks = mergeDisplayEntries es ks := by
  have hM : bucketBy (fun e => generateEntryKey e ks) (mergeDisplayEntries es ks) =
      (bucketBy (fun e => generateEntryKey e ks) es).map
        (fun b => (b.1, b.2.map dfRetitle)) := by
    rw [mergeDisplayEntries_eq es ks]
    apply bucketBy_clustered
    · exact bucketBy_keys_nodup _ es
    · intro b hb hnil
      exact (bucketBy_keyed _ es b hb).1 (by simpa using hnil)
    · intro b hb e2 he2
      rcases List.mem_map.mp he2 with ⟨e, he, rfl⟩
      calc generateEntryKey (dfRetitle e) ks = generateEntryKey e ks :=
            generateEntryKey_dfRetitle e ks
              (h e (bucketBy_mem_of_mem _ es b hb e he))
        _ = b.1 := (bucketBy_keyed (fun e => generateEntryKey e ks) es b hb).2 e he
  conv_lhs => rw [mergeDisplayEntries_eq (mergeDisplayEntries es ks) ks]
  rw [hM, List.flatMap_map]
  conv_rhs => rw [mergeDisplayEntries_eq es ks]
  apply flatMap_congr_fn
  intro b hb
  rw [show ((b.1, b.2.map dfRetitle) : String × List FlatEntry).2 = b.2.map dfRetitle
    from rfl]
  rw [List.map_map]
  apply List.map_congr_left
  intro e he
  exact dfRetitle_idem e

/-- Every re-emitted capping entry is a title update with a nonempty title. -/
theorem cappingRetitle_shape (i : Nat) (e : FlatEntry) :
    ∃ s, cappingRetitle i e = { e with title_ := some s } ∧ s ≠ "" := by
  refine ⟨jsOrStr e.title_ _, rfl, jsOrStr_ne_empty _ _ ?_⟩
  exact str_append_ne_left _ _ (str_append_ne_right _ " " (by decide))

/-- A capping entry already carrying a nonempty title is not retitled. -/
theorem cappingRetitle_titled (j : Nat) (e : FlatEntry) {s : String}
    (h : e.title_ = some s) (hs : s ≠ "") : cappingRetitle j e = e := by
  unfold cappingRetitle
  rw [h, jsOrStr_of_truthy s hs]
  exact setTitle_eq_self e (some s) h

/-- Re-running the capping merge on its own output changes nothing. -/
theorem mergeCappingEntries_idem (es : List FlatEntry) (ks : List String) :
    mergeCappingEntries (mergeCappingEntries es ks) ks = mergeCappingEntries es ks := by
  have hM : bucketBy (fun e => generateEntryKey e ks) (mergeCappingEntries es ks) =
      (bucketBy (fun e => generateEntryKey e ks) es).map
        (fun b => (b.1, mapIdxFrom cappingRetitle 0 b.2)) := by
    rw [mergeCappingEntries_eq es ks]
    apply bucketBy_clustered
    · exact bucketBy_keys_nodup _ es
    · intro b hb
      exact mapIdxFrom_ne_nil _ 0 _ (bucketBy_keyed _ es b hb).1
    · intro b hb e2 he2
      obtain ⟨i, e, he, rfl⟩ := mapIdxFrom_mem he2
      obtain ⟨s, hsh, -⟩ := cappingRetitle_shape i e
      calc generateEntryKey (cappingRetitle i e) ks
          = generateEntryKey { e with title_ := some s } ks := by rw [hsh]
        _ = generateEntryKey e ks := generateEntryKey_title e (some s) ks
        _ = b.1 := (bucketBy_keyed (fun e => generateEntryKey e ks) es b hb).2 e he
  conv_lhs => rw [mergeCappingEntries_eq (mergeCappingEntries es ks) ks]
  rw [hM, List.flatMap_map]
  conv_rhs => rw [mergeCappingEntries_eq es ks]
  apply flatMap_congr_fn
  intro b hb
  apply mapIdxFrom_id
  intro i e2 he2
  obtain ⟨j, e, he, rfl⟩ := mapIdxFrom_mem he2
  obtain ⟨s, hsh, hs⟩ := cappingRetitle_shape j e
  rw [hsh]
  exact cappingRetitle_titled i _ rfl hs

/-- The merge dispatch on `"display_format"`. -/
theorem mergeEntries_display (es : List FlatEntry) (ks : List String) :
    mergeEntriesByCommonParams es "display_format" ks = mergeDisplayEntries es ks := rfl

/-- The merge dispatch on `"ranges"`. -/
theorem mergeEntries_ranges (es : List FlatEntry) (ks : List String) :
    mergeEntriesByCommonParams es "ranges" ks = mergeRangesEntries es ks := rfl

/-- The merge dispatch on `"capping"`. -/
theorem mergeEntries_capping (es : List FlatEntry) (ks : List String) :
    mergeEntriesByCommonParams es "capping" ks = mergeCappingEntries es ks := rfl

/-- The section merge with its lets unfolded and its dispatch resolved. -/
theorem mergePdtSections_eq (ss : List Section) :
    mergePdtSectionsByCommonParams ss =
      (if (collectEntries ss .displayFormat).isEmpty then [] else
        [⟨.displayFormat,
          mergeDisplayEntries (collectEntries ss .displayFormat) mergeDisplayKeys⟩]) ++
      (if (collectEntries ss .ranges).isEmpty then [] else
        [⟨.ranges, mergeRangesEntries (collectEntries ss .ranges) mergeRangesKeys⟩]) ++
      (if (collectEntries ss .capping).isEmpty then [] else
        [⟨.capping, mergeCappingEntries (collectEntries ss .capping) mergeRangesKeys⟩]) ++
      (if (collectEntries ss .rounding).isEmpty then [] else
        [⟨.rounding, collectEntries ss .rounding⟩]) := rfl

/-- Per-kind collection distributes over appended section lists. -/
theorem collectEntries_append (s1 s2 : List Section) (k : SectionType) :
    collectEntries (s1 ++ s2) k = collectEntries s1 k ++ collectEntries s2 k := by
  unfold collectEntries
  rw [List.filter_append, List.flatMap_append]

/-- Per-kind collection of a single section. -/
theorem collectEntries_singleton (kd : SectionType) (l : List FlatEntry) (k : SectionType) :
    collectEntries [⟨kd, l⟩] k = if (kd == k) = true then l else [] := by
  by_cases h : (kd == k) = true <;> simp [collectEntries, List.filter_cons, h]

/-- Per-kind collection of an if-guarded section block. -/
theorem collectEntries_ite (p : Prop) [Decidable p] (sec : Section) (k : SectionType) :
    collectEntries (if p then [] else [sec]) k =
      if p then [] else collectEntries [sec] k := by
  by_cases h : p
  · rw [if_pos h, if_pos h]
    rfl
  · rw [if_neg h, if_neg h]

/-- What the merged sections hold for the display-format kind. -/
theorem collect_merge_df (ss : List Section) :
    collectEntries (mergePdtSectionsByCommonParams ss) .displayFormat =
      if (collectEntries ss .displayFormat).isEmpty then [] else
        mergeDisplayEntries (collectEntries ss .displayFormat) mergeDisplayKeys := by
  rw [mergePdtSections_eq ss, collectEntries_append, collectEntries_append,
    collectEntries_append, collectEntries_ite, collectEntries_ite, collectEntries_ite,
    collectEntries_ite, collectEntries_singleton, collectEntries_singleton,
    collectEntries_singleton, collectEntries_singleton]
  by_cases h1 : (collectEntries ss .displayFormat).isEmpty = true <;>
  by_cases h2 : (collectEntries ss .ranges).isEmpty = true <;>
  by_cases h3 : (collectEntries ss .capping).isEmpty = true <;>
  by_cases h4 : (collectEntries ss .rounding).isEmpty = true <;>
  simp [h1, h2, h3, h4]

/-- What the merged sections hold for the ranges kind. -/
theorem collect_merge_rg (ss : List Section) :
    collectEntries (mergePdtSectionsByCommonParams ss) .ranges =
      if (collectEntries ss .ranges).isEmpty then [] else
        mergeRangesEntries (collectEntries ss .ranges) mergeRangesKeys := by
  rw [mergePdtSections_eq ss, collectEntries_append, collectEntries_append,
    collectEntries_append, collectEntries_ite, collectEntries_ite, collectEntries_ite,
    collectEntries_ite, collectEntries_singleton, collectEntries_singleton,
    collectEntries_singleton, collectEntries_singleton]
  by_cases h1 : (collectEntries ss .displayFormat).isEmpty = true <;>
  by_cases h2 : (collectEntries ss .ranges).isEmpty = true <;>
  by_cases h3 : (collectEntries ss .capping).isEmpty = true <;>
  by_cases h4 : (collectEntries ss .rounding).isEmpty = true <;>
  simp [h1, h2, h3, h4]

/-- What the merged sections hold for the capping kind. -/
theorem collect_merge_cp (ss : List Section) :
    collectEntries (mergePdtSectionsByCommonParams ss) .capping =
      if (collectEntries ss .capping).isEmpty then [] else
        mergeCappingEntries (collectEntries ss .capping) mergeRangesKeys := by
  rw [mergePdtSections_eq ss, collectEntries_append, collectEntries_append,
    collectEntries_append, collectEntries_ite, collectEntries_ite, collectEntries_ite,
    collectEntries_ite, collectEntries_singleton, collectEntries_singleton,
    collectEntries_singleton, collectEntries_singleton]
  by_cases h1 : (collectEntries ss .displayFormat).isEmpty = true <;>
  by_cases h2 : (collectEntries ss .ranges).isEmpty = true <;>
  by_cases h3 : (collectEntries ss .capping).isEmpty = true <;>
  by_cases h4 : (collectEntries ss .rounding).isEmpty = true <;>
  simp [h1, h2, h3, h4]

/-- What the merged sections hold for the rounding kind. -/
theorem collect_merge_rd (ss : List Section) :
    collectEntries (mergePdtSectionsByCommonParams ss) .rounding =
      collectEntries ss .rounding := by
  rw [mergePdtSections_eq ss, collectEntries_append, collectEntries_append,
    collectEntries_append, collectEntries_ite, collectEntries_ite, collectEntries_ite,
    collectEntries_ite, collectEntries_singleton, collectEntries_singleton,
    collectEntries_singleton, collectEntries_singleton]
  by_cases h1 : (collectEntries ss .displayFormat).isEmpty = true <;>
  by_cases h2 : (collectEntries ss .ranges).isEmpty = true <;>
  by_cases h3 : (collectEntries ss .capping).isEmpty = true <;>
  by_cases h4 : (collectEntries ss .rounding).isEmpty = true <;>
  simp [h1, h2, h3, h4, List.isEmpty_iff.mp]

/-- Claim C5 counterexample: merging is not idempotent on every sections
list.  Display-format entries carrying a truthy `delivery_option` are grouped
under keys that include that option, but are re-emitted without it; a second
merge therefore regroups them under different keys and reorders the entries. -/
theorem claim_C5_counterexample :
    mergePdtSectionsByCommonParams (mergePdtSectionsByCommonParams
        [⟨.displayFormat,
          [⟨some "F", some "A", none, none, none, none, none,
             some [("delivery_mode", CondVal.str "DELIVERY")], none⟩,
           ⟨some "F", none, none, none, none, none, none,
             some [("delivery_mode", CondVal.str "PICKUP")], none⟩,
           ⟨some "F", some "B", none, none, none, none, none,
             some [("delivery_mode", CondVal.str "DELIVERY")], none⟩]⟩]) ≠
      mergePdtSectionsByCommonParams
        [⟨.displayFormat,
          [⟨some "F", some "A", none, none, none, none, none,
             some [("delivery_mode", CondVal.str "DELIVERY")], none⟩,
           ⟨some "F", none, none, none, none, none, none,
             some [("delivery_mode", CondVal.str "PICKUP")], none⟩,
           ⟨some "F", some "B", none, none, none, none, none,
             some [("delivery_mode", CondVal.str "DELIVERY")], none⟩]⟩] := by decide

/-- The display-format block of a second merge reproduces the block of the
first, when no input entry carries a truthy delivery option. -/
theorem merged_block_df (l : List FlatEntry)
    (h : ∀ e ∈ l, truthyStr e.delivery_option = false) :
    (if (if l.isEmpty then [] else mergeDisplayEntries l mergeDisplayKeys).isEmpty then
        ([] : List Section)
      else [⟨.displayFormat, mergeDisplayEntries
        (if l.isEmpty then [] else mergeDisplayEntries l mergeDisplayKeys)
        mergeDisplayKeys⟩]) =
      if l.isEmpty then [] else
        [⟨.displayFormat, mergeDisplayEntries l mergeDisplayKeys⟩] := by
  by_cases hl : l.isEmpty = true
  · simp [hl]
  · have hne : l ≠ [] := fun hnil => hl (by rw [hnil]; rfl)
    have hm2 : ¬((mergeDisplayEntries l mergeDisplayKeys).isEmpty = true) :=
      fun hh => mergeDisplayEntries_ne_nil _ _ hne (List.isEmpty_iff.mp hh)
    simp only [if_neg hl, if_neg hm2]
    rw [mergeDisplayEntries_idem _ _ h]

/-- The ranges block of a second merge reproduces the block of the first. -/
theorem merged_block_rg (l : List FlatEntry) :
    (if (if l.isEmpty then [] else mergeRangesEntries l mergeRangesKeys).isEmpty then
        ([] : List Section)
      else [⟨.ranges, mergeRangesEntries
        (if l.isEmpty then [] else mergeRangesEntries l mergeRangesKeys)
        mergeRangesKeys⟩]) =
      if l.isEmpty then [] else
        [⟨.ranges, mergeRangesEntries l mergeRangesKeys⟩] := by
  by_cases hl : l.isEmpty = true
  · simp [hl]
  · have hne : l ≠ [] := fun hnil => hl (by rw [hnil]; rfl)
    have hm2 : ¬((mergeRangesEntries l mergeRangesKeys).isEmpty = true) :=
      fun hh => mergeRangesEntries_ne_nil _ _ hne (List.isEmpty_iff.mp hh)
    simp only [if_neg hl, if_neg hm2]
    rw [mergeRangesEntries_idem]

/-- The capping block of a second merge reproduces the block of the first. -/
theorem merged_block_cp (l : List FlatEntry) :
    (if (if l.isEmpty then [] else mergeCappingEntries l mergeRangesKeys).isEmpty then
        ([] : List Section)
      else [⟨.capping, mergeCappingEntries
        (if l.isEmpty then [] else mergeCappingEntries l mergeRangesKeys)
        mergeRangesKeys⟩]) =
      if l.isEmpty then [] else
        [⟨.capping, mergeCappingEntries l mergeRangesKeys⟩] := by
  by_cases hl : l.isEmpty = true
  · simp [hl]
  · have hne : l ≠ [] := fun hnil => hl (by rw [hnil]; rfl)
    have hm2 : ¬((mergeCappingEntries l mergeRangesKeys).isEmpty = true) :=
      fun hh => mergeCappingEntries_ne_nil _ _ hne (List.isEmpty_iff.mp hh)
    simp only [if_neg hl, if_neg hm2]
    rw [mergeCappingEntries_idem]

/-- Claim C5 (amended): applying `mergePdtSectionsByCommonParams` to its own
output reproduces that output exactly — same per-kind grouping and same
entries, titles included — provided no display-format entry of the input
carries a truthy `delivery_option` (the one field the display re-emission
drops from its grouping key). -/
theorem claim_C5_amended (ss : List Section)
    (hdf : ∀ sec ∈ ss, sec.kind = SectionType.displayFormat →
      ∀ e ∈ sec.entries, truthyStr e.delivery_option = false) :
    mergePdtSectionsByCommonParams (mergePdtSectionsByCommonParams ss) =
      mergePdtSectionsByCommonParams ss := by
  have hdfc : ∀ e ∈ collectEntries ss .displayFormat,
      truthyStr e.delivery_option = false := by
    intro e he
    unfold collectEntries at he
    rcases List.mem_flatMap.mp he with ⟨sec, hsec, hee⟩
    rcases List.mem_filter.mp hsec with ⟨hmem, hkd⟩
    exact hdf sec hmem (beq_iff_eq.mp hkd) e hee
  conv_lhs => rw [mergePdtSections_eq (mergePdtSectionsByCommonParams ss)]
  rw [collect_merge_df ss, collect_merge_rg ss, collect_merge_cp ss, collect_merge_rd ss]
  conv_rhs => rw [mergePdtSections_eq ss]
  rw [merged_block_df _ hdfc, merged_block_rg, merged_block_cp]

/-- Witness for the amended C5 on a concrete configuration with one
display-format section without delivery options and one ranges section. -/
theorem claim_C5_amended_witness :
    mergePdtSectionsByCommonParams (mergePdtSectionsByCommonParams
        [⟨.displayFormat, [⟨some "F", none, none, none, none, none, none, none, none⟩]⟩,
         ⟨.ranges, [⟨none, some "A", some 0, some 10, none, none, none,
            some [("pdt_greater_than", CondVal.int 5)], none⟩]⟩]) =
      mergePdtSectionsByCommonParams
        [⟨.displayFormat, [⟨some "F", none, none, none, none, none, none, none, none⟩]⟩,
         ⟨.ranges, [⟨none, some "A", some 0, some 10, none, none, none,
            some [("pdt_greater_than", CondVal.int 5)], none⟩]⟩] :=
  claim_C5_amended _ (by decide)

variable {α : Type}

/-- `takeWhile` passes over a block whose elements all satisfy the predicate. -/
theorem takeWhile_append_all {p : α → Bool} (l1 l2 : List α) (h : ∀ a ∈ l1, p a = true) :
    (l1 ++ l2).takeWhile p = l1 ++ l2.takeWhile p := by
  induction l1 with
  | nil => rfl
  | cons x xs ih =>
    rw [List.cons_append, List.takeWhile_cons, h x (by simp), if_pos rfl,
      List.cons_append, ih (fun a ha => h a (by simp [ha]))]

/-- `dropWhile` passes over a block whose elements all satisfy the predicate. -/
theorem dropWhile_append_all {p : α → Bool} (l1 l2 : List α) (h : ∀ a ∈ l1, p a = true) :
    (l1 ++ l2).dropWhile p = l2.dropWhile p := by
  induction l1 with
  | nil => rfl
  | cons x xs ih =>
    rw [List.cons_append, List.dropWhile_cons, h x (by simp)]
    exact ih (fun a ha => h a (by simp [ha]))

/-- A prefix test never looks past the prefix's length. -/
theorem isPrefixOfChars_append (ps cs ds : List Char) (h : ps.length ≤ cs.length) :
    isPrefixOfChars ps (cs ++ ds) = isPrefixOfChars ps cs := by
  induction ps generalizing cs with
  | nil => rfl
  | cons p ps ih =>
    rcases cs with _ | ⟨c, cs⟩
    · simp at h
    · simp only [List.cons_append, isPrefixOfChars, List.append_eq]
      rw [ih cs (by simpa using h)]

/-- The data of a fold-built join. -/
theorem joinFold_data_eq (sep : String) (ys : List String) :
    ∀ p : String, (ys.foldl (fun acc y => acc ++ sep ++ y) p).data =
      p.data ++ ys.flatMap (fun y => sep.data ++ y.data) := by
  induction ys with
  | nil => intro p; simp
  | cons y ys ih =>
    intro p
    rw [List.foldl_cons, ih (p ++ sep ++ y)]
    simp [String.data_append]

/-- The data of a nonempty join. -/
theorem joinParts_data_eq (sep : String) (x : String) (xs : List String) :
    (joinParts sep (x :: xs)).data = x.data ++ xs.flatMap (fun y => sep.data ++ y.data) := by
  unfold joinParts
  exact joinFold_data_eq sep xs x

/-- Newline-free data is a single line. -/
theorem splitLinesChar_no_nl (cs : List Char) (h : ∀ c ∈ cs, (c == '\n') = false) :
    splitLinesChar cs = [cs] := by
  induction cs with
  | nil => rfl
  | cons c cs ih =>
    have h2 := ih (fun c hc => h c (by simp [hc]))
    simp only [splitLinesChar, h c (by simp), h2]
    rw [if_neg (by simp)]

/-- Splitting at the first newline after a newline-free block. -/
theorem splitLinesChar_append_nl (cs ds : List Char) (h : ∀ c ∈ cs, (c == '\n') = false) :
    splitLinesChar (cs ++ '\n' :: ds) = cs :: splitLinesChar ds := by
  induction cs with
  | nil => simp [splitLinesChar]
  | cons c cs ih =>
    have h2 := ih (fun c hc => h c (by simp [hc]))
    simp only [List.cons_append, splitLinesChar, h c (by simp), List.append_eq, h2]
    rw [if_neg (by simp)]

/-- Splitting a newline-joined line list recovers the lines. -/
theorem splitLines_join (x : String) (xs : List String)
    (h : ∀ l ∈ x :: xs, ∀ c ∈ l.data, (c == '\n') = false) :
    splitLines (joinParts newlineStr (x :: xs)) = x :: xs := by
  induction xs generalizing x with
  | nil =>
    unfold splitLines
    rw [joinParts_data_eq]
    simp only [List.flatMap_nil, List.append_nil]
    rw [splitLinesChar_no_nl x.data (h x (by simp))]
    rfl
  | cons y ys ih =>
    unfold splitLines
    rw [joinParts_data_eq]
    have hflat : (y :: ys).flatMap (fun y => newlineStr.data ++ y.data) =
        '\n' :: (y.data ++ ys.flatMap (fun y => newlineStr.data ++ y.data)) := by
      simp [newlineStr]
    rw [hflat, splitLinesChar_append_nl x.data _ (h x (by simp))]
    have hrec := ih y (fun l hl => h l (by simp at hl ⊢; tauto))
    unfold splitLines at hrec
    rw [joinParts_data_eq] at hrec
    rw [List.map_cons, hrec]

/-- Trimming absorbs a leading space. -/
theorem trimChars_space (cs : List Char) : trimChars (' ' :: cs) = trimChars cs := by
  simp [trimChars, List.dropWhile_cons]

/-- A trim-stable value's data is its own trim. -/
theorem trimStable_id (v : String) (h : trimStable v = true) : trimChars v.data = v.data := by
  simpa [trimStable] using h

/-- Ample fuel makes the digit accumulator fuel-independent. -/
theorem natDigitsAux_fuel (n : Nat) : ∀ f, n < f → natDigitsAux f n = natDigitsAux (n + 1) n := by
  induction n using Nat.strong_induction_on with
  | _ n ih =>
    intro f hf
    rcases f with _ | g
    · omega
    · by_cases h10 : n < 10
      · simp [natDigitsAux, h10]
      · simp only [natDigitsAux, if_neg h10]
        have hlt : n / 10 < n := Nat.div_lt_self (by omega) (by omega)
        rw [ih (n / 10) hlt g (by omega), ih (n / 10) hlt n hlt]

/-- The digit list of a small number. -/
theorem natDigits_low (n : Nat) (h : n < 10) : natDigitsAux (n + 1) n = [digitChar n] := by
  simp [natDigitsAux, h]

/-- The digit list of a large number ends in its last digit. -/
theorem natDigits_step (n : Nat) (h : ¬ n < 10) :
    natDigitsAux (n + 1) n = natDigitsAux (n / 10 + 1) (n / 10) ++ [digitChar (n % 10)] := by
  conv_lhs => rw [natDigitsAux]
  rw [if_neg h, natDigitsAux_fuel (n / 10) n (Nat.div_lt_self (by omega) (by omega))]

/-- Digit characters are decimal digits. -/
theorem digitChar_isDigit (n : Nat) (h : n < 10) : (digitChar n).isDigit = true := by
  interval_cases n <;> decide

/-- Digit characters code their digit. -/
theorem digitChar_toNat (n : Nat) (h : n < 10) : (digitChar n).toNat - 48 = n := by
  interval_cases n <;> decide

/-- The rendered digit list is nonempty. -/
theorem natDigits_ne_nil (n : Nat) : natDigitsAux (n + 1) n ≠ [] := by
  by_cases h : n < 10
  · rw [natDigits_low n h]; simp
  · rw [natDigits_step n h]; simp

/-- Every character of the rendered digit list is a digit. -/
theorem natDigits_all_digit (n : Nat) : ∀ c ∈ natDigitsAux (n + 1) n, c.isDigit = true := by
  induction n using Nat.strong_induction_on with
  | _ n ih =>
    by_cases h : n < 10
    · rw [natDigits_low n h]
      intro c hc
      simp at hc
      subst hc
      exact digitChar_isDigit n h
    · rw [natDigits_step n h]
      intro c hc
      rcases List.mem_append.mp hc with hc | hc
      · exact ih (n / 10) (Nat.div_lt_self (by omega) (by omega)) c hc
      · simp at hc
        subst hc
        exact digitChar_isDigit (n % 10) (Nat.mod_lt n (by omega))

/-- The folded numeric value of digits extended by one digit. -/
theorem digitsToNat_append_one (ds : List Char) (c : Char) :
    digitsToNat (ds ++ [c]) = digitsToNat ds * 10 + (c.toNat - 48) := by
  unfold digitsToNat
  rw [List.foldl_append]
  rfl

/-- Reading back the rendered digits gives the number. -/
theorem digitsToNat_natDigits (n : Nat) : digitsToNat (natDigitsAux (n + 1) n) = n := by
  induction n using Nat.strong_induction_on with
  | _ n ih =>
    by_cases h : n < 10
    · rw [natDigits_low n h]
      unfold digitsToNat
      simp [digitChar_toNat n h]
    · rw [natDigits_step n h, digitsToNat_append_one,
        ih (n / 10) (Nat.div_lt_self (by omega) (by omega)),
        digitChar_toNat (n % 10) (Nat.mod_lt n (by omega))]
      omega

/-- The leading rendered digit of a positive number is not zero. -/
theorem natDigits_head_ne_zero (n : Nat) (hn : n ≠ 0) :
    ∀ c, (natDigitsAux (n + 1) n).head? = some c → (c == '0') = false := by
  induction n using Nat.strong_induction_on with
  | _ n ih =>
    intro c hc
    by_cases h : n < 10
    · rw [natDigits_low n h] at hc
      simp at hc
      subst hc
      interval_cases n <;> simp_all <;> decide
    · rw [natDigits_step n h] at hc
      have hne := natDigits_ne_nil (n / 10)
      rcases he : natDigitsAux (n / 10 + 1) (n / 10) with _ | ⟨d, ds⟩
      · exact absurd he hne
      · rw [he, List.cons_append, List.head?_cons] at hc
        cases hc
        exact ih (n / 10) (Nat.div_lt_self (by omega) (by omega)) (by omega) c
          (by rw [he]; rfl)

/-- The rendered digits as string data. -/
theorem natRepr_data (n : Nat) : (natRepr n).data = natDigitsAux (n + 1) n := rfl

/-- The rendered natural is a canonical integer literal. -/
theorem isCanonicalInt_natRepr (n : Nat) : isCanonicalInt (natRepr n) = true := by
  unfold isCanonicalInt
  rcases he : (natRepr n).data with _ | ⟨d, ds⟩
  · rw [natRepr_data] at he
    exact absurd he (natDigits_ne_nil n)
  · rw [natRepr_data] at he
    split
    · rename_i heq
      cases heq
    · rename_i ds2 heq
      have hd : d.isDigit = true := natDigits_all_digit n d (by rw [he]; simp)
      rw [List.cons.injEq] at heq
      rw [heq.1] at hd
      exact absurd hd (by decide)
    · rename_i d2 ds2 hne heq
      rw [List.cons.injEq] at heq
      obtain ⟨h1, h2⟩ := heq
      subst h1
      subst h2
      rw [Bool.and_eq_true]
      refine ⟨?_, ?_⟩
      · rw [List.all_eq_true]
        intro c hc
        exact natDigits_all_digit n c (by rw [he]; exact hc)
      · by_cases hn : n = 0
        · subst hn
          have h0 : natDigitsAux (0 + 1) 0 = ['0'] := by decide
          rw [h0] at he
          cases he
          simp
        · have hd0 := natDigits_head_ne_zero n hn d (by rw [he]; rfl)
          simp [hd0]

/-- Rendered digit data begins with a digit. -/
theorem natRepr_head_digit (n : Nat) :
    ∃ d ds, (natRepr n).data = d :: ds ∧ d.isDigit = true := by
  rcases he : (natRepr n).data with _ | ⟨d, ds⟩
  · rw [natRepr_data] at he
    exact absurd he (natDigits_ne_nil n)
  · refine ⟨d, ds, rfl, ?_⟩
    rw [natRepr_data] at he
    exact natDigits_all_digit n d (by rw [he]; simp)

/-- A string whose head is a digit differs from one whose head is not. -/
theorem ne_of_head_digit (s t : String) (hs : ∃ d ds, s.data = d :: ds ∧ d.isDigit = true)
    (ht : ∀ d ds, t.data = d :: ds → d.isDigit = false) : (s == t) = false := by
  rw [beq_eq_false_iff_ne]
  intro h
  obtain ⟨d, ds, hsd, hdig⟩ := hs
  subst h
  rw [ht d ds hsd] at hdig
  cases hdig

/-- Reading the rendered natural back as a plain scalar gives the number. -/
theorem parseScalar_natRepr (n : Nat) : parseScalar (natRepr n) = .int n := by
  unfold parseScalar
  rw [ne_of_head_digit _ _ (natRepr_head_digit n) (by intro d ds h; cases h; decide),
    ne_of_head_digit _ _ (natRepr_head_digit n) (by intro d ds h; cases h; decide),
    if_neg (by simp), if_neg (by simp), if_pos (isCanonicalInt_natRepr n)]
  obtain ⟨d, ds, hsd, hdig⟩ := natRepr_head_digit n
  rw [hsd]
  split
  · rename_i ds2 heq
    rw [List.cons.injEq] at heq
    rw [heq.1] at hdig
    exact absurd hdig (by decide)
  · rw [← hsd, natRepr_data, digitsToNat_natDigits]

/-- Reading the rendered integer back as a plain scalar gives the integer. -/
theorem parseScalar_intRepr (n : Int) : parseScalar (intRepr n) = .int n := by
  by_cases hn : n < 0
  · unfold intRepr
    rw [if_pos hn]
    unfold parseScalar
    have hdata : ("-" ++ natRepr n.natAbs).data = '-' :: (natRepr n.natAbs).data := by
      rw [String.data_append]
      rfl
    have hne1 : (("-" ++ natRepr n.natAbs) == "true") = false := by
      rw [beq_eq_false_iff_ne]
      intro h
      have h2 := congrArg String.data h
      rw [hdata] at h2
      cases h2
    have hne2 : (("-" ++ natRepr n.natAbs) == "false") = false := by
      rw [beq_eq_false_iff_ne]
      intro h
      have h2 := congrArg String.data h
      rw [hdata] at h2
      cases h2
    have hcan : isCanonicalInt ("-" ++ natRepr n.natAbs) = true := by
      unfold isCanonicalInt
      rw [hdata]
      obtain ⟨d, ds, hsd, hdig⟩ := natRepr_head_digit n.natAbs
      rw [hsd]
      have hna : n.natAbs ≠ 0 := by omega
      have hd0 := natDigits_head_ne_zero n.natAbs hna d
        (by rw [← natRepr_data, hsd]; rfl)
      simp only []
      rw [List.all_eq_true.mpr, hd0]
      · rfl
      · intro c hc
        have hm : c ∈ (natRepr n.natAbs).data := by rw [hsd]; exact hc
        rw [natRepr_data] at hm
        exact natDigits_all_digit n.natAbs c hm
    rw [hne1, hne2, if_neg (by simp), if_neg (by simp), if_pos hcan, hdata]
    rw [natRepr_data]
    show CondVal.int (-(digitsToNat (natDigitsAux (n.natAbs + 1) n.natAbs) : Int)) =
      CondVal.int n
    rw [digitsToNat_natDigits]
    congr 1
    omega
  · unfold intRepr
    rw [if_neg hn, parseScalar_natRepr]
    congr 1
    omega

/-- A plain string reads back as itself. -/
theorem parseScalar_plain (s : String) (h : plainStr s = true) : parseScalar s = .str s := by
  unfold plainStr at h
  simp only [Bool.and_eq_true, Bool.not_eq_eq_eq_not, Bool.not_true] at h
  unfold parseScalar
  rw [h.1.1.2, h.1.2, if_neg (by simp), if_neg (by simp), if_neg (by simp [h.2])]

/-- A plain string reads back as string content. -/
theorem asStrScalar_plain (s : String) (h : plainStr s = true) : asStrScalar s = some s := by
  unfold asStrScalar
  rw [parseScalar_plain s h]

/-- The rendered integer reads back as integer content. -/
theorem asIntScalar_intRepr (n : Int) : asIntScalar (intRepr n) = some n := by
  unfold asIntScalar
  rw [parseScalar_intRepr]

/-- A rendered optional integer field reads back exactly. -/
theorem asIntScalar_intOpt (o : Option Int) : asIntScalar (intOptString o) = o := by
  rcases o with _ | n
  · decide
  · exact asIntScalar_intRepr n

/-- Character data of rendered digits contains no space and no newline. -/
theorem natRepr_no_sp_nl (n : Nat) :
    ∀ c ∈ (natRepr n).data, (c == ' ') = false ∧ (c == '\n') = false := by
  intro c hc
  rw [natRepr_data] at hc
  have hd := natDigits_all_digit n c hc
  constructor <;> · rw [beq_eq_false_iff_ne]; intro h; subst h; simp [Char.isDigit] at hd

/-- Data with no space characters is trim-stable. -/
theorem trimChars_id_no_sp (cs : List Char) (h : ∀ c ∈ cs, (c == ' ') = false) :
    trimChars cs = cs := by
  unfold trimChars
  have h1 : cs.dropWhile (fun c => c == ' ') = cs := by
    rcases cs with _ | ⟨c, cs⟩
    · rfl
    · rw [List.dropWhile_cons, h c (by simp), if_neg (by simp)]
  rw [h1]
  have h2 : cs.reverse.dropWhile (fun c => c == ' ') = cs.reverse := by
    rcases hr : cs.reverse with _ | ⟨c, cs2⟩
    · rfl
    · rw [List.dropWhile_cons, h c (by rw [← List.mem_reverse, hr]; simp),
        if_neg (by simp)]
  rw [h2, List.reverse_reverse]

/-- The rendered integer is trim-stable. -/
theorem trimStable_intRepr (n : Int) : trimStable (intRepr n) = true := by
  unfold trimStable
  rw [beq_iff_eq]
  apply trimChars_id_no_sp
  intro c hc
  by_cases hn : n < 0
  · unfold intRepr at hc
    rw [if_pos hn, String.data_append] at hc
    rcases List.mem_append.mp hc with hc | hc
    · simp at hc
      subst hc
      decide
    · exact (natRepr_no_sp_nl _ c hc).1
  · unfold intRepr at hc
    rw [if_neg hn] at hc
    exact (natRepr_no_sp_nl _ c hc).1

/-- The rendered integer contains no newline. -/
theorem noNL_intRepr (n : Int) : noNL (intRepr n) = true := by
  unfold noNL
  rw [List.all_eq_true]
  intro c hc
  by_cases hn : n < 0
  · unfold intRepr at hc
    rw [if_pos hn, String.data_append] at hc
    rcases List.mem_append.mp hc with hc | hc
    · simp at hc
      subst hc
      decide
    · simp [(natRepr_no_sp_nl _ c hc).2]
  · unfold intRepr at hc
    rw [if_neg hn] at hc
    simp [(natRepr_no_sp_nl _ c hc).2]

/-- The rendered integer is nonempty. -/
theorem intRepr_ne_empty (n : Int) : (intRepr n == "") = false := by
  rw [beq_eq_false_iff_ne]
  intro h
  have h2 := congrArg String.data h
  by_cases hn : n < 0
  · unfold intRepr at h2
    rw [if_pos hn, String.data_append] at h2
    cases List.append_eq_nil.mp h2 with
    | intro h3 h4 => cases h3
  · unfold intRepr at h2
    rw [if_neg hn, natRepr_data] at h2
    exact natDigits_ne_nil _ h2

/-- A well-formed scalar condition value renders and reads back to itself. -/
theorem parseScalar_condVal (v : CondVal) (h : condValWF v = true)
    (harr : ∀ xs, v ≠ .arr xs) : parseScalar (condValString v) = v := by
  rcases v with n | b | s | xs | _
  · exact parseScalar_intRepr n
  · rcases b with _ | _ <;> decide
  · unfold condValWF at h
    rw [Bool.and_eq_true] at h
    exact parseScalar_plain s h.1
  · exact absurd rfl (harr xs)
  · cases h

/-- A well-formed scalar condition value renders nonempty. -/
theorem condValString_ne_empty (v : CondVal) (h : condValWF v = true)
    (harr : ∀ xs, v ≠ .arr xs) : (condValString v == "") = false := by
  rcases v with n | b | s | xs | _
  · exact intRepr_ne_empty n
  · rcases b with _ | _ <;> decide
  · unfold condValWF at h
    rw [Bool.and_eq_true] at h
    simpa using h.2
  · exact absurd rfl (harr xs)
  · cases h

/-- A well-formed scalar condition value renders trim-stable. -/
theorem trimStable_condVal (v : CondVal) (h : condValWF v = true)
    (harr : ∀ xs, v ≠ .arr xs) : trimStable (condValString v) = true := by
  rcases v with n | b | s | xs | _
  · exact trimStable_intRepr n
  · rcases b with _ | _ <;> decide
  · unfold condValWF plainStr at h
    simp only [Bool.and_eq_true] at h
    exact h.1.1.1.1.1
  · exact absurd rfl (harr xs)
  · cases h

/-- A well-formed scalar condition value renders newline-free. -/
theorem noNL_condVal (v : CondVal) (h : condValWF v = true)
    (harr : ∀ xs, v ≠ .arr xs) : noNL (condValString v) = true := by
  rcases v with n | b | s | xs | _
  · exact noNL_intRepr n
  · rcases b with _ | _ <;> decide
  · unfold condValWF plainStr at h
    simp only [Bool.and_eq_true] at h
    exact h.1.1.1.1.2
  · exact absurd rfl (harr xs)
  · cases h

/-- Key/value split after a colon-free key. -/
theorem splitKeyValue_calc (k : String) (rest : List Char)
    (hk : ∀ c ∈ k.data, (c == ':') = false) :
    splitKeyValue (k.data ++ ':' :: rest) = some (k, String.mk (trimChars rest)) := by
  unfold splitKeyValue
  have htw : (k.data ++ ':' :: rest).takeWhile (fun c => !(c == ':')) = k.data := by
    rw [takeWhile_append_all k.data _ (fun c hc => by simp [hk c hc])]
    rw [List.takeWhile_cons, if_neg (by simp)]
    simp
  rw [htw]
  dsimp only
  have hdrop : (k.data ++ ':' :: rest).drop k.data.length = ':' :: rest :=
    List.drop_left k.data (':' :: rest)
  rw [hdrop]
  rfl

/-- Processing an indent-4 list-item line sets a top-level field. -/
theorem processLine_i4 (st : PState) (k v l : String)
    (hl : l.data = [' ', ' ', ' ', ' '] ++ '-' :: ' ' :: (k.data ++ ':' :: ' ' :: v.data))
    (hk : ∀ c ∈ k.data, (c == ':') = false) (hv : trimStable v = true) :
    processLine st l = ⟨setTopField st.e k v, .top⟩ := by
  unfold processLine
  rw [hl]
  dsimp only
  have htw : (([' ', ' ', ' ', ' '] ++ '-' :: ' ' ::
      (k.data ++ ':' :: ' ' :: v.data)).takeWhile (fun c => c == ' ')) =
      [' ', ' ', ' ', ' '] := by
    rw [takeWhile_append_all _ _ (by intro a ha; simp at ha; simp [ha])]
    rw [List.takeWhile_cons, if_neg (by simp)]
    simp
  rw [htw]
  have hdrop : (([' ', ' ', ' ', ' '] ++ '-' :: ' ' ::
      (k.data ++ ':' :: ' ' :: v.data)).drop ([' ', ' ', ' ', ' '] : List Char).length) =
      '-' :: ' ' :: (k.data ++ ':' :: ' ' :: v.data) :=
    List.drop_left _ _
  rw [show (([' ', ' ', ' ', ' '] : List Char).length) = 4 from rfl] at hdrop
  rw [show (([' ', ' ', ' ', ' '] : List Char).length) = 4 from rfl, hdrop]
  rw [if_pos (by rfl)]
  have hsk : splitKeyValue (k.data ++ ':' :: ' ' :: v.data) =
      some (k, String.mk (trimChars (' ' :: v.data))) := splitKeyValue_calc k _ hk
  rw [trimChars_space, trimStable_id v hv] at hsk
  simp only [hsk]

/-- Indentation characters stop at a non-space key head. -/
theorem takeWhile_sp_key (sp kd rest : List Char) (hsp : ∀ c ∈ sp, (c == ' ') = true)
    (hk : ∃ c cs, kd = c :: cs ∧ (c == ' ') = false) :
    (sp ++ (kd ++ rest)).takeWhile (fun c => c == ' ') = sp := by
  rw [takeWhile_append_all sp _ hsp]
  obtain ⟨c, cs, rfl, hc⟩ := hk
  rw [List.cons_append, List.takeWhile_cons, hc, if_neg (by simp)]
  simp

/-- Processing an indent-6 key/value line with a nonempty value sets a
top-level field. -/
theorem processLine_i6 (st : PState) (k v l : String)
    (hl : l.data = [' ', ' ', ' ', ' ', ' ', ' '] ++ (k.data ++ ':' :: ' ' :: v.data))
    (hk : ∀ c ∈ k.data, (c == ':') = false)
    (hkh : ∃ c cs, k.data = c :: cs ∧ (c == ' ') = false)
    (hv : trimStable v = true) (hvne : (v == "") = false) :
    processLine st l = ⟨setTopField st.e k v, .top⟩ := by
  unfold processLine
  rw [hl]
  dsimp only
  rw [takeWhile_sp_key _ _ _ (by intro a ha; simp at ha; simp [ha]) hkh]
  rw [if_neg (by decide), if_pos (by decide)]
  rw [List.drop_left]
  have hsk : splitKeyValue (k.data ++ ':' :: ' ' :: v.data) =
      some (k, String.mk (trimChars (' ' :: v.data))) := splitKeyValue_calc k _ hk
  rw [trimChars_space, trimStable_id v hv] at hsk
  have hmk : String.mk v.data = v := rfl
  rw [hmk] at hsk
  rw [hsk]
  dsimp only
  rw [hvne]
  simp only [Bool.and_false]
  rfl

/-- Processing an indent-8 key/value line with a nonempty value in a
conditions context appends the parsed pair. -/
theorem processLine_i8_scalar (st : PState) (k v l : String)
    (hctx : st.ctx = .conds ∨ ∃ k0, st.ctx = .condList k0)
    (hl : l.data = [' ', ' ', ' ', ' ', ' ', ' ', ' ', ' '] ++ (k.data ++ ':' :: ' ' :: v.data))
    (hk : ∀ c ∈ k.data, (c == ':') = false)
    (hkh : ∃ c cs, k.data = c :: cs ∧ (c == ' ') = false)
    (hv : trimStable v = true) (hvne : (v == "") = false) :
    processLine st l = ⟨appendCond st.e k (parseScalar v), .conds⟩ := by
  obtain ⟨e0, ctx0⟩ := st
  unfold processLine
  rw [hl]
  dsimp only
  rw [takeWhile_sp_key _ _ _ (by intro a ha; simp at ha; simp [ha]) hkh]
  rw [if_neg (by decide), if_neg (by decide), if_pos (by decide)]
  rw [List.drop_left]
  have hsk : splitKeyValue (k.data ++ ':' :: ' ' :: v.data) =
      some (k, String.mk (trimChars (' ' :: v.data))) := splitKeyValue_calc k _ hk
  rw [trimChars_space, trimStable_id v hv] at hsk
  have hmk : String.mk v.data = v := rfl
  rw [hmk] at hsk
  rcases hctx with hc | ⟨k0, hc⟩ <;> simp only at hc <;> subst hc <;>
    · dsimp only
      rw [hsk]
      dsimp only
      rw [hvne]
      rfl

/-- Processing an indent-8 bare key line in a conditions context opens an
array entry. -/
theorem processLine_i8_arr (st : PState) (k l : String)
    (hctx : st.ctx = .conds ∨ ∃ k0, st.ctx = .condList k0)
    (hl : l.data = [' ', ' ', ' ', ' ', ' ', ' ', ' ', ' '] ++ (k.data ++ [':']))
    (hk : ∀ c ∈ k.data, (c == ':') = false)
    (hkh : ∃ c cs, k.data = c :: cs ∧ (c == ' ') = false) :
    processLine st l = ⟨appendCond st.e k (.arr []), .condList k⟩ := by
  obtain ⟨e0, ctx0⟩ := st
  unfold processLine
  rw [hl]
  dsimp only
  rw [takeWhile_sp_key _ _ _ (by intro a ha; simp at ha; simp [ha]) hkh]
  rw [if_neg (by decide), if_neg (by decide), if_pos (by decide)]
  rw [List.drop_left]
  have hsk : splitKeyValue (k.data ++ ':' :: ([] : List Char)) =
      some (k, String.mk (trimChars [])) := splitKeyValue_calc k [] hk
  rw [show (k.data ++ ':' :: ([] : List Char)) = k.data ++ [':'] from rfl] at hsk
  rcases hctx with hc | ⟨k0, hc⟩ <;> simp only at hc <;> subst hc <;>
    · dsimp only
      rw [hsk]
      rfl

/-- Processing an indent-10 sequence-item line in an open array context
appends the trimmed item. -/
theorem processLine_i10_item (st : PState) (k0 x l : String)
    (hctx : st.ctx = .condList k0)
    (hl : l.data = [' ', ' ', ' ', ' ', ' ', ' ', ' ', ' ', ' ', ' '] ++
      ('-' :: ' ' :: x.data))
    (hx : trimStable x = true) :
    processLine st l = ⟨appendCondItem st.e k0 x, .condList k0⟩ := by
  obtain ⟨e0, ctx0⟩ := st
  unfold processLine
  rw [hl]
  dsimp only
  have htw : (([' ', ' ', ' ', ' ', ' ', ' ', ' ', ' ', ' ', ' '] ++
      ('-' :: ' ' :: x.data)).takeWhile (fun c => c == ' ')) =
      [' ', ' ', ' ', ' ', ' ', ' ', ' ', ' ', ' ', ' '] :=
    takeWhile_sp_key _ ['-'] (' ' :: x.data) (by intro a ha; simp at ha; simp [ha])
      ⟨'-', [], rfl, by decide⟩
  rw [htw]
  rw [if_neg (by decide), if_neg (by decide), if_neg (by decide), if_pos (by decide)]
  rw [List.drop_left]
  simp only at hctx
  subst hctx
  show (⟨appendCondItem e0 k0 (String.mk (trimChars x.data)), PCtx.condList k0⟩ : PState) =
    ⟨appendCondItem e0 k0 x, PCtx.condList k0⟩
  rw [trimStable_id x hx]

/-- The bare `conditions:` line opens the conditions context. -/
theorem processLine_conds_open (st : PState) :
    processLine st "      conditions:" = ⟨st.e, .conds⟩ := rfl

/-- The bare `single:` line opens the single-capping context. -/
theorem processLine_single_open (st : PState) :
    processLine st "      single:" = ⟨st.e, .singleC⟩ := rfl

/-- The bare `ranges:` line opens the capping-ranges context. -/
theorem processLine_capranges_open (st : PState) :
    processLine st "      ranges:" = ⟨st.e, .capRanges⟩ := rfl

/-- An indent-8 `min:`/`max:` value line in the single context sets the
single-capping bound. -/
theorem processLine_single_min (st : PState) (v l : String)
    (hctx : st.ctx = .singleC)
    (hl : l.data = [' ', ' ', ' ', ' ', ' ', ' ', ' ', ' '] ++
      ("min".data ++ ':' :: ' ' :: v.data))
    (hv : trimStable v = true) :
    processLine st l =
      ⟨{ st.e with single := some { st.e.single.getD ⟨0, 0⟩ with
          min := (asIntScalar v).getD 0 } }, .singleC⟩ := by
  obtain ⟨e0, ctx0⟩ := st
  unfold processLine
  rw [hl]
  dsimp only
  rw [takeWhile_sp_key _ _ _ (by intro a ha; simp at ha; simp [ha])
    ⟨'m', ['i', 'n'], rfl, by decide⟩]
  rw [if_neg (by decide), if_neg (by decide), if_pos (by decide)]
  rw [List.drop_left]
  have hsk : splitKeyValue ("min".data ++ ':' :: ' ' :: v.data) =
      some ("min", String.mk (trimChars (' ' :: v.data))) :=
    splitKeyValue_calc "min" _ (by decide)
  rw [trimChars_space, trimStable_id v hv] at hsk
  have hmk : String.mk v.data = v := rfl
  rw [hmk] at hsk
  simp only at hctx
  subst hctx
  dsimp only
  rw [hsk]
  rfl

/-- An indent-8 `max:` value line in the single context sets the
single-capping bound. -/
theorem processLine_single_max (st : PState) (v l : String)
    (hctx : st.ctx = .singleC)
    (hl : l.data = [' ', ' ', ' ', ' ', ' ', ' ', ' ', ' '] ++
      ("max".data ++ ':' :: ' ' :: v.data))
    (hv : trimStable v = true) :
    processLine st l =
      ⟨{ st.e with single := some { st.e.single.getD ⟨0, 0⟩ with
          max := (asIntScalar v).getD 0 } }, .singleC⟩ := by
  obtain ⟨e0, ctx0⟩ := st
  unfold processLine
  rw [hl]
  dsimp only
  rw [takeWhile_sp_key _ _ _ (by intro a ha; simp at ha; simp [ha])
    ⟨'m', ['a', 'x'], rfl, by decide⟩]
  rw [if_neg (by decide), if_neg (by decide), if_pos (by decide)]
  rw [List.drop_left]
  have hsk : splitKeyValue ("max".data ++ ':' :: ' ' :: v.data) =
      some ("max", String.mk (trimChars (' ' :: v.data))) :=
    splitKeyValue_calc "max" _ (by decide)
  rw [trimChars_space, trimStable_id v hv] at hsk
  have hmk : String.mk v.data = v := rfl
  rw [hmk] at hsk
  simp only at hctx
  subst hctx
  dsimp only
  rw [hsk]
  rfl

/-- The indent-8 bare `min:` line in a capping-ranges context. -/
theorem processLine_capmin_open (st : PState)
    (hctx : st.ctx = .capRanges ∨ st.ctx = .capRangesMin ∨ st.ctx = .capRangesMax) :
    processLine st "        min:" = ⟨st.e, .capRangesMin⟩ := by
  obtain ⟨e0, ctx0⟩ := st
  simp only at hctx
  rcases hctx with hc | hc | hc <;> subst hc <;> rfl

/-- The indent-8 bare `max:` line in a capping-ranges context. -/
theorem processLine_capmax_open (st : PState)
    (hctx : st.ctx = .capRanges ∨ st.ctx = .capRangesMin ∨ st.ctx = .capRangesMax) :
    processLine st "        max:" = ⟨st.e, .capRangesMax⟩ := by
  obtain ⟨e0, ctx0⟩ := st
  simp only at hctx
  rcases hctx with hc | hc | hc <;> subst hc <;> rfl

/-- An indent-10 bound line in the capping-ranges-min context. -/
theorem processLine_capmin_bound (st : PState) (k v l : String)
    (hctx : st.ctx = .capRangesMin)
    (hl : l.data = [' ', ' ', ' ', ' ', ' ', ' ', ' ', ' ', ' ', ' '] ++
      (k.data ++ ':' :: ' ' :: v.data))
    (hk : ∀ c ∈ k.data, (c == ':') = false)
    (hkh : ∃ c cs, k.data = c :: cs ∧ (c == ' ') = false)
    (hv : trimStable v = true) :
    processLine st l =
      (if k == "lower_bound" then
        ⟨{ st.e with ranges := some { st.e.ranges.getD ⟨0, 0, 0, 0⟩ with
            minLowerBound := (asIntScalar v).getD 0 } }, .capRangesMin⟩
      else if k == "upper_bound" then
        ⟨{ st.e with ranges := some { st.e.ranges.getD ⟨0, 0, 0, 0⟩ with
            minUpperBound := (asIntScalar v).getD 0 } }, .capRangesMin⟩
      else st) := by
  obtain ⟨e0, ctx0⟩ := st
  unfold processLine
  rw [hl]
  dsimp only
  rw [takeWhile_sp_key _ _ _ (by intro a ha; simp at ha; simp [ha]) hkh]
  rw [if_neg (by decide), if_neg (by decide), if_neg (by decide), if_pos (by decide)]
  rw [List.drop_left]
  have hsk : splitKeyValue (k.data ++ ':' :: ' ' :: v.data) =
      some (k, String.mk (trimChars (' ' :: v.data))) := splitKeyValue_calc k _ hk
  rw [trimChars_space, trimStable_id v hv] at hsk
  have hmk : String.mk v.data = v := rfl
  rw [hmk] at hsk
  simp only at hctx
  subst hctx
  dsimp only
  rw [hsk]

/-- An indent-10 bound line in the capping-ranges-max context. -/
theorem processLine_capmax_bound (st : PState) (k v l : String)
    (hctx : st.ctx = .capRangesMax)
    (hl : l.data = [' ', ' ', ' ', ' ', ' ', ' ', ' ', ' ', ' ', ' '] ++
      (k.data ++ ':' :: ' ' :: v.data))
    (hk : ∀ c ∈ k.data, (c == ':') = false)
    (hkh : ∃ c cs, k.data = c :: cs ∧ (c == ' ') = false)
    (hv : trimStable v = true) :
    processLine st l =
      (if k == "lower_bound" then
        ⟨{ st.e with ranges := some { st.e.ranges.getD ⟨0, 0, 0, 0⟩ with
            maxLowerBound := (asIntScalar v).getD 0 } }, .capRangesMax⟩
      else if k == "upper_bound" then
        ⟨{ st.e with ranges := some { st.e.ranges.getD ⟨0, 0, 0, 0⟩ with
            maxUpperBound := (asIntScalar v).getD 0 } }, .capRangesMax⟩
      else st) := by
  obtain ⟨e0, ctx0⟩ := st
  unfold processLine
  rw [hl]
  dsimp only
  rw [takeWhile_sp_key _ _ _ (by intro a ha; simp at ha; simp [ha]) hkh]
  rw [if_neg (by decide), if_neg (by decide), if_neg (by decide), if_pos (by decide)]
  rw [List.drop_left]
  have hsk : splitKeyValue (k.data ++ ':' :: ' ' :: v.data) =
      some (k, String.mk (trimChars (' ' :: v.data))) := splitKeyValue_calc k _ hk
  rw [trimChars_space, trimStable_id v hv] at hsk
  have hmk : String.mk v.data = v := rfl
  rw [hmk] at hsk
  simp only at hctx
  subst hctx
  dsimp only
  rw [hsk]

/-- Replacing an entry's conditions with their own value changes nothing. -/
theorem setConds_eq_self (e : FlatEntry) (c : Option CondMap) (h : e.conditions = c) :
    { e with conditions := c } = e := by rw [← h]

/-- The data of an emitted indent-8 key/value line. -/
theorem line8_data (k w : String) :
    ("        " ++ k ++ ": " ++ w).data =
      [' ', ' ', ' ', ' ', ' ', ' ', ' ', ' '] ++ (k.data ++ ':' :: ' ' :: w.data) := by
  rw [String.data_append, String.data_append, String.data_append]
  rw [show ("        " : String).data = [' ', ' ', ' ', ' ', ' ', ' ', ' ', ' '] by decide]
  rw [show (": " : String).data = [':', ' '] by decide]
  simp

/-- The data of an emitted indent-8 bare-key line. -/
theorem line8open_data (k : String) :
    ("        " ++ k ++ ":").data =
      [' ', ' ', ' ', ' ', ' ', ' ', ' ', ' '] ++ (k.data ++ [':']) := by
  rw [String.data_append, String.data_append]
  rw [show ("        " : String).data = [' ', ' ', ' ', ' ', ' ', ' ', ' ', ' '] by decide]
  rw [show (":" : String).data = [':'] by decide]
  simp

/-- The data of an emitted indent-10 sequence-item line. -/
theorem line10_data (x : String) :
    ("          - " ++ x).data =
      [' ', ' ', ' ', ' ', ' ', ' ', ' ', ' ', ' ', ' '] ++ ('-' :: ' ' :: x.data) := by
  rw [String.data_append]
  rw [show ("          - " : String).data =
    [' ', ' ', ' ', ' ', ' ', ' ', ' ', ' ', ' ', ' ', '-', ' '] by decide]
  simp

/-- The components of a well-formed condition key. -/
theorem condKeyWF_parts (k : String) (h : condKeyWF k = true) :
    (∃ c cs, k.data = c :: cs ∧ (c == ' ') = false) ∧
      (∀ c ∈ k.data, (c == ':') = false) ∧ startsWithStr k "_" = false := by
  unfold condKeyWF at h
  simp only [Bool.and_eq_true] at h
  obtain ⟨⟨h1, h2⟩, h3⟩ := h
  refine ⟨?_, ?_, by simpa using h3⟩
  · rcases hk : k.data with _ | ⟨c, cs⟩
    · rw [hk] at h1
      cases h1
    · rw [hk] at h1
      simp only [Bool.and_eq_true] at h1
      exact ⟨c, cs, rfl, by simpa using h1.1⟩
  · intro c hc
    rw [List.all_eq_true] at h2
    have := h2 c hc
    simp only [Bool.and_eq_true] at this
    simpa using this.1

/-- Folding the emitted items of an open array appends them in order. -/
theorem foldl_arr_items (k : String) (xs : List String)
    (hxs : ∀ x ∈ xs, trimStable x = true) :
    ∀ (e : FlatEntry) (acc : CondMap) (ys : List String),
      (∀ p ∈ acc, (p.1 == k) = false) →
      e.conditions = some (acc ++ [(k, .arr ys)]) →
      (xs.map (fun x => "          - " ++ x)).foldl processLine ⟨e, .condList k⟩ =
        ⟨{ e with conditions := some (acc ++ [(k, .arr (ys ++ xs))]) }, .condList k⟩ := by
  induction xs with
  | nil =>
    intro e acc ys hdisj he
    simp only [List.map_nil, List.foldl_nil, List.append_nil]
    rw [setConds_eq_self e _ he]
  | cons x xs ih =>
    intro e acc ys hdisj he
    rw [List.map_cons, List.foldl_cons]
    rw [processLine_i10_item ⟨e, .condList k⟩ k x _ rfl (line10_data x) (hxs x (by simp))]
    have hstep : appendCondItem e k x =
        { e with conditions := some (acc ++ [(k, .arr (ys ++ [x]))]) } := by
      unfold appendCondItem
      rw [he]
      simp only [Option.getD_some]
      rw [List.map_append]
      rw [List.map_congr_left (fun p hp => by rw [if_neg (by simp [hdisj p hp])])]
      simp
    rw [hstep]
    have hres := ih (fun y hy => hxs y (by simp [hy]))
      { e with conditions := some (acc ++ [(k, .arr (ys ++ [x]))]) } acc (ys ++ [x])
      hdisj rfl
    rw [hres]
    simp [List.append_assoc]

/-- One scalar condition pair's emitted line appends the parsed pair. -/
theorem foldl_cond_scalar_step (k : String) (v : CondVal) (ps : CondMap)
    (e : FlatEntry) (acc : CondMap) (ctx : PCtx)
    (hctx : ctx = .conds ∨ ∃ k0, ctx = .condList k0)
    (hkwf : condKeyWF k = true) (hvwf : condValWF v = true)
    (harr : ∀ xs, v ≠ .arr xs)
    (hgetd : e.conditions.getD [] = acc) :
    (condLines ((k, v) :: ps)).foldl processLine ⟨e, ctx⟩ =
      (condLines ps).foldl processLine
        ⟨{ e with conditions := some (acc ++ [(k, v)]) }, .conds⟩ := by
  obtain ⟨hkh, hkc, hku⟩ := condKeyWF_parts k hkwf
  have hline : condLines ((k, v) :: ps) =
      ("        " ++ k ++ ": " ++ condValString v) :: condLines ps := by
    rcases v with n | b | s | xs | _
    · simp [condLines, hku]
    · simp [condLines, hku]
    · simp [condLines, hku]
    · exact absurd rfl (harr xs)
    · simp [condLines, hku]
  rw [hline, List.foldl_cons]
  rw [processLine_i8_scalar ⟨e, ctx⟩ k (condValString v) _ hctx
    (line8_data k (condValString v)) hkc hkh
    (trimStable_condVal v hvwf harr) (condValString_ne_empty v hvwf harr)]
  rw [parseScalar_condVal v hvwf harr]
  have happ : appendCond e k v = { e with conditions := some (acc ++ [(k, v)]) } := by
    unfold appendCond
    rw [hgetd]
  rw [happ]

/-- Folding the emitted lines of a well-formed conditions map appends its
pairs to the entry's conditions, staying in a conditions context. -/
theorem foldl_condLines (m : CondMap) :
    ∀ (e : FlatEntry) (acc : CondMap) (ctx : PCtx),
      (∀ p ∈ m, condPairWF p = true) →
      (((acc ++ m).map Prod.fst).Nodup) →
      (ctx = .conds ∨ ∃ k0, ctx = .condList k0) →
      (e.conditions = some acc ∨ (e.conditions = none ∧ acc = [] ∧ m ≠ [])) →
      ∃ ctx2, (ctx2 = .conds ∨ ∃ k0, ctx2 = .condList k0) ∧
        (condLines m).foldl processLine ⟨e, ctx⟩ =
          ⟨{ e with conditions := some (acc ++ m) }, ctx2⟩ := by
  induction m with
  | nil =>
    intro e acc ctx hwf hnd hctx he
    rcases he with he | ⟨-, -, hm⟩
    · refine ⟨ctx, hctx, ?_⟩
      simp only [condLines, List.flatMap_nil, List.foldl_nil, List.append_nil]
      rw [setConds_eq_self e _ he]
    · exact absurd rfl hm
  | cons p ps ih =>
    intro e acc ctx hwf hnd hctx he
    obtain ⟨k, v⟩ := p
    have hpwf := hwf (k, v) (by simp)
    unfold condPairWF at hpwf
    rw [Bool.and_eq_true] at hpwf
    obtain ⟨hkh, hkc, hku⟩ := condKeyWF_parts k hpwf.1
    have hgetd : e.conditions.getD [] = acc := by
      rcases he with he | ⟨he, hacc, -⟩
      · rw [he]; rfl
      · rw [he, hacc]; rfl
    have hnd2 : ((acc ++ [(k, v)]) ++ ps).map Prod.fst |>.Nodup := by
      rw [List.append_assoc]
      exact hnd
    by_cases hva : ∃ xs, v = .arr xs
    · obtain ⟨xs, rfl⟩ := hva
      have hline : condLines ((k, .arr xs) :: ps) =
          ("        " ++ k ++ ":") :: (xs.map (fun x => "          - " ++ x) ++
            condLines ps) := by
        simp [condLines, hku]
      rw [hline, List.foldl_cons]
      rw [processLine_i8_arr ⟨e, ctx⟩ k _ hctx (line8open_data k) hkc hkh]
      have happ : appendCond e k (.arr []) =
          { e with conditions := some (acc ++ [(k, .arr [])]) } := by
        unfold appendCond
        rw [hgetd]
      rw [happ, List.foldl_append]
      have hdisj : ∀ p ∈ acc, (p.1 == k) = false := by
        intro p hp
        rw [List.map_append, List.nodup_append] at hnd
        have hnot := hnd.2.2 (List.mem_map_of_mem Prod.fst hp)
        rw [beq_eq_false_iff_ne]
        intro hcontra
        apply hnot
        rw [hcontra]
        simp
      have hitems := foldl_arr_items k xs
        (by
          intro x hx
          have h2 := hpwf.2
          unfold condValWF at h2
          rw [List.all_eq_true] at h2
          have h3 := h2 x hx
          rw [Bool.and_eq_true] at h3
          exact h3.1)
        { e with conditions := some (acc ++ [(k, .arr [])]) } acc []
        hdisj rfl
      rw [hitems]
      simp only [List.nil_append]
      have hres := ih { e with conditions := some (acc ++ [(k, CondVal.arr xs)]) }
        (acc ++ [(k, CondVal.arr xs)]) (.condList k)
        (fun p hp => hwf p (by simp [hp]))
        hnd2 (Or.inr ⟨k, rfl⟩) (Or.inl rfl)
      obtain ⟨ctx2, hctx2, hres⟩ := hres
      refine ⟨ctx2, hctx2, ?_⟩
      have hfinal : (condLines ps).foldl processLine
          ⟨{ e with conditions := some (acc ++ [(k, CondVal.arr xs)]) }, .condList k⟩ =
          ⟨{ e with conditions := some (acc ++ (k, CondVal.arr xs) :: ps) }, ctx2⟩ := by
        rw [hres]
        have hassoc : (acc ++ [(k, CondVal.arr xs)]) ++ ps =
            acc ++ (k, CondVal.arr xs) :: ps := by
          simp [List.append_assoc]
        rw [hassoc]
      exact hfinal
    · push_neg at hva
      rw [foldl_cond_scalar_step k v ps e acc ctx hctx hpwf.1 hpwf.2
        (fun xs => hva xs) hgetd]
      have hres := ih { e with conditions := some (acc ++ [(k, v)]) }
        (acc ++ [(k, v)]) .conds
        (fun p hp => hwf p (by simp [hp]))
        hnd2 (Or.inl rfl) (Or.inl rfl)
      obtain ⟨ctx2, hctx2, hres⟩ := hres
      refine ⟨ctx2, hctx2, ?_⟩
      have hfinal : (condLines ps).foldl processLine
          ⟨{ e with conditions := some (acc ++ [(k, v)]) }, .conds⟩ =
          ⟨{ e with conditions := some (acc ++ (k, v) :: ps) }, ctx2⟩ := by
        rw [hres]
        have hassoc : (acc ++ [(k, v)]) ++ ps = acc ++ (k, v) :: ps := by
          simp [List.append_assoc]
        rw [hassoc]
      exact hfinal

/-- Folding an emitted conditions block materialises exactly the nonempty
conditions, leaving an absent or empty conditions object as `none`. -/
theorem parse_condBlock (eSrc : FlatEntry) (e : FlatEntry) (he : e.conditions = none)
    (hwf : ∀ m, eSrc.conditions = some m → (∀ p ∈ m, condPairWF p = true) ∧
      ((m.map Prod.fst).Nodup)) :
    ∃ ctx2, (condBlockLines eSrc).foldl processLine ⟨e, .top⟩ =
      ⟨{ e with conditions :=
          match eSrc.conditions with
          | some [] => none
          | some m => some m
          | none => none }, ctx2⟩ := by
  rcases hc : eSrc.conditions with _ | m
  · refine ⟨.top, ?_⟩
    unfold condBlockLines
    rw [hc]
    simp only [List.foldl_nil]
    rw [setConds_eq_self e _ (by rw [he])]
  · unfold condBlockLines
    rw [hc]
    rw [List.foldl_cons, processLine_conds_open]
    rcases m with _ | ⟨p, ps⟩
    · refine ⟨.conds, ?_⟩
      simp only [condLines, List.flatMap_nil, List.foldl_nil]
      rw [setConds_eq_self e _ (by rw [he])]
    · obtain ⟨hpwf, hnd⟩ := hwf (p :: ps) hc
      obtain ⟨ctx2, -, hres⟩ := foldl_condLines (p :: ps) e [] .conds hpwf
        (by simpa using hnd) (Or.inl rfl) (Or.inr ⟨he, rfl, by simp⟩)
      refine ⟨ctx2, ?_⟩
      rw [hres]
      simp

/-- Field dispatch of the item-map reader. -/
theorem setTopField_format (e : FlatEntry) (v : String) :
    setTopField e "format" v = { e with format := asStrScalar v } := rfl

/-- Field dispatch of the item-map reader. -/
theorem setTopField_delivery (e : FlatEntry) (v : String) :
    setTopField e "delivery_option" v = { e with delivery_option := asStrScalar v } := rfl

/-- Field dispatch of the item-map reader. -/
theorem setTopField_strategy (e : FlatEntry) (v : String) :
    setTopField e "strategy" v = { e with strategy := asStrScalar v } := rfl

/-- Field dispatch of the item-map reader. -/
theorem setTopField_lower (e : FlatEntry) (v : String) :
    setTopField e "lower_bound" v = { e with lower_bound := asIntScalar v } := rfl

/-- Field dispatch of the item-map reader. -/
theorem setTopField_upper (e : FlatEntry) (v : String) :
    setTopField e "upper_bound" v = { e with upper_bound := asIntScalar v } := rfl

/-- A rendered optional integer is trim-stable. -/
theorem trimStable_intOpt (o : Option Int) : trimStable (intOptString o) = true := by
  rcases o with _ | n
  · decide
  · exact trimStable_intRepr n

/-- A rendered optional integer is nonempty. -/
theorem intOpt_ne_empty (o : Option Int) : (intOptString o == "") = false := by
  rcases o with _ | n
  · decide
  · exact intRepr_ne_empty n

/-- A plain string is trim-stable. -/
theorem trimStable_of_plain (s : String) (h : plainStr s = true) : trimStable s = true := by
  unfold plainStr at h
  simp only [Bool.and_eq_true] at h
  exact h.1.1.1.1

/-- Parsing an emitted display-format item chunk reconstructs the entry's
logical content. -/
theorem parseItem_df (eSrc : FlatEntry) (f : String)
    (hf : eSrc.format = some f) (hpf : plainStr f = true)
    (h1 : eSrc.delivery_option = none) (h2 : eSrc.lower_bound = none)
    (h3 : eSrc.upper_bound = none) (h4 : eSrc.strategy = none)
    (h5 : eSrc.single = none) (h6 : eSrc.ranges = none)
    (hwf : ∀ m, eSrc.conditions = some m → (∀ p ∈ m, condPairWF p = true) ∧
      ((m.map Prod.fst).Nodup)) :
    parseItemChunk (("    - format: " ++ scalarOptString eSrc.format) ::
        condBlockLines eSrc) =
      dropTitleNormConds eSrc := by
  obtain ⟨fo, dO, lb, ub, st, sg, rg, c, t⟩ := eSrc
  simp only at hf h1 h2 h3 h4 h5 h6
  subst hf h1 h2 h3 h4 h5 h6
  unfold parseItemChunk
  rw [List.foldl_cons]
  have hl : ("    - format: " ++ scalarOptString (some f)).data =
      [' ', ' ', ' ', ' '] ++ '-' :: ' ' ::
        ("format".data ++ ':' :: ' ' :: f.data) := by
    rw [show scalarOptString (some f) = f from rfl, String.data_append]
    rw [show ("    - format: " : String).data =
      [' ', ' ', ' ', ' ', '-', ' ', 'f', 'o', 'r', 'm', 'a', 't', ':', ' '] by decide]
    rfl
  rw [processLine_i4 ⟨{}, .top⟩ "format" f _ hl (by decide)
    (trimStable_of_plain f hpf)]
  rw [setTopField_format, asStrScalar_plain f hpf]
  obtain ⟨ctx2, hcb⟩ := parse_condBlock
    ⟨some f, none, none, none, none, none, none, c, t⟩
    ⟨some f, none, none, none, none, none, none, none, none⟩ rfl hwf
  rw [hcb]
  unfold dropTitleNormConds
  rcases c with _ | ⟨_ | ⟨p, ps⟩⟩ <;> rfl

/-- Parsing an emitted rounding item chunk reconstructs the entry's logical
content. -/
theorem parseItem_rounding (eSrc : FlatEntry) (s : String)
    (hs : eSrc.strategy = some s) (hps : plainStr s = true)
    (h1 : eSrc.delivery_option = none) (h2 : eSrc.lower_bound = none)
    (h3 : eSrc.upper_bound = none) (h4 : eSrc.format = none)
    (h5 : eSrc.single = none) (h6 : eSrc.ranges = none)
    (h7 : eSrc.conditions = none) :
    parseItemChunk ["    - strategy: " ++ scalarOptString eSrc.strategy] =
      dropTitleNormConds eSrc := by
  obtain ⟨fo, dO, lb, ub, st, sg, rg, c, t⟩ := eSrc
  simp only at hs h1 h2 h3 h4 h5 h6 h7
  subst hs h1 h2 h3 h4 h5 h6 h7
  unfold parseItemChunk
  rw [List.foldl_cons]
  have hl : ("    - strategy: " ++ scalarOptString (some s)).data =
      [' ', ' ', ' ', ' '] ++ '-' :: ' ' ::
        ("strategy".data ++ ':' :: ' ' :: s.data) := by
    rw [show scalarOptString (some s) = s from rfl, String.data_append]
    rw [show ("    - strategy: " : String).data =
      [' ', ' ', ' ', ' ', '-', ' ', 's', 't', 'r', 'a', 't', 'e', 'g', 'y', ':', ' ']
      by decide]
    rfl
  rw [processLine_i4 ⟨{}, .top⟩ "strategy" s _ hl (by decide)
    (trimStable_of_plain s hps)]
  rw [setTopField_strategy, asStrScalar_plain s hps]
  rfl

/-- Parsing an emitted ranges item chunk reconstructs the entry's logical
content. -/
theorem parseItem_ranges (eSrc : FlatEntry) (d : String)
    (hd : eSrc.delivery_option = some d) (hpd : plainStr d = true)
    (h1 : eSrc.format = none) (h2 : eSrc.strategy = none)
    (h3 : eSrc.single = none) (h4 : eSrc.ranges = none)
    (hwf : ∀ m, eSrc.conditions = some m → (∀ p ∈ m, condPairWF p = true) ∧
      ((m.map Prod.fst).Nodup)) :
    parseItemChunk (("    - delivery_option: " ++ scalarOptString eSrc.delivery_option) ::
        ("      lower_bound: " ++ intOptString eSrc.lower_bound) ::
        ("      upper_bound: " ++ intOptString eSrc.upper_bound) ::
        condBlockLines eSrc) =
      dropTitleNormConds eSrc := by
  obtain ⟨fo, dO, lb, ub, st, sg, rg, c, t⟩ := eSrc
  simp only at hd h1 h2 h3 h4
  subst hd h1 h2 h3 h4
  unfold parseItemChunk
  rw [List.foldl_cons]
  have hl1 : ("    - delivery_option: " ++ scalarOptString (some d)).data =
      [' ', ' ', ' ', ' '] ++ '-' :: ' ' ::
        ("delivery_option".data ++ ':' :: ' ' :: d.data) := by
    rw [show scalarOptString (some d) = d from rfl, String.data_append]
    rw [show ("    - delivery_option: " : String).data =
      [' ', ' ', ' ', ' ', '-', ' ', 'd', 'e', 'l', 'i', 'v', 'e', 'r', 'y', '_',
       'o', 'p', 't', 'i', 'o', 'n', ':', ' '] by decide]
    rfl
  rw [processLine_i4 ⟨{}, .top⟩ "delivery_option" d _ hl1 (by decide)
    (trimStable_of_plain d hpd)]
  rw [setTopField_delivery, asStrScalar_plain d hpd]
  rw [List.foldl_cons]
  have hl2 : ("      lower_bound: " ++ intOptString lb).data =
      [' ', ' ', ' ', ' ', ' ', ' '] ++
        ("lower_bound".data ++ ':' :: ' ' :: (intOptString lb).data) := by
    rw [String.data_append]
    rw [show ("      lower_bound: " : String).data =
      [' ', ' ', ' ', ' ', ' ', ' ', 'l', 'o', 'w', 'e', 'r', '_', 'b', 'o', 'u',
       'n', 'd', ':', ' '] by decide]
    rfl
  rw [processLine_i6 _ "lower_bound" (intOptString lb) _ hl2 (by decide)
    ⟨'l', "ower_bound".data, by decide, by decide⟩
    (trimStable_intOpt lb) (intOpt_ne_empty lb)]
  rw [setTopField_lower, asIntScalar_intOpt]
  rw [List.foldl_cons]
  have hl3 : ("      upper_bound: " ++ intOptString ub).data =
      [' ', ' ', ' ', ' ', ' ', ' '] ++
        ("upper_bound".data ++ ':' :: ' ' :: (intOptString ub).data) := by
    rw [String.data_append]
    rw [show ("      upper_bound: " : String).data =
      [' ', ' ', ' ', ' ', ' ', ' ', 'u', 'p', 'p', 'e', 'r', '_', 'b', 'o', 'u',
       'n', 'd', ':', ' '] by decide]
    rfl
  rw [processLine_i6 _ "upper_bound" (intOptString ub) _ hl3 (by decide)
    ⟨'u', "pper_bound".data, by decide, by decide⟩
    (trimStable_intOpt ub) (intOpt_ne_empty ub)]
  rw [setTopField_upper, asIntScalar_intOpt]
  obtain ⟨ctx2, hcb⟩ := parse_condBlock
    ⟨none, some d, lb, ub, none, none, none, c, t⟩
    ⟨none, some d, lb, ub, none, none, none, none, none⟩ rfl hwf
  rw [hcb]
  unfold dropTitleNormConds
  rcases c with _ | ⟨_ | ⟨p, ps⟩⟩ <;> rfl

/-- The emitted lines of a single-capping payload parse back to the payload. -/
theorem parse_singleBlock (sc : CapSingle) (st : PState) (hsg : st.e.single = none) :
    ["      single:", "        min: " ++ intRepr sc.min,
      "        max: " ++ intRepr sc.max].foldl processLine st =
      ⟨{ st.e with single := some sc }, .singleC⟩ := by
  rw [List.foldl_cons, processLine_single_open]
  rw [List.foldl_cons]
  have hl1 : ("        min: " ++ intRepr sc.min).data =
      [' ', ' ', ' ', ' ', ' ', ' ', ' ', ' '] ++
        ("min".data ++ ':' :: ' ' :: (intRepr sc.min).data) := by
    rw [String.data_append]
    rw [show ("        min: " : String).data =
      [' ', ' ', ' ', ' ', ' ', ' ', ' ', ' ', 'm', 'i', 'n', ':', ' '] by decide]
    rfl
  rw [processLine_single_min _ (intRepr sc.min) _ rfl hl1 (trimStable_intRepr _)]
  rw [List.foldl_cons]
  have hl2 : ("        max: " ++ intRepr sc.max).data =
      [' ', ' ', ' ', ' ', ' ', ' ', ' ', ' '] ++
        ("max".data ++ ':' :: ' ' :: (intRepr sc.max).data) := by
    rw [String.data_append]
    rw [show ("        max: " : String).data =
      [' ', ' ', ' ', ' ', ' ', ' ', ' ', ' ', 'm', 'a', 'x', ':', ' '] by decide]
    rfl
  rw [processLine_single_max _ (intRepr sc.max) _ rfl hl2 (trimStable_intRepr _)]
  rw [List.foldl_nil]
  simp only [hsg, asIntScalar_intRepr]
  rfl

/-- The emitted lines of a ranges-capping payload parse back to the payload. -/
theorem parse_capRangesBlock (rc : CapRanges) (st : PState) (hrg : st.e.ranges = none) :
    ["      ranges:", "        min:",
      "          lower_bound: " ++ intRepr rc.minLowerBound,
      "          upper_bound: " ++ intRepr rc.minUpperBound,
      "        max:",
      "          lower_bound: " ++ intRepr rc.maxLowerBound,
      "          upper_bound: " ++ intRepr rc.maxUpperBound].foldl processLine st =
      ⟨{ st.e with ranges := some rc }, .capRangesMax⟩ := by
  rw [List.foldl_cons, processLine_capranges_open]
  rw [List.foldl_cons, processLine_capmin_open _ (Or.inl rfl)]
  have hlb : ∀ w : String, ("          lower_bound: " ++ w).data =
      [' ', ' ', ' ', ' ', ' ', ' ', ' ', ' ', ' ', ' '] ++
        ("lower_bound".data ++ ':' :: ' ' :: w.data) := by
    intro w
    rw [String.data_append]
    rw [show ("          lower_bound: " : String).data =
      [' ', ' ', ' ', ' ', ' ', ' ', ' ', ' ', ' ', ' ', 'l', 'o', 'w', 'e', 'r',
       '_', 'b', 'o', 'u', 'n', 'd', ':', ' '] by decide]
    rfl
  have hub : ∀ w : String, ("          upper_bound: " ++ w).data =
      [' ', ' ', ' ', ' ', ' ', ' ', ' ', ' ', ' ', ' '] ++
        ("upper_bound".data ++ ':' :: ' ' :: w.data) := by
    intro w
    rw [String.data_append]
    rw [show ("          upper_bound: " : String).data =
      [' ', ' ', ' ', ' ', ' ', ' ', ' ', ' ', ' ', ' ', 'u', 'p', 'p', 'e', 'r',
       '_', 'b', 'o', 'u', 'n', 'd', ':', ' '] by decide]
    rfl
  rw [List.foldl_cons, processLine_capmin_bound _ "lower_bound" _ _ rfl (hlb _)
    (by decide) ⟨'l', "ower_bound".data, by decide, by decide⟩ (trimStable_intRepr _)]
  rw [if_pos (by decide)]
  rw [List.foldl_cons, processLine_capmin_bound _ "upper_bound" _ _ rfl (hub _)
    (by decide) ⟨'u', "pper_bound".data, by decide, by decide⟩ (trimStable_intRepr _)]
  rw [if_neg (by decide), if_pos (by decide)]
  rw [List.foldl_cons, processLine_capmax_open _ (Or.inr (Or.inl rfl))]
  rw [List.foldl_cons, processLine_capmax_bound _ "lower_bound" _ _ rfl (hlb _)
    (by decide) ⟨'l', "ower_bound".data, by decide, by decide⟩ (trimStable_intRepr _)]
  rw [if_pos (by decide)]
  rw [List.foldl_cons, processLine_capmax_bound _ "upper_bound" _ _ rfl (hub _)
    (by decide) ⟨'u', "pper_bound".data, by decide, by decide⟩ (trimStable_intRepr _)]
  rw [if_neg (by decide), if_pos (by decide)]
  rw [List.foldl_nil]
  simp only [hrg, asIntScalar_intRepr]
  obtain ⟨rc1, rc2, rc3, rc4⟩ := rc
  rfl

/-- Parsing an emitted capping item chunk reconstructs the entry's logical
content. -/
theorem parseItem_capping (eSrc : FlatEntry) (d : String)
    (hd : eSrc.delivery_option = some d) (hpd : plainStr d = true)
    (h1 : eSrc.format = none) (h2 : eSrc.strategy = none)
    (h3 : eSrc.lower_bound = none) (h4 : eSrc.upper_bound = none)
    (hwf : ∀ m, eSrc.conditions = some m → (∀ p ∈ m, condPairWF p = true) ∧
      ((m.map Prod.fst).Nodup)) :
    parseItemChunk (("    - delivery_option: " ++ scalarOptString eSrc.delivery_option) ::
        (condBlockLines eSrc ++
          ((match eSrc.single with
            | some sc => ["      single:", "        min: " ++ intRepr sc.min,
                "        max: " ++ intRepr sc.max]
            | none => []) ++
           (match eSrc.ranges with
            | some rc => ["      ranges:", "        min:",
                "          lower_bound: " ++ intRepr rc.minLowerBound,
                "          upper_bound: " ++ intRepr rc.minUpperBound,
                "        max:",
                "          lower_bound: " ++ intRepr rc.maxLowerBound,
                "          upper_bound: " ++ intRepr rc.maxUpperBound]
            | none => [])))) =
      dropTitleNormConds eSrc := by
  obtain ⟨fo, dO, lb, ub, st, sg, rg, c, t⟩ := eSrc
  simp only at hd h1 h2 h3 h4
  subst hd h1 h2 h3 h4
  unfold parseItemChunk
  rw [List.foldl_cons]
  have hl1 : ("    - delivery_option: " ++ scalarOptString (some d)).data =
      [' ', ' ', ' ', ' '] ++ '-' :: ' ' ::
        ("delivery_option".data ++ ':' :: ' ' :: d.data) := by
    rw [show scalarOptString (some d) = d from rfl, String.data_append]
    rw [show ("    - delivery_option: " : String).data =
      [' ', ' ', ' ', ' ', '-', ' ', 'd', 'e', 'l', 'i', 'v', 'e', 'r', 'y', '_',
       'o', 'p', 't', 'i', 'o', 'n', ':', ' '] by decide]
    rfl
  rw [processLine_i4 ⟨{}, .top⟩ "delivery_option" d _ hl1 (by decide)
    (trimStable_of_plain d hpd)]
  rw [setTopField_delivery, asStrScalar_plain d hpd]
  rw [List.foldl_append]
  obtain ⟨ctx2, hcb⟩ := parse_condBlock
    ⟨none, some d, none, none, none, sg, rg, c, t⟩
    ⟨none, some d, none, none, none, none, none, none, none⟩ rfl hwf
  rw [hcb]
  rw [List.foldl_append]
  rcases sg with _ | sc <;> rcases rg with _ | rc
  · simp only [List.foldl_nil]
    unfold dropTitleNormConds
    rcases c with _ | ⟨_ | ⟨p, ps⟩⟩ <;> rfl
  · simp only [List.foldl_nil]
    rw [parse_capRangesBlock rc _ rfl]
    unfold dropTitleNormConds
    rcases c with _ | ⟨_ | ⟨p, ps⟩⟩ <;> rfl
  · simp only [List.foldl_nil]
    rw [parse_singleBlock sc _ rfl]
    unfold dropTitleNormConds
    rcases c with _ | ⟨_ | ⟨p, ps⟩⟩ <;> rfl
  · rw [parse_singleBlock sc _ rfl]
    rw [parse_capRangesBlock rc _ rfl]
    unfold dropTitleNormConds
    rcases c with _ | ⟨_ | ⟨p, ps⟩⟩ <;> rfl

/-- A line with indented non-comment content survives the comment filter. -/
theorem not_comment_line (sp : List Char) (c0 : Char) (rest : List Char) (l : String)
    (hl : l.data = sp ++ c0 :: rest) (hsp : ∀ c ∈ sp, (c == ' ') = true)
    (hc0 : (c0 == ' ') = false) (hc0h : (c0 == '#') = false) :
    isCommentOrBlank l = false := by
  unfold isCommentOrBlank
  rw [hl, dropWhile_append_all sp _ hsp, List.dropWhile_cons, hc0, if_neg (by simp)]
  simp [hc0h]

/-- A title comment line is dropped by the comment filter. -/
theorem comment_line_true (t : String) : isCommentOrBlank ("  # " ++ t) = true := by
  unfold isCommentOrBlank
  rw [String.data_append]
  rw [show ("  # " : String).data = [' ', ' '] ++ '#' :: ' ' :: [] from by decide]
  rw [List.append_assoc, dropWhile_append_all [' ', ' '] _ (by decide)]
  simp

/-- A prefix test refuted within known leading data. -/
theorem startsWithStr_data_false (l : String) (pre post : List Char) (P : String)
    (hl : l.data = pre ++ post) (hlen : P.data.length ≤ pre.length)
    (hval : isPrefixOfChars P.data pre = false) : startsWithStr l P = false := by
  unfold startsWithStr
  rw [hl, isPrefixOfChars_append _ _ _ hlen, hval]

/-- A prefix test settled within known leading data. -/
theorem startsWithStr_data_true (l : String) (pre post : List Char) (P : String)
    (hl : l.data = pre ++ post) (hlen : P.data.length ≤ pre.length)
    (hval : isPrefixOfChars P.data pre = true) : startsWithStr l P = true := by
  unfold startsWithStr
  rw [hl, isPrefixOfChars_append _ _ _ hlen, hval]

/-- Every emitted conditions line survives the comment filter. -/
theorem condLines_not_comment (m : CondMap) (hkeys : ∀ p ∈ m, condKeyWF p.1 = true) :
    ∀ l ∈ condLines m, isCommentOrBlank l = false := by
  intro l hl
  unfold condLines at hl
  rcases List.mem_flatMap.mp hl with ⟨p, hp, hlp⟩
  obtain ⟨⟨c0, cs, hkd, hc0sp⟩, -, hku⟩ := condKeyWF_parts p.1 (hkeys p hp)
  have hc0h : (c0 == '#') = false := by
    have h := hkeys p hp
    unfold condKeyWF at h
    simp only [Bool.and_eq_true] at h
    have h2 := h.1.1
    rw [hkd] at h2
    simp only [Bool.and_eq_true] at h2
    simpa using h2.2
  rw [hku] at hlp
  rw [if_neg (show ¬(false = true) from by simp)] at hlp
  rcases hv : p.2 with n | b | s | xs | _ <;> rw [hv] at hlp
  · simp only [List.mem_singleton] at hlp
    subst hlp
    exact not_comment_line [' ', ' ', ' ', ' ', ' ', ' ', ' ', ' '] c0
      (cs ++ ':' :: ' ' :: (condValString (.int n)).data) _
      (by rw [line8_data, hkd]; simp) (by decide) hc0sp hc0h
  · simp only [List.mem_singleton] at hlp
    subst hlp
    exact not_comment_line [' ', ' ', ' ', ' ', ' ', ' ', ' ', ' '] c0
      (cs ++ ':' :: ' ' :: (condValString (.bool b)).data) _
      (by rw [line8_data, hkd]; simp) (by decide) hc0sp hc0h
  · simp only [List.mem_singleton] at hlp
    subst hlp
    exact not_comment_line [' ', ' ', ' ', ' ', ' ', ' ', ' ', ' '] c0
      (cs ++ ':' :: ' ' :: (condValString (.str s)).data) _
      (by rw [line8_data, hkd]; simp) (by decide) hc0sp hc0h
  · rcases List.mem_cons.mp hlp with hlp | hlp
    · subst hlp
      exact not_comment_line [' ', ' ', ' ', ' ', ' ', ' ', ' ', ' '] c0
        (cs ++ [':']) _ (by rw [line8open_data, hkd]; simp) (by decide) hc0sp hc0h
    · rcases List.mem_map.mp hlp with ⟨x, -, hxl⟩
      subst hxl
      exact not_comment_line [' ', ' ', ' ', ' ', ' ', ' ', ' ', ' ', ' ', ' '] '-'
        (' ' :: x.data) _ (by rw [line10_data]) (by decide) (by decide) (by decide)
  · simp only [List.mem_singleton] at hlp
    subst hlp
    exact not_comment_line [' ', ' ', ' ', ' ', ' ', ' ', ' ', ' '] c0
      (cs ++ ':' :: ' ' :: (condValString .nan).data) _
      (by rw [line8_data, hkd]; simp) (by decide) hc0sp hc0h

/-- The conditions block survives the comment filter. -/
theorem condBlock_not_comment (e : FlatEntry)
    (hkeys : ∀ m, e.conditions = some m → ∀ p ∈ m, condKeyWF p.1 = true) :
    ∀ l ∈ condBlockLines e, isCommentOrBlank l = false := by
  intro l hl
  unfold condBlockLines at hl
  rcases hc : e.conditions with _ | m <;> rw [hc] at hl
  · cases hl
  · rcases List.mem_cons.mp hl with hl | hl
    · subst hl
      decide
    · exact condLines_not_comment m (hkeys m hc) l hl

/-- The title comment block is dropped by the comment filter. -/
theorem filter_titleComment (e : FlatEntry) :
    (titleCommentLines e).filter (fun l => !(isCommentOrBlank l)) = [] := by
  unfold titleCommentLines
  by_cases h : truthyStr e.title_ = true
  · rw [if_pos h]
    simp [List.filter_cons, comment_line_true]
  · rw [if_neg h]
    rfl

/-- Lines failing the head predicate accumulate into the open prefix. -/
theorem splitChunksAux_nohead (p : String → Bool) (tl rest : List String)
    (h : ∀ l ∈ tl, p l = false) :
    splitChunksAux p (tl ++ rest) =
      (tl ++ (splitChunksAux p rest).1, (splitChunksAux p rest).2) := by
  induction tl with
  | nil => simp
  | cons x xs ih =>
    rw [List.cons_append]
    rw [show splitChunksAux p (x :: (xs ++ rest)) =
      (if p x = true then
        ([], (x :: (splitChunksAux p (xs ++ rest)).1) :: (splitChunksAux p (xs ++ rest)).2)
      else (x :: (splitChunksAux p (xs ++ rest)).1, (splitChunksAux p (xs ++ rest)).2))
      from rfl]
    rw [h x (by simp), if_neg (by simp), ih (fun l hl => h l (by simp [hl]))]
    simp

/-- Splitting a flattened list of well-headed chunks recovers the chunks. -/
theorem splitChunksAux_flat (p : String → Bool) (chunks : List (List String))
    (h : ∀ cnk ∈ chunks, ∃ hd tl, cnk = hd :: tl ∧ p hd = true ∧ ∀ l ∈ tl, p l = false) :
    splitChunksAux p (chunks.flatMap (fun cnk => cnk)) = ([], chunks) := by
  induction chunks with
  | nil => rfl
  | cons cnk rest ih =>
    obtain ⟨hd, tl, rfl, hhd, htl⟩ := h cnk (by simp)
    rw [List.flatMap_cons, List.cons_append]
    rw [show splitChunksAux p (hd :: (tl ++ rest.flatMap (fun cnk => cnk))) =
      (if p hd = true then
        ([], (hd :: (splitChunksAux p (tl ++ rest.flatMap (fun cnk => cnk))).1) ::
          (splitChunksAux p (tl ++ rest.flatMap (fun cnk => cnk))).2)
      else (hd :: (splitChunksAux p (tl ++ rest.flatMap (fun cnk => cnk))).1,
        (splitChunksAux p (tl ++ rest.flatMap (fun cnk => cnk))).2)) from rfl]
    rw [hhd, if_pos rfl]
    rw [splitChunksAux_nohead p tl _ htl]
    rw [ih (fun c hc => h c (by simp [hc]))]
    simp

/-- Splitting a flattened list of well-headed chunks recovers the chunks. -/
theorem splitChunks_flat (p : String → Bool) (chunks : List (List String))
    (h : ∀ cnk ∈ chunks, ∃ hd tl, cnk = hd :: tl ∧ p hd = true ∧ ∀ l ∈ tl, p l = false) :
    splitChunks p (chunks.flatMap (fun cnk => cnk)) = chunks := by
  unfold splitChunks
  rw [splitChunksAux_flat p chunks h]

/-- The display-format format line survives the comment filter. -/
theorem fmt_line_not_comment (w : String) :
    isCommentOrBlank ("    - format: " ++ w) = false := by
  apply not_comment_line [' ', ' ', ' ', ' '] '-'
    (' ' :: ("format".data ++ ':' :: ' ' :: w.data)) _ ?_ (by decide) (by decide) (by decide)
  rw [String.data_append]
  rw [show ("    - format: " : String).data =
    [' ', ' ', ' ', ' ', '-', ' ', 'f', 'o', 'r', 'm', 'a', 't', ':', ' '] by decide]
  rfl

/-- The delivery-option line survives the comment filter. -/
theorem delivery_line_not_comment (w : String) :
    isCommentOrBlank ("    - delivery_option: " ++ w) = false := by
  apply not_comment_line [' ', ' ', ' ', ' '] '-'
    (' ' :: ("delivery_option".data ++ ':' :: ' ' :: w.data)) _ ?_ (by decide) (by decide)
    (by decide)
  rw [String.data_append]
  rw [show ("    - delivery_option: " : String).data =
    [' ', ' ', ' ', ' ', '-', ' ', 'd', 'e', 'l', 'i', 'v', 'e', 'r', 'y', '_',
     'o', 'p', 't', 'i', 'o', 'n', ':', ' '] by decide]
  rfl

/-- The strategy line survives the comment filter. -/
theorem strategy_line_not_comment (w : String) :
    isCommentOrBlank ("    - strategy: " ++ w) = false := by
  apply not_comment_line [' ', ' ', ' ', ' '] '-'
    (' ' :: ("strategy".data ++ ':' :: ' ' :: w.data)) _ ?_ (by decide) (by decide)
    (by decide)
  rw [String.data_append]
  rw [show ("    - strategy: " : String).data =
    [' ', ' ', ' ', ' ', '-', ' ', 's', 't', 'r', 'a', 't', 'e', 'g', 'y', ':', ' ']
    by decide]
  rfl

/-- The bound lines survive the comment filter. -/
theorem lower_line_not_comment (w : String) :
    isCommentOrBlank ("      lower_bound: " ++ w) = false := by
  apply not_comment_line [' ', ' ', ' ', ' ', ' ', ' '] 'l'
    ("ower_bound".data ++ ':' :: ' ' :: w.data) _ ?_ (by decide) (by decide) (by decide)
  rw [String.data_append]
  rw [show ("      lower_bound: " : String).data =
    [' ', ' ', ' ', ' ', ' ', ' ', 'l', 'o', 'w', 'e', 'r', '_', 'b', 'o', 'u', 'n',
     'd', ':', ' '] by decide]
  rfl

/-- The bound lines survive the comment filter. -/
theorem upper_line_not_comment (w : String) :
    isCommentOrBlank ("      upper_bound: " ++ w) = false := by
  apply not_comment_line [' ', ' ', ' ', ' ', ' ', ' '] 'u'
    ("pper_bound".data ++ ':' :: ' ' :: w.data) _ ?_ (by decide) (by decide) (by decide)
  rw [String.data_append]
  rw [show ("      upper_bound: " : String).data =
    [' ', ' ', ' ', ' ', ' ', ' ', 'u', 'p', 'p', 'e', 'r', '_', 'b', 'o', 'u', 'n',
     'd', ':', ' '] by decide]
  rfl

/-- The capping min/max value lines survive the comment filter. -/
theorem capmin_line_not_comment (w : String) :
    isCommentOrBlank ("        min: " ++ w) = false := by
  apply not_comment_line [' ', ' ', ' ', ' ', ' ', ' ', ' ', ' '] 'm'
    ("in".data ++ ':' :: ' ' :: w.data) _ ?_ (by decide) (by decide) (by decide)
  rw [String.data_append]
  rw [show ("        min: " : String).data =
    [' ', ' ', ' ', ' ', ' ', ' ', ' ', ' ', 'm', 'i', 'n', ':', ' '] by decide]
  rfl

/-- The capping min/max value lines survive the comment filter. -/
theorem capmax_line_not_comment (w : String) :
    isCommentOrBlank ("        max: " ++ w) = false := by
  apply not_comment_line [' ', ' ', ' ', ' ', ' ', ' ', ' ', ' '] 'm'
    ("ax".data ++ ':' :: ' ' :: w.data) _ ?_ (by decide) (by decide) (by decide)
  rw [String.data_append]
  rw [show ("        max: " : String).data =
    [' ', ' ', ' ', ' ', ' ', ' ', ' ', ' ', 'm', 'a', 'x', ':', ' '] by decide]
  rfl

/-- The capping nested bound lines survive the comment filter. -/
theorem nlower_line_not_comment (w : String) :
    isCommentOrBlank ("          lower_bound: " ++ w) = false := by
  apply not_comment_line [' ', ' ', ' ', ' ', ' ', ' ', ' ', ' ', ' ', ' '] 'l'
    ("ower_bound".data ++ ':' :: ' ' :: w.data) _ ?_ (by decide) (by decide) (by decide)
  rw [String.data_append]
  rw [show ("          lower_bound: " : String).data =
    [' ', ' ', ' ', ' ', ' ', ' ', ' ', ' ', ' ', ' ', 'l', 'o', 'w', 'e', 'r', '_',
     'b', 'o', 'u', 'n', 'd', ':', ' '] by decide]
  rfl

/-- The capping nested bound lines survive the comment filter. -/
theorem nupper_line_not_comment (w : String) :
    isCommentOrBlank ("          upper_bound: " ++ w) = false := by
  apply not_comment_line [' ', ' ', ' ', ' ', ' ', ' ', ' ', ' ', ' ', ' '] 'u'
    ("pper_bound".data ++ ':' :: ' ' :: w.data) _ ?_ (by decide) (by decide) (by decide)
  rw [String.data_append]
  rw [show ("          upper_bound: " : String).data =
    [' ', ' ', ' ', ' ', ' ', ' ', ' ', ' ', ' ', ' ', 'u', 'p', 'p', 'e', 'r', '_',
     'b', 'o', 'u', 'n', 'd', ':', ' '] by decide]
  rfl

/-- The comment filter on an emitted display-format entry keeps exactly its
item chunk under its section head. -/
theorem filter_dfEntryLines (e : FlatEntry)
    (hkeys : ∀ m, e.conditions = some m → ∀ p ∈ m, condKeyWF p.1 = true) :
    (dfEntryLines e).filter (fun l => !(isCommentOrBlank l)) =
      "  - display_format:" :: dfItemChunk e := by
  unfold dfEntryLines
  rw [List.filter_append, List.filter_append, filter_titleComment]
  rw [List.filter_cons, List.filter_cons, List.filter_nil]
  rw [show (!(isCommentOrBlank "  - display_format:")) = true from by decide, if_pos rfl]
  rw [show (!(isCommentOrBlank ("    - format: " ++ scalarOptString e.format))) = true
    from by rw [fmt_line_not_comment]; rfl, if_pos rfl]
  rw [List.filter_eq_self.mpr (fun l hl => by
    rw [condBlock_not_comment e hkeys l hl]; rfl)]
  rfl

/-- The comment filter on an emitted rounding entry keeps exactly its item
chunk under its section head. -/
theorem filter_roundingEntryLines (e : FlatEntry) :
    (roundingEntryLines e).filter (fun l => !(isCommentOrBlank l)) =
      "  - rounding:" :: roundingItemChunk e := by
  unfold roundingEntryLines
  rw [List.filter_append, filter_titleComment]
  rw [List.filter_cons, List.filter_cons, List.filter_nil]
  rw [show (!(isCommentOrBlank "  - rounding:")) = true from by decide, if_pos rfl]
  rw [show (!(isCommentOrBlank ("    - strategy: " ++ scalarOptString e.strategy))) = true
    from by rw [strategy_line_not_comment]; rfl, if_pos rfl]
  rfl

/-- The comment filter on an emitted capping entry keeps exactly its item
chunk under its section head. -/
theorem filter_cappingEntryLines (e : FlatEntry)
    (hkeys : ∀ m, e.conditions = some m → ∀ p ∈ m, condKeyWF p.1 = true) :
    (cappingEntryLines e).filter (fun l => !(isCommentOrBlank l)) =
      "  - capping:" :: cappingItemChunk e := by
  unfold cappingEntryLines
  rw [List.filter_append, List.filter_append, List.filter_append, List.filter_append,
    filter_titleComment]
  rw [List.filter_cons, List.filter_cons, List.filter_nil]
  rw [show (!(isCommentOrBlank "  - capping:")) = true from by decide, if_pos rfl]
  rw [show (!(isCommentOrBlank ("    - delivery_option: " ++
      scalarOptString e.delivery_option))) = true
    from by rw [delivery_line_not_comment]; rfl, if_pos rfl]
  rw [List.filter_eq_self.mpr (fun l hl => by
    rw [condBlock_not_comment e hkeys l hl]; rfl)]
  have hsg : (match e.single with
      | some sc => ["      single:", "        min: " ++ intRepr sc.min,
          "        max: " ++ intRepr sc.max]
      | none => ([] : List String)).filter (fun l => !(isCommentOrBlank l)) =
      (match e.single with
      | some sc => ["      single:", "        min: " ++ intRepr sc.min,
          "        max: " ++ intRepr sc.max]
      | none => ([] : List String)) := by
    apply List.filter_eq_self.mpr
    rcases e.single with _ | sc
    · intro l hl
      cases hl
    · intro l hl
      simp only [List.mem_cons, List.mem_singleton] at hl
      rcases hl with rfl | rfl | rfl | h
      · decide
      · rw [capmin_line_not_comment]; rfl
      · rw [capmax_line_not_comment]; rfl
      · cases h
  have hrg : (match e.ranges with
      | some rc => ["      ranges:", "        min:",
          "          lower_bound: " ++ intRepr rc.minLowerBound,
          "          upper_bound: " ++ intRepr rc.minUpperBound,
          "        max:",
          "          lower_bound: " ++ intRepr rc.maxLowerBound,
          "          upper_bound: " ++ intRepr rc.maxUpperBound]
      | none => ([] : List String)).filter (fun l => !(isCommentOrBlank l)) =
      (match e.ranges with
      | some rc => ["      ranges:", "        min:",
          "          lower_bound: " ++ intRepr rc.minLowerBound,
          "          upper_bound: " ++ intRepr rc.minUpperBound,
          "        max:",
          "          lower_bound: " ++ intRepr rc.maxLowerBound,
          "          upper_bound: " ++ intRepr rc.maxUpperBound]
      | none => ([] : List String)) := by
    apply List.filter_eq_self.mpr
    rcases e.ranges with _ | rc
    · intro l hl
      cases hl
    · intro l hl
      simp only [List.mem_cons, List.mem_singleton] at hl
      rcases hl with rfl | rfl | rfl | rfl | rfl | rfl | rfl | h
      · decide
      · decide
      · rw [nlower_line_not_comment]; rfl
      · rw [nupper_line_not_comment]; rfl
      · decide
      · rw [nlower_line_not_comment]; rfl
      · rw [nupper_line_not_comment]; rfl
      · cases h
  rw [hsg, hrg]
  unfold cappingItemChunk
  simp [List.append_assoc]

/-- Filtering distributes over a flattening. -/
theorem filter_flatMap_comm {α β : Type} (l : List α) (f : α → List β) (p : β → Bool) :
    (l.flatMap f).filter p = l.flatMap (fun x => (f x).filter p) := by
  induction l with
  | nil => rfl
  | cons x xs ih =>
    rw [List.flatMap_cons, List.filter_append, ih, List.flatMap_cons]

/-- The comment filter on an emitted ranges item keeps every line. -/
theorem filter_rangesItemLines (e : FlatEntry)
    (hkeys : ∀ m, e.conditions = some m → ∀ p ∈ m, condKeyWF p.1 = true) :
    (rangesItemLines e).filter (fun l => !(isCommentOrBlank l)) = rangesItemLines e := by
  apply List.filter_eq_self.mpr
  intro l hl
  unfold rangesItemLines at hl
  simp only [List.cons_append, List.mem_cons, List.nil_append] at hl
  rcases hl with rfl | rfl | rfl | h
  · rw [delivery_line_not_comment]; rfl
  · rw [lower_line_not_comment]; rfl
  · rw [upper_line_not_comment]; rfl
  · rw [condBlock_not_comment e hkeys l h]; rfl

/-- The comment filter on an emitted ranges section leaves one headed chunk
per description cluster. -/
theorem filter_rangesSectionLines (entries : List FlatEntry)
    (hkeys : ∀ e ∈ entries, ∀ m, e.conditions = some m →
      ∀ p ∈ m, condKeyWF p.1 = true) :
    (rangesSectionLines entries).filter (fun l => !(isCommentOrBlank l)) =
      (bucketBy rangeDescKey entries).flatMap
        (fun b => "  - ranges:" :: b.2.flatMap rangesItemLines) := by
  unfold rangesSectionLines
  rw [filter_flatMap_comm]
  apply flatMap_congr_fn
  intro b hb
  rw [List.cons_append, List.cons_append, List.filter_cons, List.filter_cons]
  rw [show (!(isCommentOrBlank "")) = false from by decide, if_neg (by simp)]
  rw [show (!(isCommentOrBlank ("  # " ++ b.1))) = false from by
    rw [comment_line_true]; rfl, if_neg (by simp)]
  rw [List.filter_append, List.filter_cons, List.filter_nil]
  rw [show (!(isCommentOrBlank "  - ranges:")) = true from by decide, if_pos rfl]
  rw [show (["  - ranges:"] ++ (b.2.flatMap rangesItemLines).filter
      (fun l => !(isCommentOrBlank l))) =
    "  - ranges:" :: (b.2.flatMap rangesItemLines).filter
      (fun l => !(isCommentOrBlank l)) from rfl]
  congr 1
  rw [filter_flatMap_comm]
  apply flatMap_congr_fn
  intro e he
  exact filter_rangesItemLines e (hkeys e (bucketBy_mem_of_mem _ entries b hb e he))

/-- The comment filter on an emitted display-format section leaves one headed
chunk per entry. -/
theorem filter_dfSectionLines (entries : List FlatEntry)
    (hkeys : ∀ e ∈ entries, ∀ m, e.conditions = some m →
      ∀ p ∈ m, condKeyWF p.1 = true) :
    (sectionLines ⟨.displayFormat, entries⟩).filter (fun l => !(isCommentOrBlank l)) =
      entries.flatMap (fun e => "  - display_format:" :: dfItemChunk e) := by
  unfold sectionLines
  simp only
  rw [List.cons_append, List.cons_append, List.filter_cons, List.filter_cons]
  rw [show (!(isCommentOrBlank "")) = false from by decide, if_neg (by simp)]
  rw [show (!(isCommentOrBlank "  # Display Format Configuration")) = false
    from by decide, if_neg (by simp)]
  rw [List.nil_append, filter_flatMap_comm]
  exact flatMap_congr_fn (fun e he => filter_dfEntryLines e (hkeys e he))

/-- The comment filter on an emitted capping section leaves one headed chunk
per entry. -/
theorem filter_cappingSectionLines (entries : List FlatEntry)
    (hkeys : ∀ e ∈ entries, ∀ m, e.conditions = some m →
      ∀ p ∈ m, condKeyWF p.1 = true) :
    (sectionLines ⟨.capping, entries⟩).filter (fun l => !(isCommentOrBlank l)) =
      entries.flatMap (fun e => "  - capping:" :: cappingItemChunk e) := by
  unfold sectionLines
  simp only
  rw [List.cons_append, List.cons_append, List.filter_cons, List.filter_cons]
  rw [show (!(isCommentOrBlank "")) = false from by decide, if_neg (by simp)]
  rw [show (!(isCommentOrBlank "  # Capping Configuration")) = false
    from by decide, if_neg (by simp)]
  rw [List.nil_append, filter_flatMap_comm]
  exact flatMap_congr_fn (fun e he => filter_cappingEntryLines e (hkeys e he))

/-- The comment filter on an emitted rounding section leaves one headed chunk
per entry. -/
theorem filter_roundingSectionLines (entries : List FlatEntry) :
    (sectionLines ⟨.rounding, entries⟩).filter (fun l => !(isCommentOrBlank l)) =
      entries.flatMap (fun e => "  - rounding:" :: roundingItemChunk e) := by
  unfold sectionLines
  simp only
  rw [List.cons_append, List.cons_append, List.filter_cons, List.filter_cons]
  rw [show (!(isCommentOrBlank "")) = false from by decide, if_neg (by simp)]
  rw [show (!(isCommentOrBlank "  # Rounding Configuration")) = false
    from by decide, if_neg (by simp)]
  rw [List.nil_append, filter_flatMap_comm]
  exact flatMap_congr_fn (fun e he => filter_roundingEntryLines e)

/-- A line opening with four spaces is not a section chunk head. -/
theorem not_section_head (l : String) (rest : List Char)
    (hl : l.data = [' ', ' ', ' ', ' '] ++ rest) : startsWithStr l "  - " = false :=
  startsWithStr_data_false l _ rest _ hl (by decide) (by decide)

/-- A line opening with six spaces is not an item chunk head. -/
theorem not_item_head (l : String) (rest : List Char)
    (hl : l.data = [' ', ' ', ' ', ' ', ' ', ' '] ++ rest) :
    startsWithStr l "    - " = false :=
  startsWithStr_data_false l _ rest _ hl (by decide) (by decide)

/-- Emitted conditions lines open with at least six spaces. -/
theorem condLines_lead6 (m : CondMap) :
    ∀ l ∈ condLines m, ∃ rest, l.data = [' ', ' ', ' ', ' ', ' ', ' '] ++ rest := by
  intro l hl
  unfold condLines at hl
  rcases List.mem_flatMap.mp hl with ⟨p, hp, hlp⟩
  by_cases hu : startsWithStr p.1 "_" = true
  · rw [if_pos hu] at hlp
    cases hlp
  · rw [if_neg hu] at hlp
    rcases hv : p.2 with n | b | s | xs | _ <;> rw [hv] at hlp
    · simp only [List.mem_singleton] at hlp
      subst hlp
      exact ⟨_, by rw [line8_data]; rfl⟩
    · simp only [List.mem_singleton] at hlp
      subst hlp
      exact ⟨_, by rw [line8_data]; rfl⟩
    · simp only [List.mem_singleton] at hlp
      subst hlp
      exact ⟨_, by rw [line8_data]; rfl⟩
    · rcases List.mem_cons.mp hlp with hlp | hlp
      · subst hlp
        exact ⟨_, by rw [line8open_data]; rfl⟩
      · rcases List.mem_map.mp hlp with ⟨x, -, hxl⟩
        subst hxl
        exact ⟨_, by rw [line10_data]; rfl⟩
    · simp only [List.mem_singleton] at hlp
      subst hlp
      exact ⟨_, by rw [line8_data]; rfl⟩

/-- Conditions blocks open with at least six spaces. -/
theorem condBlock_lead6 (e : FlatEntry) :
    ∀ l ∈ condBlockLines e, ∃ rest, l.data = [' ', ' ', ' ', ' ', ' ', ' '] ++ rest := by
  intro l hl
  unfold condBlockLines at hl
  rcases hc : e.conditions with _ | m <;> rw [hc] at hl
  · cases hl
  · rcases List.mem_cons.mp hl with hl | hl
    · subst hl
      exact ⟨"conditions:".data, by decide⟩
    · exact condLines_lead6 m l hl

/-- Lines opening with six spaces also open with four. -/
theorem lead6_lead4 (l : String) (h : ∃ rest, l.data = [' ', ' ', ' ', ' ', ' ', ' '] ++ rest) :
    ∃ rest, l.data = [' ', ' ', ' ', ' '] ++ rest := by
  obtain ⟨rest, hr⟩ := h
  exact ⟨' ' :: ' ' :: rest, by rw [hr]; rfl⟩

/-- The display-format item chunk holds no section chunk head. -/
theorem dfItemChunk_tail (e : FlatEntry) :
    ∀ l ∈ dfItemChunk e, startsWithStr l "  - " = false := by
  intro l hl
  unfold dfItemChunk at hl
  rcases List.mem_cons.mp hl with hl | hl
  · subst hl
    apply not_section_head _ ('-' :: ' ' :: ("format".data ++ ':' :: ' ' ::
      (scalarOptString e.format).data))
    rw [String.data_append]
    rw [show ("    - format: " : String).data =
      [' ', ' ', ' ', ' ', '-', ' ', 'f', 'o', 'r', 'm', 'a', 't', ':', ' '] by decide]
    rfl
  · obtain ⟨rest, hr⟩ := lead6_lead4 l (condBlock_lead6 e l hl)
    exact not_section_head l rest hr

/-- The ranges item lines hold no section chunk head. -/
theorem rangesItem_tail (e : FlatEntry) :
    ∀ l ∈ rangesItemLines e, startsWithStr l "  - " = false := by
  intro l hl
  unfold rangesItemLines at hl
  simp only [List.cons_append, List.mem_cons, List.nil_append] at hl
  rcases hl with rfl | rfl | rfl | h
  · apply not_section_head _ ('-' :: ' ' :: ("delivery_option".data ++ ':' :: ' ' ::
      (scalarOptString e.delivery_option).data))
    rw [String.data_append]
    rw [show ("    - delivery_option: " : String).data =
      [' ', ' ', ' ', ' ', '-', ' ', 'd', 'e', 'l', 'i', 'v', 'e', 'r', 'y', '_',
       'o', 'p', 't', 'i', 'o', 'n', ':', ' '] by decide]
    rfl
  · apply not_section_head _ (' ' :: ' ' :: ("lower_bound".data ++ ':' :: ' ' ::
      (intOptString e.lower_bound).data))
    rw [String.data_append]
    rw [show ("      lower_bound: " : String).data =
      [' ', ' ', ' ', ' ', ' ', ' ', 'l', 'o', 'w', 'e', 'r', '_', 'b', 'o', 'u',
       'n', 'd', ':', ' '] by decide]
    rfl
  · apply not_section_head _ (' ' :: ' ' :: ("upper_bound".data ++ ':' :: ' ' ::
      (intOptString e.upper_bound).data))
    rw [String.data_append]
    rw [show ("      upper_bound: " : String).data =
      [' ', ' ', ' ', ' ', ' ', ' ', 'u', 'p', 'p', 'e', 'r', '_', 'b', 'o', 'u',
       'n', 'd', ':', ' '] by decide]
    rfl
  · obtain ⟨rest, hr⟩ := lead6_lead4 l (condBlock_lead6 e l h)
    exact not_section_head l rest hr

/-- The capping item chunk holds no section chunk head. -/
theorem cappingItemChunk_tail (e : FlatEntry) :
    ∀ l ∈ cappingItemChunk e, startsWithStr l "  - " = false := by
  intro l hl
  unfold cappingItemChunk at hl
  rcases List.mem_cons.mp hl with hl | hl
  · subst hl
    apply not_section_head _ ('-' :: ' ' :: ("delivery_option".data ++ ':' :: ' ' ::
      (scalarOptString e.delivery_option).data))
    rw [String.data_append]
    rw [show ("    - delivery_option: " : String).data =
      [' ', ' ', ' ', ' ', '-', ' ', 'd', 'e', 'l', 'i', 'v', 'e', 'r', 'y', '_',
       'o', 'p', 't', 'i', 'o', 'n', ':', ' '] by decide]
    rfl
  · rcases List.mem_append.mp hl with hl | hl
    · obtain ⟨rest, hr⟩ := lead6_lead4 l (condBlock_lead6 e l hl)
      exact not_section_head l rest hr
    · rcases List.mem_append.mp hl with hl | hl
      · rcases hs : e.single with _ | sc <;> rw [hs] at hl
        · cases hl
        · simp only [List.mem_cons, List.mem_singleton] at hl
          rcases hl with rfl | rfl | rfl | h
          · exact not_section_head _ (' ' :: ' ' :: "single:".data) (by decide)
          · apply not_section_head _ (' ' :: ' ' :: ' ' :: ' ' :: ("min".data ++
              ':' :: ' ' :: (intRepr sc.min).data))
            rw [String.data_append]
            rw [show ("        min: " : String).data =
              [' ', ' ', ' ', ' ', ' ', ' ', ' ', ' ', 'm', 'i', 'n', ':', ' ']
              by decide]
            rfl
          · apply not_section_head _ (' ' :: ' ' :: ' ' :: ' ' :: ("max".data ++
              ':' :: ' ' :: (intRepr sc.max).data))
            rw [String.data_append]
            rw [show ("        max: " : String).data =
              [' ', ' ', ' ', ' ', ' ', ' ', ' ', ' ', 'm', 'a', 'x', ':', ' ']
              by decide]
            rfl
          · cases h
      · rcases hr : e.ranges with _ | rc <;> rw [hr] at hl
        · cases hl
        · simp only [List.mem_cons, List.mem_singleton] at hl
          rcases hl with rfl | rfl | rfl | rfl | rfl | rfl | rfl | h
          · exact not_section_head _ (' ' :: ' ' :: "ranges:".data) (by decide)
          · exact not_section_head _ (' ' :: ' ' :: ' ' :: ' ' :: "min:".data)
              (by decide)
          · apply not_section_head _ (' ' :: ' ' :: ' ' :: ' ' :: ' ' :: ' ' ::
              ("lower_bound".data ++ ':' :: ' ' :: (intRepr rc.minLowerBound).data))
            rw [String.data_append]
            rw [show ("          lower_bound: " : String).data =
              [' ', ' ', ' ', ' ', ' ', ' ', ' ', ' ', ' ', ' ', 'l', 'o', 'w', 'e',
               'r', '_', 'b', 'o', 'u', 'n', 'd', ':', ' '] by decide]
            rfl
          · apply not_section_head _ (' ' :: ' ' :: ' ' :: ' ' :: ' ' :: ' ' ::
              ("upper_bound".data ++ ':' :: ' ' :: (intRepr rc.minUpperBound).data))
            rw [String.data_append]
            rw [show ("          upper_bound: " : String).data =
              [' ', ' ', ' ', ' ', ' ', ' ', ' ', ' ', ' ', ' ', 'u', 'p', 'p', 'e',
               'r', '_', 'b', 'o', 'u', 'n', 'd', ':', ' '] by decide]
            rfl
          · exact not_section_head _ (' ' :: ' ' :: ' ' :: ' ' :: "max:".data)
              (by decide)
          · apply not_section_head _ (' ' :: ' ' :: ' ' :: ' ' :: ' ' :: ' ' ::
              ("lower_bound".data ++ ':' :: ' ' :: (intRepr rc.maxLowerBound).data))
            rw [String.data_append]
            rw [show ("          lower_bound: " : String).data =
              [' ', ' ', ' ', ' ', ' ', ' ', ' ', ' ', ' ', ' ', 'l', 'o', 'w', 'e',
               'r', '_', 'b', 'o', 'u', 'n', 'd', ':', ' '] by decide]
            rfl
          · apply not_section_head _ (' ' :: ' ' :: ' ' :: ' ' :: ' ' :: ' ' ::
              ("upper_bound".data ++ ':' :: ' ' :: (intRepr rc.maxUpperBound).data))
            rw [String.data_append]
            rw [show ("          upper_bound: " : String).data =
              [' ', ' ', ' ', ' ', ' ', ' ', ' ', ' ', ' ', ' ', 'u', 'p', 'p', 'e',
               'r', '_', 'b', 'o', 'u', 'n', 'd', ':', ' '] by decide]
            rfl
          · cases h

/-- The rounding item chunk holds no section chunk head. -/
theorem roundingItemChunk_tail (e : FlatEntry) :
    ∀ l ∈ roundingItemChunk e, startsWithStr l "  - " = false := by
  intro l hl
  unfold roundingItemChunk at hl
  simp only [List.mem_singleton] at hl
  subst hl
  apply not_section_head _ ('-' :: ' ' :: ("strategy".data ++ ':' :: ' ' ::
    (scalarOptString e.strategy).data))
  rw [String.data_append]
  rw [show ("    - strategy: " : String).data =
    [' ', ' ', ' ', ' ', '-', ' ', 's', 't', 'r', 'a', 't', 'e', 'g', 'y', ':', ' ']
    by decide]
  rfl

/-- A line opening with four spaces, a dash and a space is an item chunk head. -/
theorem item_head (l : String) (rest : List Char)
    (hl : l.data = [' ', ' ', ' ', ' ', '-', ' '] ++ rest) :
    startsWithStr l "    - " = true :=
  startsWithStr_data_true l _ rest _ hl (by decide) (by decide)

/-- Splitting a flattening of uniformly headed chunks recovers the chunks. -/
theorem chunks_headed (p : String → Bool) (hd : String) (items : List (List String))
    (hhd : p hd = true) (htl : ∀ c ∈ items, ∀ l ∈ c, p l = false) :
    splitChunks p (items.flatMap (fun c => hd :: c)) =
      items.map (fun c => hd :: c) := by
  have hsplit := splitChunks_flat p (items.map (fun c => hd :: c)) ?_
  · rw [← hsplit]
    congr 1
    rw [List.flatMap_map]
  · intro cnk hcnk
    rcases List.mem_map.mp hcnk with ⟨c, hc, hcc⟩
    exact ⟨hd, c, hcc.symm, hhd, htl c hc⟩

/-- Splitting a flattening of per-element headed chunks recovers the chunks. -/
theorem chunks_headed_fn {α : Type} (p : String → Bool) (hd : α → String)
    (tl : α → List String) (items : List α)
    (hhd : ∀ a ∈ items, p (hd a) = true)
    (htl : ∀ a ∈ items, ∀ l ∈ tl a, p l = false) :
    splitChunks p (items.flatMap (fun a => hd a :: tl a)) =
      items.map (fun a => hd a :: tl a) := by
  have hsplit := splitChunks_flat p (items.map (fun a => hd a :: tl a)) ?_
  · rw [← hsplit]
    congr 1
    rw [List.flatMap_map]
  · intro cnk hcnk
    rcases List.mem_map.mp hcnk with ⟨a, ha, hac⟩
    exact ⟨hd a, tl a, hac.symm, hhd a ha, htl a ha⟩

/-- The capping item tail lines open with at least six spaces. -/
theorem cappingTail_lead6 (e : FlatEntry) :
    ∀ l ∈ (condBlockLines e ++
        ((match e.single with
          | some sc => ["      single:", "        min: " ++ intRepr sc.min,
              "        max: " ++ intRepr sc.max]
          | none => []) ++
         (match e.ranges with
          | some rc => ["      ranges:", "        min:",
              "          lower_bound: " ++ intRepr rc.minLowerBound,
              "          upper_bound: " ++ intRepr rc.minUpperBound,
              "        max:",
              "          lower_bound: " ++ intRepr rc.maxLowerBound,
              "          upper_bound: " ++ intRepr rc.maxUpperBound]
          | none => []))),
      ∃ rest, l.data = [' ', ' ', ' ', ' ', ' ', ' '] ++ rest := by
  intro l hl
  rcases List.mem_append.mp hl with hl | hl
  · exact condBlock_lead6 e l hl
  · rcases List.mem_append.mp hl with hl | hl
    · rcases hs : e.single with _ | sc <;> rw [hs] at hl
      · cases hl
      · simp only [List.mem_cons, List.mem_singleton] at hl
        rcases hl with rfl | rfl | rfl | h
        · exact ⟨"single:".data, by decide⟩
        · refine ⟨' ' :: ' ' :: ("min".data ++ ':' :: ' ' :: (intRepr sc.min).data), ?_⟩
          rw [String.data_append]
          rw [show ("        min: " : String).data =
            [' ', ' ', ' ', ' ', ' ', ' ', ' ', ' ', 'm', 'i', 'n', ':', ' ']
            by decide]
          rfl
        · refine ⟨' ' :: ' ' :: ("max".data ++ ':' :: ' ' :: (intRepr sc.max).data), ?_⟩
          rw [String.data_append]
          rw [show ("        max: " : String).data =
            [' ', ' ', ' ', ' ', ' ', ' ', ' ', ' ', 'm', 'a', 'x', ':', ' ']
            by decide]
          rfl
        · cases h
    · rcases hr : e.ranges with _ | rc <;> rw [hr] at hl
      · cases hl
      · simp only [List.mem_cons, List.mem_singleton] at hl
        rcases hl with rfl | rfl | rfl | rfl | rfl | rfl | rfl | h
        · exact ⟨"ranges:".data, by decide⟩
        · exact ⟨' ' :: ' ' :: "min:".data, by decide⟩
        · refine ⟨' ' :: ' ' :: ' ' :: ' ' :: ("lower_bound".data ++ ':' :: ' ' ::
            (intRepr rc.minLowerBound).data), ?_⟩
          rw [String.data_append]
          rw [show ("          lower_bound: " : String).data =
            [' ', ' ', ' ', ' ', ' ', ' ', ' ', ' ', ' ', ' ', 'l', 'o', 'w', 'e',
             'r', '_', 'b', 'o', 'u', 'n', 'd', ':', ' '] by decide]
          rfl
        · refine ⟨' ' :: ' ' :: ' ' :: ' ' :: ("upper_bound".data ++ ':' :: ' ' ::
            (intRepr rc.minUpperBound).data), ?_⟩
          rw [String.data_append]
          rw [show ("          upper_bound: " : String).data =
            [' ', ' ', ' ', ' ', ' ', ' ', ' ', ' ', ' ', ' ', 'u', 'p', 'p', 'e',
             'r', '_', 'b', 'o', 'u', 'n', 'd', ':', ' '] by decide]
          rfl
        · exact ⟨' ' :: ' ' :: "max:".data, by decide⟩
        · refine ⟨' ' :: ' ' :: ' ' :: ' ' :: ("lower_bound".data ++ ':' :: ' ' ::
            (intRepr rc.maxLowerBound).data), ?_⟩
          rw [String.data_append]
          rw [show ("          lower_bound: " : String).data =
            [' ', ' ', ' ', ' ', ' ', ' ', ' ', ' ', ' ', ' ', 'l', 'o', 'w', 'e',
             'r', '_', 'b', 'o', 'u', 'n', 'd', ':', ' '] by decide]
          rfl
        · refine ⟨' ' :: ' ' :: ' ' :: ' ' :: ("upper_bound".data ++ ':' :: ' ' ::
            (intRepr rc.maxUpperBound).data), ?_⟩
          rw [String.data_append]
          rw [show ("          upper_bound: " : String).data =
            [' ', ' ', ' ', ' ', ' ', ' ', ' ', ' ', ' ', ' ', 'u', 'p', 'p', 'e',
             'r', '_', 'b', 'o', 'u', 'n', 'd', ':', ' '] by decide]
          rfl
        · cases h

/-- Parsing an emitted display-format section chunk. -/
theorem parseSection_df (e : FlatEntry) :
    parseSectionChunk ("  - display_format:" :: dfItemChunk e) =
      some ⟨.displayFormat, [parseItemChunk (dfItemChunk e)]⟩ := by
  have hb := chunks_headed_fn (fun l => startsWithStr l "    - ")
    (fun e => "    - format: " ++ scalarOptString e.format)
    (fun e => condBlockLines e) [e] ?_ ?_
  · have hflat : [e].flatMap (fun e =>
        ("    - format: " ++ scalarOptString e.format) :: condBlockLines e) =
        dfItemChunk e := by
      rw [List.flatMap_cons, List.flatMap_nil, List.append_nil]
      rfl
    rw [hflat] at hb
    have hred : parseSectionChunk ("  - display_format:" :: dfItemChunk e) =
        some ⟨.displayFormat,
          (splitChunks (fun l => startsWithStr l "    - ") (dfItemChunk e)).map
            parseItemChunk⟩ := rfl
    rw [hred, hb]
    rfl
  · intro a ha
    apply item_head _ ('f' :: 'o' :: 'r' :: 'm' :: 'a' :: 't' :: ':' :: ' ' ::
      (scalarOptString a.format).data)
    rw [String.data_append]
    rw [show ("    - format: " : String).data =
      [' ', ' ', ' ', ' ', '-', ' ', 'f', 'o', 'r', 'm', 'a', 't', ':', ' '] by decide]
    rfl
  · intro a _ l hl
    obtain ⟨rest, hr⟩ := condBlock_lead6 a l hl
    exact not_item_head l rest hr

/-- Parsing an emitted rounding section chunk. -/
theorem parseSection_rd (e : FlatEntry) :
    parseSectionChunk ("  - rounding:" :: roundingItemChunk e) =
      some ⟨.rounding, [parseItemChunk (roundingItemChunk e)]⟩ := by
  have hb := chunks_headed_fn (fun l => startsWithStr l "    - ")
    (fun e => "    - strategy: " ++ scalarOptString e.strategy)
    (fun _ => []) [e] ?_ ?_
  · have hflat : [e].flatMap (fun e =>
        [("    - strategy: " ++ scalarOptString e.strategy)]) =
        roundingItemChunk e := by
      rw [List.flatMap_cons, List.flatMap_nil, List.append_nil]
      rfl
    rw [hflat] at hb
    have hred : parseSectionChunk ("  - rounding:" :: roundingItemChunk e) =
        some ⟨.rounding,
          (splitChunks (fun l => startsWithStr l "    - ") (roundingItemChunk e)).map
            parseItemChunk⟩ := rfl
    rw [hred, hb]
    rfl
  · intro a ha
    apply item_head _ ('s' :: 't' :: 'r' :: 'a' :: 't' :: 'e' :: 'g' :: 'y' :: ':' ::
      ' ' :: (scalarOptString a.strategy).data)
    rw [String.data_append]
    rw [show ("    - strategy: " : String).data =
      [' ', ' ', ' ', ' ', '-', ' ', 's', 't', 'r', 'a', 't', 'e', 'g', 'y', ':', ' ']
      by decide]
    rfl
  · intro a _ l hl
    cases hl

/-- Parsing an emitted capping section chunk. -/
theorem parseSection_cp (e : FlatEntry) :
    parseSectionChunk ("  - capping:" :: cappingItemChunk e) =
      some ⟨.capping, [parseItemChunk (cappingItemChunk e)]⟩ := by
  have hb := chunks_headed_fn (fun l => startsWithStr l "    - ")
    (fun e => "    - delivery_option: " ++ scalarOptString e.delivery_option)
    (fun e => condBlockLines e ++
      ((match e.single with
        | some sc => ["      single:", "        min: " ++ intRepr sc.min,
            "        max: " ++ intRepr sc.max]
        | none => []) ++
       (match e.ranges with
        | some rc => ["      ranges:", "        min:",
            "          lower_bound: " ++ intRepr rc.minLowerBound,
            "          upper_bound: " ++ intRepr rc.minUpperBound,
            "        max:",
            "          lower_bound: " ++ intRepr rc.maxLowerBound,
            "          upper_bound: " ++ intRepr rc.maxUpperBound]
        | none => []))) [e] ?_ ?_
  · have hflat : [e].flatMap (fun e =>
        ("    - delivery_option: " ++ scalarOptString e.delivery_option) ::
          (condBlockLines e ++
            ((match e.single with
              | some sc => ["      single:", "        min: " ++ intRepr sc.min,
                  "        max: " ++ intRepr sc.max]
              | none => []) ++
             (match e.ranges with
              | some rc => ["      ranges:", "        min:",
                  "          lower_bound: " ++ intRepr rc.minLowerBound,
                  "          upper_bound: " ++ intRepr rc.minUpperBound,
                  "        max:",
                  "          lower_bound: " ++ intRepr rc.maxLowerBound,
                  "          upper_bound: " ++ intRepr rc.maxUpperBound]
              | none => [])))) =
        cappingItemChunk e := by
      rw [List.flatMap_cons, List.flatMap_nil, List.append_nil]
      rfl
    rw [hflat] at hb
    have hred : parseSectionChunk ("  - capping:" :: cappingItemChunk e) =
        some ⟨.capping,
          (splitChunks (fun l => startsWithStr l "    - ") (cappingItemChunk e)).map
            parseItemChunk⟩ := rfl
    rw [hred, hb]
    rfl
  · intro a ha
    apply item_head _ ('d' :: 'e' :: 'l' :: 'i' :: 'v' :: 'e' :: 'r' :: 'y' :: '_' ::
      'o' :: 'p' :: 't' :: 'i' :: 'o' :: 'n' :: ':' :: ' ' ::
      (scalarOptString a.delivery_option).data)
    rw [String.data_append]
    rw [show ("    - delivery_option: " : String).data =
      [' ', ' ', ' ', ' ', '-', ' ', 'd', 'e', 'l', 'i', 'v', 'e', 'r', 'y', '_',
       'o', 'p', 't', 'i', 'o', 'n', ':', ' '] by decide]
    rfl
  · intro a _ l hl
    obtain ⟨rest, hr⟩ := cappingTail_lead6 a l hl
    exact not_item_head l rest hr

/-- Parsing an emitted ranges section chunk: one item per entry of the bucket. -/
theorem parseSection_rg (es : List FlatEntry) :
    parseSectionChunk ("  - ranges:" :: es.flatMap rangesItemLines) =
      some ⟨.ranges, es.map (fun e => parseItemChunk (rangesItemLines e))⟩ := by
  have hb := chunks_headed_fn (fun l => startsWithStr l "    - ")
    (fun e => "    - delivery_option: " ++ scalarOptString e.delivery_option)
    (fun e => ("      lower_bound: " ++ intOptString e.lower_bound) ::
      ("      upper_bound: " ++ intOptString e.upper_bound) :: condBlockLines e)
    es ?_ ?_
  · have hflat : es.flatMap (fun e =>
        ("    - delivery_option: " ++ scalarOptString e.delivery_option) ::
          ("      lower_bound: " ++ intOptString e.lower_bound) ::
          ("      upper_bound: " ++ intOptString e.upper_bound) ::
          condBlockLines e) = es.flatMap rangesItemLines := by
      apply flatMap_congr_fn
      intro e _
      rfl
    rw [hflat] at hb
    have hred : parseSectionChunk ("  - ranges:" :: es.flatMap rangesItemLines) =
        some ⟨.ranges,
          (splitChunks (fun l => startsWithStr l "    - ")
            (es.flatMap rangesItemLines)).map parseItemChunk⟩ := rfl
    rw [hred, hb, List.map_map]
    rfl
  · intro a ha
    apply item_head _ ('d' :: 'e' :: 'l' :: 'i' :: 'v' :: 'e' :: 'r' :: 'y' :: '_' ::
      'o' :: 'p' :: 't' :: 'i' :: 'o' :: 'n' :: ':' :: ' ' ::
      (scalarOptString a.delivery_option).data)
    rw [String.data_append]
    rw [show ("    - delivery_option: " : String).data =
      [' ', ' ', ' ', ' ', '-', ' ', 'd', 'e', 'l', 'i', 'v', 'e', 'r', 'y', '_',
       'o', 'p', 't', 'i', 'o', 'n', ':', ' '] by decide]
    rfl
  · intro a _ l hl
    rcases List.mem_cons.mp hl with rfl | hl
    · apply not_item_head _ ('l' :: 'o' :: 'w' :: 'e' :: 'r' :: '_' :: 'b' :: 'o' ::
        'u' :: 'n' :: 'd' :: ':' :: ' ' :: (intOptString a.lower_bound).data)
      rw [String.data_append]
      rw [show ("      lower_bound: " : String).data =
        [' ', ' ', ' ', ' ', ' ', ' ', 'l', 'o', 'w', 'e', 'r', '_', 'b', 'o', 'u',
         'n', 'd', ':', ' '] by decide]
      rfl
    · rcases List.mem_cons.mp hl with rfl | hl
      · apply not_item_head _ ('u' :: 'p' :: 'p' :: 'e' :: 'r' :: '_' :: 'b' :: 'o' ::
          'u' :: 'n' :: 'd' :: ':' :: ' ' :: (intOptString a.upper_bound).data)
        rw [String.data_append]
        rw [show ("      upper_bound: " : String).data =
          [' ', ' ', ' ', ' ', ' ', ' ', 'u', 'p', 'p', 'e', 'r', '_', 'b', 'o', 'u',
           'n', 'd', ':', ' '] by decide]
        rfl
      · obtain ⟨rest, hr⟩ := condBlock_lead6 a l hl
        exact not_item_head l rest hr

/-- A conditions object passing `condsRT` gives the parser's hypotheses. -/
theorem condsRT_wf (c : Option CondMap) (h : condsRT c = true) :
    ∀ m, c = some m → (∀ p ∈ m, condPairWF p = true) ∧ ((m.map Prod.fst).Nodup) := by
  intro m hm
  subst hm
  unfold condsRT at h
  rw [Bool.and_eq_true, List.all_eq_true] at h
  refine ⟨fun p hp => ?_, of_decide_eq_true h.2⟩
  have := h.1 p hp
  rw [Bool.and_eq_true] at this
  exact this.1

/-- A conditions object passing `condsRT` never stores a raw marketplace
string. -/
theorem condsRT_mp (c : Option CondMap) (h : condsRT c = true) :
    ∀ m, c = some m → ∀ p ∈ m, p.1 = "marketplace" → mpSafe p.2 = true := by
  intro m hm p hp hk
  subst hm
  unfold condsRT at h
  rw [Bool.and_eq_true, List.all_eq_true] at h
  have := h.1 p hp
  rw [Bool.and_eq_true, Bool.or_eq_true] at this
  rcases this.2 with hh | hh
  · rw [Bool.not_eq_true', beq_eq_false_iff_ne] at hh
    exact absurd hk hh
  · exact hh

/-- A `filterMap` whose function always returns `some` is a `map`. -/
theorem filterMap_all_some {α β : Type} (l : List α) (g : α → Option β) (f : α → β)
    (h : ∀ a ∈ l, g a = some (f a)) : l.filterMap g = l.map f := by
  induction l with
  | nil => rfl
  | cons x xs ih =>
    rw [List.filterMap_cons, h x (by simp), List.map_cons]
    rw [ih (fun a ha => h a (List.mem_cons_of_mem x ha))]

/-- `filterMap` distributes over `flatMap`. -/
theorem filterMap_flatMap {α β γ : Type} (l : List α) (f : α → List β)
    (g : β → Option γ) :
    (l.flatMap f).filterMap g = l.flatMap (fun a => (f a).filterMap g) := by
  induction l with
  | nil => rfl
  | cons x xs ih =>
    rw [List.flatMap_cons, List.flatMap_cons, List.filterMap_append, ih]

/-- The marketplace coercion is the identity on an entry that stores no raw
marketplace string. -/
theorem processEntryMarketplace_id (e : FlatEntry)
    (h : ∀ m, e.conditions = some m → ∀ p ∈ m, p.1 = "marketplace" →
      mpSafe p.2 = true) :
    processEntryMarketplace e = e := by
  unfold processEntryMarketplace
  rcases hc : e.conditions with _ | m
  · rfl
  · have hmap : m.map (fun p =>
        if p.1 == "marketplace" then
          match p.2 with
          | .str s => (p.1, CondVal.bool (s == "true"))
          | v => (p.1, v)
        else p) = m := by
      have hptw : ∀ p ∈ m, (fun p => ite (p.1 == "marketplace")
          (match p.2 with
           | CondVal.str s => (p.1, CondVal.bool (s == "true"))
           | v => (p.1, v)) p) p = id p := by
        intro p hp
        show ite (p.1 == "marketplace") _ _ = p
        by_cases hk : (p.1 == "marketplace") = true
        · rw [if_pos hk]
          have := h m hc p hp (beq_iff_eq.mp hk)
          rcases p with ⟨k, v⟩
          rcases v with n | b | s | xs | _
          · rfl
          · rfl
          · exact absurd this (by simp [mpSafe])
          · rfl
          · rfl
        · rw [if_neg hk]
      rw [List.map_congr_left hptw, List.map_id]
    show { e with conditions := some (m.map (fun p => ite (p.1 == "marketplace")
        (match p.2 with
         | CondVal.str s => (p.1, CondVal.bool (s == "true"))
         | v => (p.1, v)) p)) } = e
    rw [hmap, ← hc]

/-- Parsing the emitted display-format section chunks recovers the entries. -/
theorem parsedChunks_df (entries : List FlatEntry)
    (h : ∀ e ∈ entries, dfEntryRT e = true) :
    (entries.map (fun e => "  - display_format:" :: dfItemChunk e)).filterMap
        parseSectionChunk =
      entries.map (fun e => Section.mk .displayFormat [dropTitleNormConds e]) := by
  rw [List.filterMap_map]
  apply filterMap_all_some
  intro e he
  show parseSectionChunk ("  - display_format:" :: dfItemChunk e) = _
  rw [parseSection_df]
  have hrt := h e he
  unfold dfEntryRT at hrt
  simp only [Bool.and_eq_true] at hrt
  obtain ⟨⟨⟨⟨⟨⟨⟨⟨hA, hB⟩, hC⟩, hD⟩, hE⟩, hF⟩, hG⟩, hH⟩, -⟩ := hrt
  rcases hf : e.format with _ | f <;> rw [hf] at hA
  · exact absurd hA (by decide)
  · have hpi := parseItem_df e f hf hA
      (Option.isNone_iff_eq_none.mp hB) (Option.isNone_iff_eq_none.mp hC)
      (Option.isNone_iff_eq_none.mp hD) (Option.isNone_iff_eq_none.mp hE)
      (Option.isNone_iff_eq_none.mp hF) (Option.isNone_iff_eq_none.mp hG)
      (condsRT_wf e.conditions hH)
    rw [show dfItemChunk e = ("    - format: " ++ scalarOptString e.format) ::
      condBlockLines e from rfl, hpi]

/-- Parsing the emitted rounding section chunks recovers the entries. -/
theorem parsedChunks_rd (entries : List FlatEntry)
    (h : ∀ e ∈ entries, rdEntryRT e = true) :
    (entries.map (fun e => "  - rounding:" :: roundingItemChunk e)).filterMap
        parseSectionChunk =
      entries.map (fun e => Section.mk .rounding [dropTitleNormConds e]) := by
  rw [List.filterMap_map]
  apply filterMap_all_some
  intro e he
  show parseSectionChunk ("  - rounding:" :: roundingItemChunk e) = _
  rw [parseSection_rd]
  have hrt := h e he
  unfold rdEntryRT at hrt
  simp only [Bool.and_eq_true] at hrt
  obtain ⟨⟨⟨⟨⟨⟨⟨⟨hA, hB⟩, hC⟩, hD⟩, hE⟩, hF⟩, hG⟩, hH⟩, -⟩ := hrt
  rcases hs : e.strategy with _ | s <;> rw [hs] at hA
  · exact absurd hA (by decide)
  · have hpi := parseItem_rounding e s hs hA
      (Option.isNone_iff_eq_none.mp hC) (Option.isNone_iff_eq_none.mp hD)
      (Option.isNone_iff_eq_none.mp hE) (Option.isNone_iff_eq_none.mp hB)
      (Option.isNone_iff_eq_none.mp hF) (Option.isNone_iff_eq_none.mp hG)
      (Option.isNone_iff_eq_none.mp hH)
    rw [show roundingItemChunk e =
      [("    - strategy: " ++ scalarOptString e.strategy)] from rfl, hpi]

/-- Parsing the emitted capping section chunks recovers the entries. -/
theorem parsedChunks_cp (entries : List FlatEntry)
    (h : ∀ e ∈ entries, cpEntryRT e = true) :
    (entries.map (fun e => "  - capping:" :: cappingItemChunk e)).filterMap
        parseSectionChunk =
      entries.map (fun e => Section.mk .capping [dropTitleNormConds e]) := by
  rw [List.filterMap_map]
  apply filterMap_all_some
  intro e he
  show parseSectionChunk ("  - capping:" :: cappingItemChunk e) = _
  rw [parseSection_cp]
  have hrt := h e he
  unfold cpEntryRT at hrt
  simp only [Bool.and_eq_true] at hrt
  obtain ⟨⟨⟨⟨⟨⟨hA, hB⟩, hC⟩, hD⟩, hE⟩, hF⟩, -⟩ := hrt
  rcases hd : e.delivery_option with _ | d <;> rw [hd] at hA
  · exact absurd hA (by decide)
  · have hpi := parseItem_capping e d hd hA
      (Option.isNone_iff_eq_none.mp hB) (Option.isNone_iff_eq_none.mp hC)
      (Option.isNone_iff_eq_none.mp hD) (Option.isNone_iff_eq_none.mp hE)
      (condsRT_wf e.conditions hF)
    rw [show cappingItemChunk e =
      (("    - delivery_option: " ++ scalarOptString e.delivery_option) ::
        (condBlockLines e ++
          ((match e.single with
            | some sc => ["      single:", "        min: " ++ intRepr sc.min,
                "        max: " ++ intRepr sc.max]
            | none => []) ++
           (match e.ranges with
            | some rc => ["      ranges:", "        min:",
                "          lower_bound: " ++ intRepr rc.minLowerBound,
                "          upper_bound: " ++ intRepr rc.minUpperBound,
                "        max:",
                "          lower_bound: " ++ intRepr rc.maxLowerBound,
                "          upper_bound: " ++ intRepr rc.maxUpperBound]
            | none => [])))) from rfl, hpi]

/-- Parsing the emitted ranges section chunks recovers the bucketed entries. -/
theorem parsedChunks_rg (entries : List FlatEntry)
    (h : ∀ e ∈ entries, rgEntryRT e = true) :
    ((bucketBy rangeDescKey entries).map
        (fun b => "  - ranges:" :: b.2.flatMap rangesItemLines)).filterMap
        parseSectionChunk =
      (bucketBy rangeDescKey entries).map
        (fun b => Section.mk .ranges (b.2.map dropTitleNormConds)) := by
  rw [List.filterMap_map]
  apply filterMap_all_some
  intro b hb
  show parseSectionChunk ("  - ranges:" :: b.2.flatMap rangesItemLines) = _
  rw [parseSection_rg]
  have hmap : b.2.map (fun e => parseItemChunk (rangesItemLines e)) =
      b.2.map dropTitleNormConds := by
    apply List.map_congr_left
    intro e he
    have hrt := h e (bucketBy_mem_of_mem rangeDescKey entries b hb e he)
    unfold rgEntryRT at hrt
    simp only [Bool.and_eq_true] at hrt
    obtain ⟨⟨⟨⟨⟨⟨hA, hB⟩, hC⟩, hD⟩, hE⟩, hF⟩, -⟩ := hrt
    rcases hd : e.delivery_option with _ | d <;> rw [hd] at hA
    · exact absurd hA (by decide)
    · have hpi := parseItem_ranges e d hd hA
        (Option.isNone_iff_eq_none.mp hB) (Option.isNone_iff_eq_none.mp hC)
        (Option.isNone_iff_eq_none.mp hD) (Option.isNone_iff_eq_none.mp hE)
        (condsRT_wf e.conditions hF)
      rw [show rangesItemLines e =
        (("    - delivery_option: " ++ scalarOptString e.delivery_option) ::
          ("      lower_bound: " ++ intOptString e.lower_bound) ::
          ("      upper_bound: " ++ intOptString e.upper_bound) ::
          condBlockLines e) from rfl, hpi]
  rw [hmap]

/-- Newline-freedom distributes over append. -/
theorem noNL_append (a b : String) : noNL (a ++ b) = (noNL a && noNL b) := by
  unfold noNL
  rw [String.data_append, List.all_append]

/-- Digit renderings contain no newline. -/
theorem noNL_natDigits (f n : Nat) : ∀ c ∈ natDigitsAux f n, ¬(c = '\n') := by
  induction f generalizing n with
  | zero => intro c hc; cases hc
  | succ f ih =>
    intro c hc
    rw [natDigitsAux] at hc
    by_cases hn : n < 10
    · rw [if_pos hn] at hc
      simp only [List.mem_singleton] at hc
      subst hc
      interval_cases n <;> decide
    · rw [if_neg hn] at hc
      rcases List.mem_append.mp hc with hc | hc
      · exact ih (n / 10) c hc
      · simp only [List.mem_singleton] at hc
        subst hc
        have h10 : n % 10 < 10 := Nat.mod_lt n (by decide)
        interval_cases h : n % 10 <;> decide

/-- `natRepr` contains no newline. -/
theorem noNL_natRepr (n : Nat) : noNL (natRepr n) = true := by
  unfold natRepr noNL
  rw [List.all_eq_true]
  intro c hc
  rw [Bool.not_eq_true', beq_eq_false_iff_ne]
  exact noNL_natDigits (n + 1) n c hc

/-- Rendered optional integers contain no newline. -/
theorem noNL_intOptString (o : Option Int) : noNL (intOptString o) = true := by
  rcases o with _ | n
  · decide
  · exact noNL_intRepr n

/-- A comma join of newline-free parts is newline-free. -/
theorem noNL_joinParts (xs : List String) (hx : ∀ x ∈ xs, noNL x = true) :
    noNL (joinParts "," xs) = true := by
  rcases xs with _ | ⟨x, xs⟩
  · decide
  · have hstep : ∀ (l : List String) (acc : String), noNL acc = true →
        (∀ y ∈ l, noNL y = true) → noNL (l.foldl (fun acc y => acc ++ "," ++ y) acc) = true := by
      intro l
      induction l with
      | nil => intro acc ha _; exact ha
      | cons y ys ih =>
        intro acc ha hy
        rw [List.foldl_cons]
        apply ih
        · rw [noNL_append, noNL_append, ha, hy y (by simp)]
          rfl
        · intro z hz
          exact hy z (List.mem_cons_of_mem y hz)
    exact hstep xs x (hx x (by simp)) (fun y hy => hx y (List.mem_cons_of_mem x hy))

/-- The rendering of a well-formed condition value is newline-free. -/
theorem noNL_condValString (v : CondVal) (hv : condValWF v = true) :
    noNL (condValString v) = true := by
  rcases v with n | b | s | xs | _
  · exact noNL_intRepr n
  · rcases b <;> decide
  · unfold condValWF plainStr at hv
    simp only [Bool.and_eq_true] at hv
    exact hv.1.1.1.1.2
  · unfold condValWF at hv
    rw [List.all_eq_true] at hv
    apply noNL_joinParts
    intro x hx
    have := hv x hx
    rw [Bool.and_eq_true] at this
    exact this.2
  · exact absurd hv (by decide)

/-- A well-formed condition key is newline-free. -/
theorem noNL_condKey (k : String) (hk : condKeyWF k = true) : noNL k = true := by
  unfold condKeyWF at hk
  simp only [Bool.and_eq_true] at hk
  unfold noNL
  rw [List.all_eq_true]
  intro c hc
  have := (List.all_eq_true.mp hk.1.2) c hc
  rw [Bool.and_eq_true] at this
  exact this.2

/-- A successful lookup returns a stored pair. -/
theorem jsLookup_mem (m : List (String × CondVal)) (k : String) (v : CondVal)
    (h : jsLookup m k = some v) : (k, v) ∈ m := by
  unfold jsLookup at h
  rcases hf : m.find? (fun p => p.1 == k) with _ | p <;> rw [hf] at h
  · cases h
  · rw [Option.map_some'] at h
    have hp := List.mem_of_find?_eq_some hf
    have hk := List.find?_some hf
    rw [beq_iff_eq] at hk
    cases h
    rw [← hk]
    exact hp

/-- Emitted conditions lines are newline-free for well-formed pairs. -/
theorem noNL_condLines (m : CondMap) (h : ∀ p ∈ m, condPairWF p = true) :
    ∀ l ∈ condLines m, noNL l = true := by
  intro l hl
  unfold condLines at hl
  rcases List.mem_flatMap.mp hl with ⟨p, hp, hlp⟩
  have hpw := h p hp
  unfold condPairWF at hpw
  rw [Bool.and_eq_true] at hpw
  by_cases hu : startsWithStr p.1 "_" = true
  · rw [if_pos hu] at hlp
    cases hlp
  · rw [if_neg hu] at hlp
    rcases hv : p.2 with n | b | s | xs | _ <;> rw [hv] at hlp <;>
      rw [hv] at hpw
    · simp only [List.mem_singleton] at hlp
      subst hlp
      rw [noNL_append, noNL_append, noNL_append]
      rw [noNL_condKey p.1 hpw.1, noNL_condValString _ hpw.2]
      decide
    · simp only [List.mem_singleton] at hlp
      subst hlp
      rw [noNL_append, noNL_append, noNL_append]
      rw [noNL_condKey p.1 hpw.1, noNL_condValString _ hpw.2]
      decide
    · simp only [List.mem_singleton] at hlp
      subst hlp
      rw [noNL_append, noNL_append, noNL_append]
      rw [noNL_condKey p.1 hpw.1, noNL_condValString _ hpw.2]
      decide
    · rcases List.mem_cons.mp hlp with rfl | hlp
      · rw [noNL_append, noNL_append, noNL_condKey p.1 hpw.1]
        decide
      · rcases List.mem_map.mp hlp with ⟨x, hx, hxl⟩
        subst hxl
        have hall := hpw.2
        unfold condValWF at hall
        rw [List.all_eq_true] at hall
        have := hall x hx
        rw [Bool.and_eq_true] at this
        rw [noNL_append, this.2]
        decide
    · simp only [List.mem_singleton] at hlp
      subst hlp
      rw [noNL_append, noNL_append, noNL_append]
      rw [noNL_condKey p.1 hpw.1, noNL_condValString _ hpw.2]
      decide

/-- The conditions block is newline-free for a round-trip-safe entry. -/
theorem noNL_condBlock (e : FlatEntry) (h : condsRT e.conditions = true) :
    ∀ l ∈ condBlockLines e, noNL l = true := by
  intro l hl
  unfold condBlockLines at hl
  rcases hc : e.conditions with _ | m <;> rw [hc] at hl
  · cases hl
  · rcases List.mem_cons.mp hl with rfl | hl
    · decide
    · exact noNL_condLines m (condsRT_wf e.conditions h m hc).1 l hl

/-- The title comment line is newline-free for a newline-free title. -/
theorem noNL_titleComment (e : FlatEntry) (ht : titleRT e.title_ = true) :
    ∀ l ∈ titleCommentLines e, noNL l = true := by
  intro l hl
  unfold titleCommentLines at hl
  rcases hto : e.title_ with _ | t <;> rw [hto] at hl
  · rw [show truthyStr none = false from rfl, if_neg (by decide)] at hl
    cases hl
  · unfold titleRT at ht
    rw [hto] at ht
    by_cases htt : truthyStr (some t) = true
    · rw [if_pos htt] at hl
      simp only [List.mem_singleton] at hl
      subst hl
      rw [show (some t).getD "" = t from rfl, noNL_append,
        show noNL t = true from ht]
      decide
    · rw [if_neg htt] at hl
      cases hl

/-- The description selector keeps newline-freedom. -/
theorem noNL_ite_parts (pdtPart mdPart : String)
    (h1 : noNL pdtPart = true) (h2 : noNL mdPart = true) :
    noNL (if (if mdPart == "" then pdtPart
              else if pdtPart == "" then mdPart
              else pdtPart ++ ", " ++ mdPart) == "" then "Default"
          else (if mdPart == "" then pdtPart
                else if pdtPart == "" then mdPart
                else pdtPart ++ ", " ++ mdPart)) = true := by
  have hd : noNL (if mdPart == "" then pdtPart
      else if pdtPart == "" then mdPart
      else pdtPart ++ ", " ++ mdPart) = true := by
    by_cases hm : (mdPart == "") = true
    · rw [if_pos hm]; exact h1
    · rw [if_neg hm]
      by_cases hp : (pdtPart == "") = true
      · rw [if_pos hp]; exact h2
      · rw [if_neg hp, noNL_append, noNL_append, h1, h2]
        decide
  by_cases he : ((if mdPart == "" then pdtPart
      else if pdtPart == "" then mdPart
      else pdtPart ++ ", " ++ mdPart) == "") = true
  · rw [if_pos he]; decide
  · rw [if_neg he]; exact hd

/-- The generated range description is newline-free for a round-trip-safe
entry. -/
theorem noNL_genRangeDesc (e : FlatEntry) (h : condsRT e.conditions = true) :
    noNL (generateRangeDescription e) = true := by
  unfold generateRangeDescription
  rcases hc : e.conditions with _ | m
  · decide
  · have hwf := (condsRT_wf e.conditions h m hc).1
    have hval : ∀ (k : String) (v : CondVal), jsLookup m k = some v →
        noNL (condValString v) = true := by
      intro k v hv
      have hpw := hwf (k, v) (jsLookup_mem m k v hv)
      unfold condPairWF at hpw
      rw [Bool.and_eq_true] at hpw
      exact noNL_condValString v hpw.2
    dsimp only
    apply noNL_ite_parts
    · rcases hA : jsLookup m "pdt_greater_than" with _ | a <;>
        rcases hB : jsLookup m "pdt_less_than_or_equal_to" with _ | b
      · decide
      · rw [show (match (none : Option CondVal), some b with
          | some a, some b => "PDT " ++ condValString a ++ "-" ++ condValString b
          | some a, none => "PDT >" ++ condValString a
          | none, some b => "PDT ≤" ++ condValString b
          | none, none => "") = "PDT ≤" ++ condValString b from rfl]
        rw [noNL_append, hval _ b hB]
        decide
      · rw [show (match some a, (none : Option CondVal) with
          | some a, some b => "PDT " ++ condValString a ++ "-" ++ condValString b
          | some a, none => "PDT >" ++ condValString a
          | none, some b => "PDT ≤" ++ condValString b
          | none, none => "") = "PDT >" ++ condValString a from rfl]
        rw [noNL_append, hval _ a hA]
        decide
      · rw [show (match some a, some b with
          | some a, some b => "PDT " ++ condValString a ++ "-" ++ condValString b
          | some a, none => "PDT >" ++ condValString a
          | none, some b => "PDT ≤" ++ condValString b
          | none, none => "") =
          "PDT " ++ condValString a ++ "-" ++ condValString b from rfl]
        rw [noNL_append, noNL_append, noNL_append, hval _ a hA, hval _ b hB]
        decide
    · rcases hA : jsLookup m "mean_delay_greater_than" with _ | a <;>
        rcases hB : jsLookup m "mean_delay_less_than_or_equal_to" with _ | b
      · decide
      · rw [show (match (none : Option CondVal), some b with
          | some a, some b =>
            "Mean Delay " ++ condValString a ++ "-" ++ condValString b
          | some a, none => "Mean Delay >" ++ condValString a
          | none, some b => "Mean Delay ≤" ++ condValString b
          | none, none => "") = "Mean Delay ≤" ++ condValString b from rfl]
        rw [noNL_append, hval _ b hB]
        decide
      · rw [show (match some a, (none : Option CondVal) with
          | some a, some b =>
            "Mean Delay " ++ condValString a ++ "-" ++ condValString b
          | some a, none => "Mean Delay >" ++ condValString a
          | none, some b => "Mean Delay ≤" ++ condValString b
          | none, none => "") = "Mean Delay >" ++ condValString a from rfl]
        rw [noNL_append, hval _ a hA]
        decide
      · rw [show (match some a, some b with
          | some a, some b =>
            "Mean Delay " ++ condValString a ++ "-" ++ condValString b
          | some a, none => "Mean Delay >" ++ condValString a
          | none, some b => "Mean Delay ≤" ++ condValString b
          | none, none => "") =
          "Mean Delay " ++ condValString a ++ "-" ++ condValString b from rfl]
        rw [noNL_append, noNL_append, noNL_append, hval _ a hA, hval _ b hB]
        decide

/-- The ranges comment key is newline-free for a round-trip-safe entry. -/
theorem noNL_rangeDescKey (e : FlatEntry) (hc : condsRT e.conditions = true)
    (ht : titleRT e.title_ = true) : noNL (rangeDescKey e) = true := by
  unfold rangeDescKey jsOrStr
  by_cases htt : truthyStr e.title_ = true
  · rw [if_pos htt]
    rcases hto : e.title_ with _ | t
    · rw [hto] at htt
      exact absurd htt (by decide)
    · unfold titleRT at ht
      rw [hto] at ht
      exact show noNL t = true from ht
  · rw [if_neg htt]
    exact noNL_genRangeDesc e hc

/-- A plain string is newline-free. -/
theorem noNL_of_plain (s : String) (h : plainStr s = true) : noNL s = true := by
  unfold plainStr at h
  simp only [Bool.and_eq_true] at h
  exact h.1.1.1.2

/-- The emitted lines of a display-format entry are newline-free. -/
theorem noNL_dfEntryLines (e : FlatEntry) (h : dfEntryRT e = true) :
    ∀ l ∈ dfEntryLines e, noNL l = true := by
  intro l hl
  unfold dfEntryRT at h
  simp only [Bool.and_eq_true] at h
  obtain ⟨⟨⟨⟨⟨⟨⟨⟨hA, -⟩, -⟩, -⟩, -⟩, -⟩, -⟩, hH⟩, hI⟩ := h
  unfold dfEntryLines at hl
  rcases List.mem_append.mp hl with hl | hl
  · rcases List.mem_append.mp hl with hl | hl
    · exact noNL_titleComment e hI l hl
    · rcases List.mem_cons.mp hl with rfl | hl
      · decide
      · simp only [List.mem_singleton] at hl
        subst hl
        rw [noNL_append]
        rcases hf : e.format with _ | f <;> rw [hf] at hA
        · exact absurd hA (by decide)
        · rw [show scalarOptString (some f) = f from rfl, noNL_of_plain f hA]
          decide
  · exact noNL_condBlock e hH l hl

/-- The emitted lines of a ranges section are newline-free. -/
theorem noNL_rangesSectionLines (entries : List FlatEntry)
    (h : ∀ e ∈ entries, rgEntryRT e = true) :
    ∀ l ∈ rangesSectionLines entries, noNL l = true := by
  intro l hl
  unfold rangesSectionLines at hl
  rcases List.mem_flatMap.mp hl with ⟨b, hb, hlb⟩
  have hkeyed := bucketBy_keyed rangeDescKey entries b hb
  simp only [List.cons_append, List.nil_append, List.mem_cons] at hlb
  rcases hlb with rfl | rfl | rfl | hlb
  · decide
  · obtain ⟨e0, he0⟩ := List.exists_mem_of_ne_nil b.2 hkeyed.1
    have he0e : e0 ∈ entries := bucketBy_mem_of_mem rangeDescKey entries b hb e0 he0
    have hrt := h e0 he0e
    unfold rgEntryRT at hrt
    simp only [Bool.and_eq_true] at hrt
    obtain ⟨⟨⟨⟨⟨⟨-, -⟩, -⟩, -⟩, -⟩, hF⟩, hG⟩ := hrt
    rw [← hkeyed.2 e0 he0, noNL_append, noNL_rangeDescKey e0 hF hG]
    decide
  · decide
  · rcases List.mem_flatMap.mp hlb with ⟨e, he, hle⟩
    have hrt := h e (bucketBy_mem_of_mem rangeDescKey entries b hb e he)
    unfold rgEntryRT at hrt
    simp only [Bool.and_eq_true] at hrt
    obtain ⟨⟨⟨⟨⟨⟨hA, -⟩, -⟩, -⟩, -⟩, hF⟩, -⟩ := hrt
    unfold rangesItemLines at hle
    simp only [List.cons_append, List.nil_append, List.mem_cons] at hle
    rcases hle with rfl | rfl | rfl | hle
    · rw [noNL_append]
      rcases hd : e.delivery_option with _ | d <;> rw [hd] at hA
      · exact absurd hA (by decide)
      · rw [show scalarOptString (some d) = d from rfl, noNL_of_plain d hA]
        decide
    · rw [noNL_append, noNL_intOptString]
      decide
    · rw [noNL_append, noNL_intOptString]
      decide
    · exact noNL_condBlock e hF l hle

/-- The emitted lines of a capping entry are newline-free. -/
theorem noNL_cappingEntryLines (e : FlatEntry) (h : cpEntryRT e = true) :
    ∀ l ∈ cappingEntryLines e, noNL l = true := by
  intro l hl
  unfold cpEntryRT at h
  simp only [Bool.and_eq_true] at h
  obtain ⟨⟨⟨⟨⟨⟨hA, -⟩, -⟩, -⟩, -⟩, hF⟩, hG⟩ := h
  unfold cappingEntryLines at hl
  rcases List.mem_append.mp hl with hl | hl
  · rcases List.mem_append.mp hl with hl | hl
    · rcases List.mem_append.mp hl with hl | hl
      · rcases List.mem_append.mp hl with hl | hl
        · exact noNL_titleComment e hG l hl
        · rcases List.mem_cons.mp hl with rfl | hl
          · decide
          · simp only [List.mem_singleton] at hl
            subst hl
            rw [noNL_append]
            rcases hd : e.delivery_option with _ | d <;> rw [hd] at hA
            · exact absurd hA (by decide)
            · rw [show scalarOptString (some d) = d from rfl, noNL_of_plain d hA]
              decide
      · exact noNL_condBlock e hF l hl
    · rcases hs : e.single with _ | sc <;> rw [hs] at hl
      · cases hl
      · simp only [List.mem_cons, List.mem_singleton] at hl
        rcases hl with rfl | rfl | rfl | hh
        · decide
        · rw [noNL_append, noNL_intRepr]
          decide
        · rw [noNL_append, noNL_intRepr]
          decide
        · cases hh
  · rcases hr : e.ranges with _ | rc <;> rw [hr] at hl
    · cases hl
    · simp only [List.mem_cons, List.mem_singleton] at hl
      rcases hl with rfl | rfl | rfl | rfl | rfl | rfl | rfl | hh
      · decide
      · decide
      · rw [noNL_append, noNL_intRepr]
        decide
      · rw [noNL_append, noNL_intRepr]
        decide
      · decide
      · rw [noNL_append, noNL_intRepr]
        decide
      · rw [noNL_append, noNL_intRepr]
        decide
      · cases hh

/-- The emitted lines of a rounding entry are newline-free. -/
theorem noNL_roundingEntryLines (e : FlatEntry) (h : rdEntryRT e = true) :
    ∀ l ∈ roundingEntryLines e, noNL l = true := by
  intro l hl
  unfold rdEntryRT at h
  simp only [Bool.and_eq_true] at h
  obtain ⟨⟨⟨⟨⟨⟨⟨⟨hA, -⟩, -⟩, -⟩, -⟩, -⟩, -⟩, -⟩, hI⟩ := h
  unfold roundingEntryLines at hl
  rcases List.mem_append.mp hl with hl | hl
  · exact noNL_titleComment e hI l hl
  · rcases List.mem_cons.mp hl with rfl | hl
    · decide
    · simp only [List.mem_singleton] at hl
      subst hl
      rw [noNL_append]
      rcases hs : e.strategy with _ | s <;> rw [hs] at hA
      · exact absurd hA (by decide)
      · rw [show scalarOptString (some s) = s from rfl, noNL_of_plain s hA]
        decide

/-- Every emitted section line is newline-free for a round-trip-safe
section. -/
theorem noNL_sectionLines (sec : Section) (h : secRT sec = true) :
    ∀ l ∈ sectionLines sec, noNL l = true := by
  intro l hl
  unfold sectionLines at hl
  unfold secRT at h
  rcases sec with ⟨k, entries⟩
  rcases k <;> simp only at hl h <;> rw [List.all_eq_true] at h
  · rcases List.mem_append.mp hl with hl | hl
    · simp only [List.mem_cons, List.mem_singleton] at hl
      rcases hl with rfl | rfl | hh
      · decide
      · decide
      · cases hh
    · rcases List.mem_flatMap.mp hl with ⟨e, he, hle⟩
      exact noNL_dfEntryLines e (h e he) l hle
  · exact noNL_rangesSectionLines entries h l hl
  · rcases List.mem_append.mp hl with hl | hl
    · simp only [List.mem_cons, List.mem_singleton] at hl
      rcases hl with rfl | rfl | hh
      · decide
      · decide
      · cases hh
    · rcases List.mem_flatMap.mp hl with ⟨e, he, hle⟩
      exact noNL_cappingEntryLines e (h e he) l hle
  · rcases List.mem_append.mp hl with hl | hl
    · simp only [List.mem_cons, List.mem_singleton] at hl
      rcases hl with rfl | rfl | hh
      · decide
      · decide
      · cases hh
    · rcases List.mem_flatMap.mp hl with ⟨e, he, hle⟩
      exact noNL_roundingEntryLines e (h e he) l hle

/-- Round-trip-safe conditions have well-formed keys. -/
theorem condsRT_keys (c : Option CondMap) (h : condsRT c = true) :
    ∀ m, c = some m → ∀ p ∈ m, condKeyWF p.1 = true := by
  intro m hm p hp
  have := (condsRT_wf c h m hm).1 p hp
  unfold condPairWF at this
  rw [Bool.and_eq_true] at this
  exact this.1

/-- The conditions component of a round-trip-safe display-format entry. -/
theorem dfEntryRT_conds (e : FlatEntry) (h : dfEntryRT e = true) :
    condsRT e.conditions = true := by
  unfold dfEntryRT at h
  simp only [Bool.and_eq_true] at h
  exact h.1.2

/-- The conditions component of a round-trip-safe ranges entry. -/
theorem rgEntryRT_conds (e : FlatEntry) (h : rgEntryRT e = true) :
    condsRT e.conditions = true := by
  unfold rgEntryRT at h
  simp only [Bool.and_eq_true] at h
  exact h.1.2

/-- The conditions component of a round-trip-safe capping entry. -/
theorem cpEntryRT_conds (e : FlatEntry) (h : cpEntryRT e = true) :
    condsRT e.conditions = true := by
  unfold cpEntryRT at h
  simp only [Bool.and_eq_true] at h
  exact h.1.2

/-- The comment filter turns an emitted section into its headed chunk
flattening. -/
theorem filter_sectionLines_chunks (sec : Section) (h : secRT sec = true) :
    (sectionLines sec).filter (fun l => !(isCommentOrBlank l)) =
      (emittedChunks sec).flatMap (fun c => c) := by
  rcases sec with ⟨k, entries⟩
  unfold secRT at h
  rcases k <;> simp only at h <;> rw [List.all_eq_true] at h
  · rw [filter_dfSectionLines entries (fun e he =>
      condsRT_keys e.conditions (dfEntryRT_conds e (h e he)))]
    unfold emittedChunks
    rw [List.flatMap_map]
  · rw [show sectionLines ⟨.ranges, entries⟩ = rangesSectionLines entries from rfl]
    rw [filter_rangesSectionLines entries (fun e he =>
      condsRT_keys e.conditions (rgEntryRT_conds e (h e he)))]
    unfold emittedChunks
    rw [List.flatMap_map]
  · rw [filter_cappingSectionLines entries (fun e he =>
      condsRT_keys e.conditions (cpEntryRT_conds e (h e he)))]
    unfold emittedChunks
    rw [List.flatMap_map]
  · rw [filter_roundingSectionLines entries]
    unfold emittedChunks
    rw [List.flatMap_map]

/-- Every emitted chunk is headed by a section item line and continues with
non-head lines. -/
theorem emittedChunks_headed (sec : Section) :
    ∀ cnk ∈ emittedChunks sec, ∃ hd tl, cnk = hd :: tl ∧
      startsWithStr hd "  - " = true ∧
      ∀ l ∈ tl, startsWithStr l "  - " = false := by
  intro cnk hcnk
  rcases sec with ⟨k, entries⟩
  unfold emittedChunks at hcnk
  rcases k <;> simp only at hcnk
  · rcases List.mem_map.mp hcnk with ⟨e, -, rfl⟩
    exact ⟨_, _, rfl, by decide, dfItemChunk_tail e⟩
  · rcases List.mem_map.mp hcnk with ⟨b, -, rfl⟩
    refine ⟨_, _, rfl, by decide, ?_⟩
    intro l hl
    rcases List.mem_flatMap.mp hl with ⟨e, -, hle⟩
    exact rangesItem_tail e l hle
  · rcases List.mem_map.mp hcnk with ⟨e, -, rfl⟩
    exact ⟨_, _, rfl, by decide, cappingItemChunk_tail e⟩
  · rcases List.mem_map.mp hcnk with ⟨e, -, rfl⟩
    exact ⟨_, _, rfl, by decide, roundingItemChunk_tail e⟩

/-- Parsing the emitted chunks of a round-trip-safe section yields its
parsed sections. -/
theorem parsed_emittedChunks (sec : Section) (h : secRT sec = true) :
    (emittedChunks sec).filterMap parseSectionChunk = parsedSecs sec := by
  rcases sec with ⟨k, entries⟩
  unfold secRT at h
  rcases k <;> simp only at h <;> rw [List.all_eq_true] at h
  · exact parsedChunks_df entries h
  · exact parsedChunks_rg entries h
  · exact parsedChunks_cp entries h
  · exact parsedChunks_rd entries h

/-- A line whose first two characters miss `pd` is not the `pdt:` opener. -/
theorem ne_pdt2 (l : String) (c1 c2 : Char) (rest : List Char)
    (hl : l.data = c1 :: c2 :: rest) (h : (c1 == 'p' && c2 == 'd') = false) :
    (l == "pdt:") = false := by
  rw [beq_eq_false_iff_ne]
  intro he
  rw [he] at hl
  rw [show ("pdt:" : String).data = ['p', 'd', 't', ':'] from rfl] at hl
  simp only [List.cons.injEq] at hl
  rw [← hl.1, ← hl.2.1] at h
  exact absurd h (by decide)

/-- Every emitted config line is newline-free for round-trip-safe metadata
and sections. -/
theorem noNL_formatLines (cfg : Config)
    (h1 : noNL cfg.configFormatVersion = true) (h2 : noNL cfg.variant = true)
    (h3 : noNL cfg.platform = true) (h4 : noNL cfg.countryCode = true)
    (hs : ∀ sec ∈ cfg.pdt, secRT sec = true) :
    ∀ l ∈ formatLines cfg, noNL l = true := by
  intro l hl
  unfold formatLines at hl
  rcases List.mem_append.mp hl with hl | hl
  · simp only [List.mem_cons, List.mem_singleton] at hl
    rcases hl with rfl | rfl | rfl | rfl | rfl | rfl | hh
    · rw [noNL_append]
      by_cases hv : (cfg.configFormatVersion == "") = true
      · rw [if_pos hv]
        decide
      · rw [if_neg hv, h1]
        decide
    · rw [noNL_append, h2]
      decide
    · rw [noNL_append, h3]
      decide
    · rw [noNL_append, h4]
      decide
    · decide
    · decide
    · cases hh
  · rcases List.mem_flatMap.mp hl with ⟨sec, hsec, hls⟩
    exact noNL_sectionLines sec (hs sec hsec) l hls

/-- Dropping through `pdt:` on the emitted lines leaves the section lines. -/
theorem dropPdt_formatLines (cfg : Config) :
    dropThroughPdt (formatLines cfg) = cfg.pdt.flatMap sectionLines := by
  unfold formatLines
  rw [show (["config_format_version: " ++
        (if cfg.configFormatVersion == "" then "1" else cfg.configFormatVersion),
      "variant: " ++ cfg.variant, "platform: " ++ cfg.platform,
      "country_code: " ++ cfg.countryCode, "", "pdt:"] ++
      cfg.pdt.flatMap sectionLines) =
    ("config_format_version: " ++
        (if cfg.configFormatVersion == "" then "1" else cfg.configFormatVersion)) ::
      (("variant: " ++ cfg.variant) :: (("platform: " ++ cfg.platform) ::
        (("country_code: " ++ cfg.countryCode) :: ("" ::
          ("pdt:" :: cfg.pdt.flatMap sectionLines))))) from rfl]
  rw [dropThroughPdt, if_neg (ne_true_of_eq_false (ne_pdt2 _ 'c' 'o'
    ("nfig_format_version: ".data ++
      (if cfg.configFormatVersion == "" then "1"
       else cfg.configFormatVersion).data)
    (by rw [String.data_append]; rfl) (by decide)))]
  rw [dropThroughPdt, if_neg (ne_true_of_eq_false (ne_pdt2 _ 'v' 'a'
    ("riant: ".data ++ cfg.variant.data)
    (by rw [String.data_append]; rfl) (by decide)))]
  rw [dropThroughPdt, if_neg (ne_true_of_eq_false (ne_pdt2 _ 'p' 'l'
    ("atform: ".data ++ cfg.platform.data)
    (by rw [String.data_append]; rfl) (by decide)))]
  rw [dropThroughPdt, if_neg (ne_true_of_eq_false (ne_pdt2 _ 'c' 'o'
    ("untry_code: ".data ++ cfg.countryCode.data)
    (by rw [String.data_append]; rfl) (by decide)))]
  rw [dropThroughPdt, if_neg (by decide)]
  rw [dropThroughPdt, if_pos (by decide)]

/-- A flattening of singletons is a map. -/
theorem flatMap_one {α β : Type} (l : List α) (f : α → β) :
    l.flatMap (fun a => [f a]) = l.map f := by
  induction l with
  | nil => rfl
  | cons x xs ih => rw [List.flatMap_cons, List.map_cons, ih]; rfl

/-- Pointwise permutations of the pieces give a permutation of the
flattening. -/
theorem flatMap_perm_congr {α β : Type} (l : List α) (f g : α → List β)
    (h : ∀ a ∈ l, (f a).Perm (g a)) : (l.flatMap f).Perm (l.flatMap g) := by
  induction l with
  | nil => exact List.Perm.refl _
  | cons x xs ih =>
    rw [List.flatMap_cons, List.flatMap_cons]
    exact List.Perm.append (h x (by simp))
      (ih (fun a ha => h a (List.mem_cons_of_mem x ha)))

/-- Filtering then flattening is flattening with an emptied else-branch. -/
theorem flatMap_filter {α β : Type} (l : List α) (p : α → Bool) (g : α → List β) :
    (l.filter p).flatMap g = l.flatMap (fun a => if p a then g a else []) := by
  induction l with
  | nil => rfl
  | cons x xs ih =>
    rw [List.filter_cons]
    by_cases hp : p x = true
    · rw [if_pos hp, List.flatMap_cons, List.flatMap_cons, if_pos hp, ih]
    · rw [if_neg hp, List.flatMap_cons, if_neg hp, ih]
      rfl

/-- The marketplace coercion is the identity on a round-trip-safe config. -/
theorem processConfig_id (cfg : Config) (hs : ∀ sec ∈ cfg.pdt, secRT sec = true) :
    processConfigForYaml cfg = cfg := by
  unfold processConfigForYaml
  have hmap : cfg.pdt.map (fun sec =>
      match sec.kind with
      | .ranges => { sec with entries := sec.entries.map processEntryMarketplace }
      | .displayFormat =>
        { sec with entries := sec.entries.map processEntryMarketplace }
      | _ => sec) = cfg.pdt := by
    have hptw : ∀ sec ∈ cfg.pdt, (fun sec =>
        match sec.kind with
        | SectionType.ranges =>
          { sec with entries := sec.entries.map processEntryMarketplace }
        | SectionType.displayFormat =>
          { sec with entries := sec.entries.map processEntryMarketplace }
        | _ => sec) sec = id sec := by
      intro sec hsec
      have hrt := hs sec hsec
      rcases sec with ⟨k, entries⟩
      unfold secRT at hrt
      rcases k <;> simp only at hrt ⊢
      · rw [List.all_eq_true] at hrt
        have : entries.map processEntryMarketplace = entries := by
          have hp : ∀ e ∈ entries, processEntryMarketplace e = id e := by
            intro e he
            exact processEntryMarketplace_id e
              (condsRT_mp e.conditions (dfEntryRT_conds e (hrt e he)))
          rw [List.map_congr_left hp, List.map_id]
        rw [this]
        rfl
      · rw [List.all_eq_true] at hrt
        have : entries.map processEntryMarketplace = entries := by
          have hp : ∀ e ∈ entries, processEntryMarketplace e = id e := by
            intro e he
            exact processEntryMarketplace_id e
              (condsRT_mp e.conditions (rgEntryRT_conds e (hrt e he)))
          rw [List.map_congr_left hp, List.map_id]
        rw [this]
        rfl
      · rfl
      · rfl
    rw [List.map_congr_left hptw, List.map_id]
  rw [hmap]

/-- Splitting a newline join of nonempty newline-free lines recovers them. -/
theorem splitLines_join_of_noNL (ls : List String) (hne : ls ≠ [])
    (h : ∀ l ∈ ls, noNL l = true) :
    splitLines (joinParts newlineStr ls) = ls := by
  rcases ls with _ | ⟨x, xs⟩
  · exact absurd rfl hne
  · apply splitLines_join
    intro l hl c hc
    have := h l hl
    unfold noNL at this
    rw [List.all_eq_true] at this
    have hcc := this c hc
    rw [Bool.not_eq_true'] at hcc
    exact hcc

/-- The parse model on the emitted text reads back the parsed sections of
every emitted section, in emission order. -/
theorem parse_format_chunks (cfg : Config)
    (h1 : noNL cfg.configFormatVersion = true) (h2 : noNL cfg.variant = true)
    (h3 : noNL cfg.platform = true) (h4 : noNL cfg.countryCode = true)
    (hs : ∀ sec ∈ cfg.pdt, secRT sec = true) :
    parsePdtModel (formatConfigWithComments cfg) = cfg.pdt.flatMap parsedSecs := by
  unfold parsePdtModel formatConfigWithComments
  dsimp only
  rw [splitLines_join_of_noNL (formatLines cfg) (by
      intro hcontr
      have := congrArg List.length hcontr
      rw [show (formatLines cfg).length =
        6 + (cfg.pdt.flatMap sectionLines).length from by
          unfold formatLines
          rw [List.length_append]
          rfl, List.length_nil] at this
      omega)
    (noNL_formatLines cfg h1 h2 h3 h4 hs)]
  rw [dropPdt_formatLines cfg]
  rw [filter_flatMap_comm]
  rw [flatMap_congr_fn (fun sec hsec =>
    filter_sectionLines_chunks sec (hs sec hsec))]
  rw [← List.flatMap_assoc]
  rw [splitChunks_flat _ (cfg.pdt.flatMap emittedChunks) (by
    intro cnk hcnk
    rcases List.mem_flatMap.mp hcnk with ⟨sec, -, hc⟩
    exact emittedChunks_headed sec cnk hc)]
  rw [filterMap_flatMap]
  exact flatMap_congr_fn (fun sec hsec => parsed_emittedChunks sec (hs sec hsec))

/-- Collection distributes over a section flattening. -/
theorem collectEntries_flatMap (ss : List Section) (F : Section → List Section)
    (k : SectionType) :
    collectEntries (ss.flatMap F) k =
      ss.flatMap (fun sec => collectEntries (F sec) k) := by
  unfold collectEntries
  rw [filter_flatMap_comm]
  rw [List.flatMap_assoc]

/-- Collecting a kind from the parsed sections of one emitted section gives
its entries up to bucket reordering. -/
theorem collect_parsedSecs (sec : Section) (k : SectionType) :
    (collectEntries (parsedSecs sec) k).Perm
      (if sec.kind == k then sec.entries.map dropTitleNormConds else []) := by
  rcases sec with ⟨k0, entries⟩
  unfold parsedSecs collectEntries
  by_cases hk : (k0 == k) = true
  · rw [if_pos hk]
    rcases k0 <;> simp only
    · rw [List.filter_map, show ((fun sec => sec.kind == k) ∘
        (fun e => (⟨.displayFormat, [dropTitleNormConds e]⟩ : Section))) =
        (fun _ => (SectionType.displayFormat == k)) from rfl]
      rw [List.filter_eq_self.mpr (fun e _ => hk), List.flatMap_map]
      rw [show (fun e => Section.entries
        (⟨SectionType.displayFormat, [dropTitleNormConds e]⟩ : Section)) =
        (fun e => [dropTitleNormConds e]) from rfl]
      rw [flatMap_one]
    · rw [List.filter_map, show ((fun sec => sec.kind == k) ∘
        (fun b : String × List FlatEntry =>
          (⟨.ranges, b.2.map dropTitleNormConds⟩ : Section))) =
        (fun _ => (SectionType.ranges == k)) from rfl]
      rw [List.filter_eq_self.mpr (fun b _ => hk), List.flatMap_map]
      rw [show (fun b : String × List FlatEntry => Section.entries
        (⟨SectionType.ranges, b.2.map dropTitleNormConds⟩ : Section)) =
        (fun b : String × List FlatEntry => b.2.map dropTitleNormConds) from rfl]
      rw [← List.map_flatMap]
      exact List.Perm.map dropTitleNormConds (bucketBy_flat_perm rangeDescKey entries)
    · rw [List.filter_map, show ((fun sec => sec.kind == k) ∘
        (fun e => (⟨.capping, [dropTitleNormConds e]⟩ : Section))) =
        (fun _ => (SectionType.capping == k)) from rfl]
      rw [List.filter_eq_self.mpr (fun e _ => hk), List.flatMap_map]
      rw [show (fun e => Section.entries
        (⟨SectionType.capping, [dropTitleNormConds e]⟩ : Section)) =
        (fun e => [dropTitleNormConds e]) from rfl]
      rw [flatMap_one]
    · rw [List.filter_map, show ((fun sec => sec.kind == k) ∘
        (fun e => (⟨.rounding, [dropTitleNormConds e]⟩ : Section))) =
        (fun _ => (SectionType.rounding == k)) from rfl]
      rw [List.filter_eq_self.mpr (fun e _ => hk), List.flatMap_map]
      rw [show (fun e => Section.entries
        (⟨SectionType.rounding, [dropTitleNormConds e]⟩ : Section)) =
        (fun e => [dropTitleNormConds e]) from rfl]
      rw [flatMap_one]
  · rw [if_neg hk]
    rcases k0 <;> simp only
    · rw [List.filter_map, show ((fun sec => sec.kind == k) ∘
        (fun e => (⟨.displayFormat, [dropTitleNormConds e]⟩ : Section))) =
        (fun _ => (SectionType.displayFormat == k)) from rfl]
      rw [List.filter_congr (fun e _ => Bool.eq_false_iff.mpr hk : ∀ e ∈ entries,
        (fun _ => (SectionType.displayFormat == k)) e = false)]
      rw [List.filter_false, List.map_nil, List.flatMap_nil]
    · rw [List.filter_map, show ((fun sec => sec.kind == k) ∘
        (fun b : String × List FlatEntry =>
          (⟨.ranges, b.2.map dropTitleNormConds⟩ : Section))) =
        (fun _ => (SectionType.ranges == k)) from rfl]
      rw [List.filter_congr (fun b _ => Bool.eq_false_iff.mpr hk :
        ∀ b ∈ bucketBy rangeDescKey entries,
        (fun _ => (SectionType.ranges == k)) b = false)]
      rw [List.filter_false, List.map_nil, List.flatMap_nil]
    · rw [List.filter_map, show ((fun sec => sec.kind == k) ∘
        (fun e => (⟨.capping, [dropTitleNormConds e]⟩ : Section))) =
        (fun _ => (SectionType.capping == k)) from rfl]
      rw [List.filter_congr (fun e _ => Bool.eq_false_iff.mpr hk : ∀ e ∈ entries,
        (fun _ => (SectionType.capping == k)) e = false)]
      rw [List.filter_false, List.map_nil, List.flatMap_nil]
    · rw [List.filter_map, show ((fun sec => sec.kind == k) ∘
        (fun e => (⟨.rounding, [dropTitleNormConds e]⟩ : Section))) =
        (fun _ => (SectionType.rounding == k)) from rfl]
      rw [List.filter_congr (fun e _ => Bool.eq_false_iff.mpr hk : ∀ e ∈ entries,
        (fun _ => (SectionType.rounding == k)) e = false)]
      rw [List.filter_false, List.map_nil, List.flatMap_nil]

/-- Per-kind multiset round trip for any round-trip-safe config. -/
theorem roundtrip_perm (cfg : Config)
    (h1 : noNL cfg.configFormatVersion = true) (h2 : noNL cfg.variant = true)
    (h3 : noNL cfg.platform = true) (h4 : noNL cfg.countryCode = true)
    (hs : ∀ sec ∈ cfg.pdt, secRT sec = true) (k : SectionType) :
    (collectEntries (parsePdtModel (generateYaml cfg)) k).Perm
      ((collectEntries cfg.pdt k).map dropTitleNormConds) := by
  unfold generateYaml
  rw [processConfig_id cfg hs]
  rw [parse_format_chunks cfg h1 h2 h3 h4 hs]
  rw [collectEntries_flatMap]
  have hrhs : (collectEntries cfg.pdt k).map dropTitleNormConds =
      cfg.pdt.flatMap (fun sec =>
        if sec.kind == k then sec.entries.map dropTitleNormConds else []) := by
    unfold collectEntries
    rw [List.map_flatMap]
    rw [flatMap_filter]
  rw [hrhs]
  exact flatMap_perm_congr _ _ _ (fun sec _ => collect_parsedSecs sec k)

/-- A round-trip-safe conditions object from pointwise facts. -/
theorem condsRT_some (m : CondMap)
    (hwf : ∀ p ∈ m, condPairWF p = true)
    (hmp : ∀ p ∈ m, p.1 = "marketplace" → mpSafe p.2 = true)
    (hnd : (m.map Prod.fst).Nodup) : condsRT (some m) = true := by
  unfold condsRT
  rw [Bool.and_eq_true, List.all_eq_true]
  constructor
  · intro p hp
    rw [Bool.and_eq_true, Bool.or_eq_true]
    refine ⟨hwf p hp, ?_⟩
    by_cases hk : (p.1 == "marketplace") = true
    · exact Or.inr (hmp p hp (beq_iff_eq.mp hk))
    · exact Or.inl (by rw [Bool.not_eq_true', Bool.eq_false_iff]; exact hk)
  · exact decide_eq_true hnd

/-- An absent-on-empty conditions attachment stays round-trip-safe. -/
theorem condsRT_opt (m : CondMap) (h : condsRT (some m) = true) :
    condsRT (if m.isEmpty then none else some m) = true := by
  by_cases he : m.isEmpty = true
  · rw [if_pos he]
    rfl
  · rw [if_neg he]
    exact h

/-- The delivery-mode contribution: pair facts. -/
theorem dm_pair (g : Group) (h : optParamPlain (cpGet g "deliveryMode") = true) :
    ∀ p ∈ deliveryModeCond g, condPairWF p = true ∧ p.1 = "delivery_mode" := by
  intro p hp
  unfold deliveryModeCond at hp
  rcases hc : cpGet g "deliveryMode" with _ | s <;> rw [hc] at hp
  · cases hp
  · have hp2 : p ∈ (if (s == "") = true then ([] : CondMap)
        else [("delivery_mode", CondVal.str s)]) := hp
    rw [hc] at h
    unfold optParamPlain at h
    rw [Bool.or_eq_true] at h
    by_cases hs : (s == "") = true
    · rw [if_pos hs] at hp2
      cases hp2
    · rw [if_neg hs] at hp2
      simp only [List.mem_singleton] at hp2
      subst hp2
      rcases h with h | h
      · exact absurd h hs
      · refine ⟨?_, rfl⟩
        unfold condPairWF condValWF
        rw [Bool.and_eq_true, Bool.and_eq_true]
        exact ⟨rfl, h, by rw [Bool.not_eq_true', Bool.eq_false_iff]; exact hs⟩

/-- The delivery-mode contribution: key shape. -/
theorem dm_keys (g : Group) :
    ((deliveryModeCond g).map Prod.fst).Sublist ["delivery_mode"] := by
  unfold deliveryModeCond
  rcases cpGet g "deliveryMode" with _ | s
  · exact List.nil_sublist _
  · show ((if (s == "") = true then ([] : CondMap)
      else [("delivery_mode", CondVal.str s)]).map Prod.fst).Sublist _
    by_cases hs : (s == "") = true
    · rw [if_pos hs]
      exact List.nil_sublist _
    · rw [if_neg hs]
      exact List.Sublist.refl _

/-- The marketplace contribution: pair facts. -/
theorem mp_pair (g : Group) :
    ∀ p ∈ marketplaceCond g,
      (condPairWF p = true ∧ p.1 = "marketplace") ∧ mpSafe p.2 = true := by
  intro p hp
  unfold marketplaceCond at hp
  rcases hc : cpGet g "marketplace" with _ | s <;> rw [hc] at hp
  · cases hp
  · have hp2 : p ∈ (if (s == "") = true then ([] : CondMap)
        else [("marketplace", CondVal.bool (s == "true"))]) := hp
    by_cases hs : (s == "") = true
    · rw [if_pos hs] at hp2
      cases hp2
    · rw [if_neg hs] at hp2
      simp only [List.mem_singleton] at hp2
      subst hp2
      exact ⟨⟨rfl, rfl⟩, rfl⟩

/-- The marketplace contribution: key shape. -/
theorem mp_keys (g : Group) :
    ((marketplaceCond g).map Prod.fst).Sublist ["marketplace"] := by
  unfold marketplaceCond
  rcases cpGet g "marketplace" with _ | s
  · exact List.nil_sublist _
  · show ((if (s == "") = true then ([] : CondMap)
      else [("marketplace", CondVal.bool (s == "true"))]).map Prod.fst).Sublist _
    by_cases hs : (s == "") = true
    · rw [if_pos hs]
      exact List.nil_sublist _
    · rw [if_neg hs]
      exact List.Sublist.refl _

/-- The vertical-types contribution: pair facts. -/
theorem vt_pair (g : Group) (h : optParamTrim (cpGet g "verticalType") = true) :
    ∀ p ∈ verticalTypesCond g, condPairWF p = true ∧ p.1 = "vertical_types" := by
  intro p hp
  unfold verticalTypesCond at hp
  rcases hc : cpGet g "verticalType" with _ | s <;> rw [hc] at hp
  · cases hp
  · have hp2 : p ∈ (if (s == "") = true then ([] : CondMap)
        else [("vertical_types", CondVal.arr [s])]) := hp
    rw [hc] at h
    unfold optParamTrim at h
    rw [Bool.or_eq_true] at h
    by_cases hs : (s == "") = true
    · rw [if_pos hs] at hp2
      cases hp2
    · rw [if_neg hs] at hp2
      simp only [List.mem_singleton] at hp2
      subst hp2
      rcases h with h | h
      · exact absurd h hs
      · refine ⟨?_, rfl⟩
        unfold condPairWF condValWF
        rw [Bool.and_eq_true, List.all_eq_true]
        refine ⟨rfl, ?_⟩
        intro x hx
        simp only [List.mem_singleton] at hx
        subst hx
        exact h

/-- The vertical-types contribution: key shape. -/
theorem vt_keys (g : Group) :
    ((verticalTypesCond g).map Prod.fst).Sublist ["vertical_types"] := by
  unfold verticalTypesCond
  rcases cpGet g "verticalType" with _ | s
  · exact List.nil_sublist _
  · show ((if (s == "") = true then ([] : CondMap)
      else [("vertical_types", CondVal.arr [s])]).map Prod.fst).Sublist _
    by_cases hs : (s == "") = true
    · rw [if_pos hs]
      exact List.nil_sublist _
    · rw [if_neg hs]
      exact List.Sublist.refl _

/-- The parsed-integer contribution: pair facts. -/
theorem pic_pair (g : Group) (pn cn : String) (hk : condKeyWF cn = true)
    (h : optParamInt (cpGet g pn) = true) :
    ∀ p ∈ parsedIntCondOf g pn cn, condPairWF p = true ∧ p.1 = cn := by
  intro p hp
  unfold parsedIntCondOf at hp
  rcases hc : cpGet g pn with _ | s <;> rw [hc] at hp
  · cases hp
  · have hp2 : p ∈ (if (s == "") = true then ([] : CondMap)
        else [(cn, parseIntCond s)]) := hp
    rw [hc] at h
    unfold optParamInt at h
    rw [Bool.or_eq_true] at h
    by_cases hs : (s == "") = true
    · rw [if_pos hs] at hp2
      cases hp2
    · rw [if_neg hs] at hp2
      simp only [List.mem_singleton] at hp2
      subst hp2
      rcases h with h | h
      · exact absurd h hs
      · refine ⟨?_, rfl⟩
        unfold condPairWF
        rw [Bool.and_eq_true]
        refine ⟨hk, ?_⟩
        unfold parseIntCond
        rcases hj : jsParseInt s with _ | n
        · rw [hj] at h
          cases h
        · rfl

/-- The parsed-integer contribution: key shape. -/
theorem pic_keys (g : Group) (pn cn : String) :
    ((parsedIntCondOf g pn cn).map Prod.fst).Sublist [cn] := by
  unfold parsedIntCondOf
  rcases cpGet g pn with _ | s
  · exact List.nil_sublist _
  · show ((if (s == "") = true then ([] : CondMap)
      else [(cn, parseIntCond s)]).map Prod.fst).Sublist _
    by_cases hs : (s == "") = true
    · rw [if_pos hs]
      exact List.nil_sublist _
    · rw [if_neg hs]
      exact List.Sublist.refl _

/-- The optional integer-pair contribution: pair facts. -/
theorem oip_pair (k : String) (o : Option Int) (hk : condKeyWF k = true) :
    ∀ p ∈ optIntPair k o, condPairWF p = true ∧ p.1 = k := by
  intro p hp
  unfold optIntPair at hp
  rcases o with _ | n
  · cases hp
  · simp only [List.mem_singleton] at hp
    subst hp
    refine ⟨?_, rfl⟩
    unfold condPairWF
    rw [Bool.and_eq_true]
    exact ⟨hk, rfl⟩

/-- The optional integer-pair contribution: key shape. -/
theorem oip_keys (k : String) (o : Option Int) :
    ((optIntPair k o).map Prod.fst).Sublist [k] := by
  unfold optIntPair
  rcases o with _ | n
  · exact List.nil_sublist _
  · exact List.Sublist.refl _

/-- The JS default idiom keeps plainness. -/
theorem plain_jsOr (o : Option String) (d : String)
    (ho : optParamPlain o = true) (hd : plainStr d = true) :
    plainStr (jsOrStr o d) = true := by
  unfold jsOrStr
  rcases o with _ | s
  · rw [if_neg (by decide)]
    exact hd
  · have ho2 : ((s == "") || plainStr s) = true := ho
    rw [Bool.or_eq_true] at ho2
    by_cases hs : (s == "") = true
    · rw [if_neg (by
        show ¬((!(s == "")) = true)
        rw [hs]
        decide)]
      exact hd
    · rw [if_pos (by
        show (!(s == "")) = true
        rw [Bool.eq_false_iff.mpr hs]
        decide)]
      rcases ho2 with ho2 | ho2
      · exact absurd ho2 hs
      · exact ho2

/-- The display-format entry built per rule is round-trip-safe. -/
theorem dfEntryRT_of (g : Group) (rule : Rule) (hg : GroupWF g = true)
    (hr : dfRuleOk rule = true) : dfEntryRT (dfEntryOfRule g rule) = true := by
  unfold GroupWF at hg
  simp only [Bool.and_eq_true] at hg
  obtain ⟨⟨⟨⟨⟨⟨⟨⟨⟨ht, -⟩, hdm⟩, -⟩, hvt⟩, -⟩, -⟩, hple⟩, -⟩, -⟩ := hg
  unfold dfEntryOfRule
  dsimp only
  unfold dfEntryRT
  simp only [Bool.and_eq_true]
  refine ⟨⟨⟨⟨⟨⟨⟨⟨?_, rfl⟩, rfl⟩, rfl⟩, rfl⟩, rfl⟩, rfl⟩, ?_⟩, ?_⟩
  · rcases rule with ⟨f, t⟩ | _ | _
    · exact hr
    · exact absurd (hr : false = true) Bool.false_ne_true
    · exact absurd (hr : false = true) Bool.false_ne_true
  · apply condsRT_opt
    apply condsRT_some
    · intro p hp
      rcases List.mem_append.mp hp with hp | hp
      · rcases List.mem_append.mp hp with hp | hp
        · rcases List.mem_append.mp hp with hp | hp
          · exact (dm_pair g hdm p hp).1
          · exact ((mp_pair g p hp).1).1
        · exact (pic_pair g "pdtLessThanOrEqualTo" "pdt_less_than_or_equal_to"
            (by decide) hple p hp).1
      · exact (vt_pair g hvt p hp).1
    · intro p hp hk
      rcases List.mem_append.mp hp with hp | hp
      · rcases List.mem_append.mp hp with hp | hp
        · rcases List.mem_append.mp hp with hp | hp
          · exact absurd hk (by rw [(dm_pair g hdm p hp).2]; decide)
          · exact (mp_pair g p hp).2
        · exact absurd hk (by
            rw [(pic_pair g "pdtLessThanOrEqualTo" "pdt_less_than_or_equal_to"
              (by decide) hple p hp).2]
            decide)
      · exact absurd hk (by rw [(vt_pair g hvt p hp).2]; decide)
    · rw [List.map_append, List.map_append, List.map_append]
      apply List.Nodup.sublist
      · exact (((dm_keys g).append (mp_keys g)).append
          (pic_keys g "pdtLessThanOrEqualTo" "pdt_less_than_or_equal_to")).append
          (vt_keys g)
      · decide
  · exact ht

/-- The ranges entry built per rule is round-trip-safe. -/
theorem rgEntryRT_of (g : Group) (rule : Rule) (hg : GroupWF g = true) :
    rgEntryRT (rangesEntryOfRule g rule) = true := by
  unfold GroupWF at hg
  simp only [Bool.and_eq_true] at hg
  obtain ⟨⟨⟨⟨⟨⟨⟨⟨⟨ht, -⟩, hdm⟩, hdo⟩, hvt⟩, -⟩, -⟩, -⟩, -⟩, -⟩ := hg
  unfold rangesEntryOfRule
  unfold rgEntryRT
  simp only [Bool.and_eq_true]
  refine ⟨⟨⟨⟨⟨⟨?_, rfl⟩, rfl⟩, rfl⟩, rfl⟩, ?_⟩, ?_⟩
  · exact plain_jsOr (cpGet g "deliveryOption") "STANDARD" hdo (by decide)
  · apply condsRT_some
    · intro p hp
      rcases List.mem_append.mp hp with hp | hp
      · rcases List.mem_append.mp hp with hp | hp
        · rcases List.mem_append.mp hp with hp | hp
          · rcases List.mem_append.mp hp with hp | hp
            · rcases List.mem_append.mp hp with hp | hp
              · rcases List.mem_append.mp hp with hp | hp
                · exact (oip_pair "pdt_greater_than" rule.rgPdtGT
                    (by decide) p hp).1
                · exact (oip_pair "pdt_less_than_or_equal_to" rule.rgPdtLE
                    (by decide) p hp).1
              · exact (oip_pair "mean_delay_greater_than" rule.rgMdGT
                  (by decide) p hp).1
            · exact (oip_pair "mean_delay_less_than_or_equal_to" rule.rgMdLE
                (by decide) p hp).1
          · exact (dm_pair g hdm p hp).1
        · exact ((mp_pair g p hp).1).1
      · exact (vt_pair g hvt p hp).1
    · intro p hp hk
      rcases List.mem_append.mp hp with hp | hp
      · rcases List.mem_append.mp hp with hp | hp
        · rcases List.mem_append.mp hp with hp | hp
          · rcases List.mem_append.mp hp with hp | hp
            · rcases List.mem_append.mp hp with hp | hp
              · rcases List.mem_append.mp hp with hp | hp
                · exact absurd hk (by
                    rw [(oip_pair "pdt_greater_than" rule.rgPdtGT
                      (by decide) p hp).2]
                    decide)
                · exact absurd hk (by
                    rw [(oip_pair "pdt_less_than_or_equal_to" rule.rgPdtLE
                      (by decide) p hp).2]
                    decide)
              · exact absurd hk (by
                  rw [(oip_pair "mean_delay_greater_than" rule.rgMdGT
                    (by decide) p hp).2]
                  decide)
            · exact absurd hk (by
                rw [(oip_pair "mean_delay_less_than_or_equal_to" rule.rgMdLE
                  (by decide) p hp).2]
                decide)
          · exact absurd hk (by rw [(dm_pair g hdm p hp).2]; decide)
        · exact (mp_pair g p hp).2
      · exact absurd hk (by rw [(vt_pair g hvt p hp).2]; decide)
    · rw [List.map_append, List.map_append, List.map_append, List.map_append,
        List.map_append, List.map_append]
      apply List.Nodup.sublist
      · exact ((((((oip_keys "pdt_greater_than" rule.rgPdtGT).append
          (oip_keys "pdt_less_than_or_equal_to" rule.rgPdtLE)).append
          (oip_keys "mean_delay_greater_than" rule.rgMdGT)).append
          (oip_keys "mean_delay_less_than_or_equal_to" rule.rgMdLE)).append
          (dm_keys g)).append (mp_keys g)).append (vt_keys g)
      · decide
  · exact ht

/-- The capping entry built per group is round-trip-safe. -/
theorem cpEntryRT_of (g : Group) (hg : GroupWF g = true) :
    cpEntryRT (cappingEntryOfGroup g) = true := by
  unfold GroupWF at hg
  simp only [Bool.and_eq_true] at hg
  obtain ⟨⟨⟨⟨⟨⟨⟨⟨⟨ht, -⟩, hdm⟩, hdo⟩, hvt⟩, -⟩, hpgt⟩, hple⟩, hmgt⟩, hmle⟩ := hg
  unfold cappingEntryOfGroup
  dsimp only
  unfold cpEntryRT
  simp only [Bool.and_eq_true]
  refine ⟨⟨⟨⟨⟨⟨?_, rfl⟩, rfl⟩, rfl⟩, rfl⟩, ?_⟩, ?_⟩
  · exact plain_jsOr (cpGet g "deliveryOption") "STANDARD" hdo (by decide)
  · apply condsRT_opt
    apply condsRT_some
    · intro p hp
      rcases List.mem_append.mp hp with hp | hp
      · rcases List.mem_append.mp hp with hp | hp
        · rcases List.mem_append.mp hp with hp | hp
          · rcases List.mem_append.mp hp with hp | hp
            · rcases List.mem_append.mp hp with hp | hp
              · rcases List.mem_append.mp hp with hp | hp
                · exact (dm_pair g hdm p hp).1
                · exact ((mp_pair g p hp).1).1
              · exact (pic_pair g "pdtGreaterThan" "pdt_greater_than"
                  (by decide) hpgt p hp).1
            · exact (pic_pair g "pdtLessThanOrEqualTo" "pdt_less_than_or_equal_to"
                (by decide) hple p hp).1
          · exact (pic_pair g "meanDelayGreaterThan" "mean_delay_greater_than"
              (by decide) hmgt p hp).1
        · exact (pic_pair g "meanDelayLessThanOrEqualTo"
            "mean_delay_less_than_or_equal_to" (by decide) hmle p hp).1
      · exact (vt_pair g hvt p hp).1
    · intro p hp hk
      rcases List.mem_append.mp hp with hp | hp
      · rcases List.mem_append.mp hp with hp | hp
        · rcases List.mem_append.mp hp with hp | hp
          · rcases List.mem_append.mp hp with hp | hp
            · rcases List.mem_append.mp hp with hp | hp
              · rcases List.mem_append.mp hp with hp | hp
                · exact absurd hk (by rw [(dm_pair g hdm p hp).2]; decide)
                · exact (mp_pair g p hp).2
              · exact absurd hk (by
                  rw [(pic_pair g "pdtGreaterThan" "pdt_greater_than"
                    (by decide) hpgt p hp).2]
                  decide)
            · exact absurd hk (by
                rw [(pic_pair g "pdtLessThanOrEqualTo"
                  "pdt_less_than_or_equal_to" (by decide) hple p hp).2]
                decide)
          · exact absurd hk (by
              rw [(pic_pair g "meanDelayGreaterThan" "mean_delay_greater_than"
                (by decide) hmgt p hp).2]
              decide)
        · exact absurd hk (by
            rw [(pic_pair g "meanDelayLessThanOrEqualTo"
              "mean_delay_less_than_or_equal_to" (by decide) hmle p hp).2]
            decide)
      · exact absurd hk (by rw [(vt_pair g hvt p hp).2]; decide)
    · rw [List.map_append, List.map_append, List.map_append, List.map_append,
        List.map_append, List.map_append]
      apply List.Nodup.sublist
      · exact ((((((dm_keys g).append (mp_keys g)).append
          (pic_keys g "pdtGreaterThan" "pdt_greater_than")).append
          (pic_keys g "pdtLessThanOrEqualTo" "pdt_less_than_or_equal_to")).append
          (pic_keys g "meanDelayGreaterThan" "mean_delay_greater_than")).append
          (pic_keys g "meanDelayLessThanOrEqualTo"
            "mean_delay_less_than_or_equal_to")).append (vt_keys g)
      · decide
  · exact ht

/-- The rounding entry built per group is round-trip-safe. -/
theorem rdEntryRT_of (g : Group) (hg : GroupWF g = true) :
    rdEntryRT (roundingEntryOfGroup g) = true := by
  unfold GroupWF at hg
  simp only [Bool.and_eq_true] at hg
  obtain ⟨⟨⟨⟨⟨⟨⟨⟨⟨ht, -⟩, -⟩, -⟩, -⟩, hst⟩, -⟩, -⟩, -⟩, -⟩ := hg
  unfold roundingEntryOfGroup
  unfold rdEntryRT
  simp only [Bool.and_eq_true]
  exact ⟨⟨⟨⟨⟨⟨⟨⟨plain_jsOr (cpGet g "strategy") "NEAREST_5" hst (by decide),
    rfl⟩, rfl⟩, rfl⟩, rfl⟩, rfl⟩, rfl⟩, rfl⟩, ht⟩

/-- A display-format group's rules are all display rules. -/
theorem GroupWF_dfRules (g : Group) (hg : GroupWF g = true)
    (htype : (g.type == SectionType.displayFormat) = true) :
    ∀ r ∈ g.rules, dfRuleOk r = true := by
  unfold GroupWF at hg
  simp only [Bool.and_eq_true] at hg
  have h2 := hg.1.1.1.1.1.1.1.1.2
  rw [Bool.or_eq_true] at h2
  rcases h2 with h2 | h2
  · rw [Bool.not_eq_true', htype] at h2
    cases h2
  · exact List.all_eq_true.mp h2

/-- Every section rebuilt from well-formed groups is round-trip-safe. -/
theorem sectionsFromGroups_RT (groups : List Group)
    (hg : ∀ g ∈ groups, GroupWF g = true) :
    ∀ sec ∈ sectionsFromGroups groups, secRT sec = true := by
  intro sec hsec
  unfold sectionsFromGroups at hsec
  dsimp only at hsec
  rcases List.mem_append.mp hsec with hs1 | hs1
  · rcases List.mem_append.mp hs1 with hs2 | hs2
    · rcases List.mem_append.mp hs2 with hs3 | hs3
      · by_cases he : (groups.filter
            (fun g => g.type == SectionType.displayFormat)).isEmpty = true
        · rw [if_pos he] at hs3
          cases hs3
        · rw [if_neg he] at hs3
          simp only [List.mem_singleton] at hs3
          subst hs3
          unfold secRT
          simp only
          rw [List.all_eq_true]
          intro e he2
          rcases List.mem_flatMap.mp he2 with ⟨g, hgm, he3⟩
          rcases List.mem_map.mp he3 with ⟨rule, hrm, rfl⟩
          have hgw := hg g ((List.mem_filter.mp hgm).1)
          exact dfEntryRT_of g rule hgw
            (GroupWF_dfRules g hgw ((List.mem_filter.mp hgm).2) rule hrm)
      · by_cases he : (groups.filter
            (fun g => g.type == SectionType.ranges)).isEmpty = true
        · rw [if_pos he] at hs3
          cases hs3
        · rw [if_neg he] at hs3
          simp only [List.mem_singleton] at hs3
          subst hs3
          unfold secRT
          simp only
          rw [List.all_eq_true]
          intro e he2
          rcases List.mem_flatMap.mp he2 with ⟨g, hgm, he3⟩
          rcases List.mem_map.mp he3 with ⟨rule, hrm, rfl⟩
          exact rgEntryRT_of g rule (hg g ((List.mem_filter.mp hgm).1))
    · by_cases he : (groups.filter
          (fun g => g.type == SectionType.capping)).isEmpty = true
      · rw [if_pos he] at hs2
        cases hs2
      · rw [if_neg he] at hs2
        simp only [List.mem_singleton] at hs2
        subst hs2
        unfold secRT
        simp only
        rw [List.all_eq_true]
        intro e he2
        rcases List.mem_map.mp he2 with ⟨g, hgm, rfl⟩
        exact cpEntryRT_of g (hg g ((List.mem_filter.mp hgm).1))
  · by_cases he : (groups.filter
        (fun g => g.type == SectionType.rounding)).isEmpty = true
    · rw [if_pos he] at hs1
      cases hs1
    · rw [if_neg he] at hs1
      simp only [List.mem_singleton] at hs1
      subst hs1
      unfold secRT
      simp only
      rw [List.all_eq_true]
      intro e he2
      rcases List.mem_map.mp he2 with ⟨g, hgm, rfl⟩
      exact rdEntryRT_of g (hg g ((List.mem_filter.mp hgm).1))

/-- Claim C1 (amended): for a config whose metadata strings are newline-free
and whose `pdt` sections were rebuilt by `updateConfigFromGroups` from
well-formed groups, parsing the generated YAML reconstructs, per section
kind, the same multiset of logical flat entries as the config, after
dropping the `_title` sidecar AND identifying an explicitly empty conditions
object with an absent one; the bare `dropTitle` version of the claim fails
(see the counterexample). -/
theorem claim_C1_amended (v va pf cc : String) (s : CMState)
    (h1 : noNL v = true) (h2 : noNL va = true) (h3 : noNL pf = true)
    (h4 : noNL cc = true) (hg : ∀ g ∈ s.groups, GroupWF g = true)
    (k : SectionType) :
    (collectEntries (parsePdtModel (generateYaml
        ⟨v, va, pf, cc, (updateConfigFromGroups s).pdt⟩)) k).Perm
      ((collectEntries (updateConfigFromGroups s).pdt k).map
        dropTitleNormConds) :=
  roundtrip_perm ⟨v, va, pf, cc, (updateConfigFromGroups s).pdt⟩ h1 h2 h3 h4
    (fun sec hsec => sectionsFromGroups_RT s.groups hg sec hsec) k

set_option maxRecDepth 10000 in
/-- Claim C1, counterexample to the frozen statement: for a config rebuilt by
`updateConfigFromGroups` from one plain ranges group, the parsed entry
multiset differs from the source entries with only `_title` ignored — the
builder always attaches an explicitly empty conditions object, which prints
as a bare `conditions:` key and parses back as absent. -/
theorem claim_C1_counterexample :
    ¬ (collectEntries (parsePdtModel (generateYaml
        ⟨"1", "V", "P", "C",
         (updateConfigFromGroups ⟨[⟨"g1", .ranges, "T", [],
           [.rg ⟨10, 20, none, none, none, none⟩]⟩], [], 0, []⟩).pdt⟩))
        SectionType.ranges).Perm
      ((collectEntries
          (updateConfigFromGroups ⟨[⟨"g1", .ranges, "T", [],
            [.rg ⟨10, 20, none, none, none, none⟩]⟩], [], 0, []⟩).pdt
          SectionType.ranges).map dropTitle) := by
  decide

set_option maxRecDepth 10000 in
/-- Claim C1 witness: the amended round trip at a concrete four-section
config rebuilt from one well-formed group of each kind. -/
theorem claim_C1_amended_witness :
    ((noNL "1" = true ∧ noNL "V" = true ∧ noNL "P" = true ∧
      noNL "C" = true) ∧ ∀ g ∈ [gDF, gRG, gCP, gRD], GroupWF g = true) ∧
    ∀ k : SectionType,
      (collectEntries (parsePdtModel (generateYaml
          ⟨"1", "V", "P", "C",
           (updateConfigFromGroups ⟨[gDF, gRG, gCP, gRD], [], 0, []⟩).pdt⟩))
          k).Perm
        ((collectEntries
            (updateConfigFromGroups ⟨[gDF, gRG, gCP, gRD], [], 0, []⟩).pdt
            k).map dropTitleNormConds) :=
  ⟨⟨⟨by decide, by decide, by decide, by decide⟩, by decide⟩,
   fun k => claim_C1_amended "1" "V" "P" "C" ⟨[gDF, gRG, gCP, gRD], [], 0, []⟩
     (by decide) (by decide) (by decide) (by decide) (by decide) k⟩

end PdtConfig
